import Mathlib

/-!
# Halide IR printer (`cpp/IRPrinter.cpp`)

A shallow embedding of the IR pretty-printer: the node sets it traverses, the
printer object (output stream and indent counter) as an explicit state, and
every `visit` overload as one case of a state-passing function.

Conventions of the embedding.
* C++ `int` fields are `Int`; the printer never does arithmetic on them except
  `indent += 2` / `indent -= 2`, modelled without wrap-around (signed overflow
  is undefined behaviour in C++, so only overflow-free runs have a meaning).
  `stmtHist_le` bounds the counter by the starting value plus twice the
  nesting depth, which says which runs these are.
* The declarations of `IR.h`, `Type.h` and `IROperator.h` are not among the
  sources. The node types follow the spec's data model, with the field names
  the printer reads (`op->a`, `op->buffer`, ...).
* `std::string` is `String`, `stream << x` appends the text of `x` to the
  stream, `endl` appends a line break.
* `float` values are carried by `Float`; how the stream formats them belongs to
  the C++ library, so the formatter is a parameter `fmt` of the printer.
* A `Stmt` handle that may be undefined (`Pipeline::update`, `Block::rest`) is
  an `Option Stmt`; all other children are defined handles.
-/

namespace HalideInternal

/-! ## Data model -/

/-- Modelled from the spec: the declaration of `Type` is not among the
sources. The kind tag `Type::t` is one of `Type::Int`, `Type::UInt`,
`Type::Float`, the three cases of the switch in `operator<<`. -/
inductive TypeCode where
  | Int
  | UInt
  | Float
  deriving DecidableEq, Repr

/-- Modelled from the spec: the declaration of `Type` is not among the
sources. The numeric type descriptor has the kind `t`, the `bits` and the
vector `width` that `operator<<` reads, the last two C++ `int`s. -/
structure IRType where
  t : TypeCode
  bits : Int
  width : Int
  deriving DecidableEq, Repr

/-- Modelled from the spec: `Int(bits)` is declared outside the sources; it
builds the scalar (one lane) signed integer type, which prints as `i32`. -/
def IRType.Int (bits : ℤ) : IRType := ⟨TypeCode.Int, bits, 1⟩

/-- Modelled from the spec: `Float(bits)` is declared outside the sources; it
builds the scalar (one lane) floating type, which prints as `f32`. -/
def IRType.Float (bits : ℤ) : IRType := ⟨TypeCode.Float, bits, 1⟩

/-- Modelled from the spec: the declaration of `For::ForType` is not among the
sources. The loop kinds are the four cases of the switch in `operator<<`. -/
inductive ForType where
  | Serial
  | Parallel
  | Unrolled
  | Vectorized
  deriving DecidableEq, Repr

/-- Modelled from the spec: the call kind enumeration of `Call` is declared in
`IR.h`, which is not among the sources; the sources only use `Call::Halide`.
The spec speaks of "ordinary vs. buffer-read" calls. The printer never reads
this field. -/
inductive CallType where
  | Image
  | Extern
  | Halide
  deriving DecidableEq, Repr

/-- Modelled from the spec: the node classes of `IR.h` are not among the
sources. The expression kinds and their fields are those of the spec's data
model, one kind per `visit` overload, with the fields named as the printer
reads them (`op->value`, `op->a`, `op->buffer`, ...). `Var` and `Call` take
their fields in the order of the constructor calls in `IRPrinter::test`. -/
inductive Expr where
  | IntImm (value : Int)
  | FloatImm (value : Float)
  | Cast (type : IRType) (value : Expr)
  | Var (type : IRType) (name : String)
  | Add (a b : Expr)
  | Sub (a b : Expr)
  | Mul (a b : Expr)
  | Div (a b : Expr)
  | Mod (a b : Expr)
  | Min (a b : Expr)
  | Max (a b : Expr)
  | EQ (a b : Expr)
  | NE (a b : Expr)
  | LT (a b : Expr)
  | LE (a b : Expr)
  | GT (a b : Expr)
  | GE (a b : Expr)
  | And (a b : Expr)
  | Or (a b : Expr)
  | Not (a : Expr)
  | Select (condition true_value false_value : Expr)
  | Load (buffer : String) (index : Expr)
  | Ramp (base stride : Expr) (width : Int)
  | Broadcast (value : Expr) (width : Int)
  | Call (type : IRType) (buffer : String) (args : List Expr) (call_type : CallType)
  | Let (name : String) (value body : Expr)

/-- Modelled from the spec: the node classes of `IR.h` are not among the
sources. The statement kinds and their fields are those of the spec's data
model, one kind per `visit` overload. `Store` takes its fields in the order
buffer, value, index, so that `Store("buf", (x * 17) / (x - 3), y - 1)` of
`IRPrinter::test` stores the quotient at index `y - 1`. The `PrintStmt` field
`op->prefix` is called `pfx` here. A handle that may be undefined
(`op->update`, `op->rest`, tested with `defined()`) is an `Option`. -/
inductive Stmt where
  | LetStmt (name : String) (value : Expr) (body : Stmt)
  | PrintStmt (pfx : String) (args : List Expr)
  | AssertStmt (condition : Expr) (message : String)
  | Pipeline (buffer : String) (produce : Stmt) (update : Option Stmt) (consume : Stmt)
  | For (name : String) (min extent : Expr) (for_type : ForType) (body : Stmt)
  | Store (buffer : String) (value index : Expr)
  | Provide (buffer : String) (args : List Expr) (value : Expr)
  | Allocate (buffer : String) (type : IRType) (size : Expr) (body : Stmt)
  | Realize (buffer : String) (bounds : List (Expr × Expr)) (body : Stmt)
  | Block (first : Stmt) (rest : Option Stmt)

/-! ## Streaming of scalars -/

/-- The text `stream << i` appends for a C++ `int`: decimal digits, with a
leading minus sign for a negative value. -/
def intText (i : Int) : String :=
  match i with
  | Int.ofNat m => String.mk (Nat.toDigits 10 m)
  | Int.negSucc m => "-" ++ String.mk (Nat.toDigits 10 (m + 1))

/-- The stream insertion `operator<<(ostream &out, Type type)`. The `default:`
branch of the switch (a malformed kind) has no counterpart: `TypeCode` has
exactly the three kinds. -/
def writeType (out : String) (type : IRType) : String :=
  let out :=
    match type.t with
    | TypeCode.Int => out ++ "i"
    | TypeCode.UInt => out ++ "u"
    | TypeCode.Float => out ++ "f"
  let out := out ++ intText type.bits
  if type.width > 1 then out ++ "x" ++ intText type.width else out

/-- The stream insertion `operator<<(ostream &out, For::ForType type)`. -/
def writeForType (out : String) (type : ForType) : String :=
  match type with
  | ForType.Serial => out ++ "for"
  | ForType.Parallel => out ++ "parallel"
  | ForType.Unrolled => out ++ "unrolled"
  | ForType.Vectorized => out ++ "vectorized"

/-! ## The printer object -/

/-- The state of an `IRPrinter`: the text written to `stream` so far and the
`indent` counter. `history` is a ghost field, not present in the C++ object:
it records every value assigned to `indent`, most recent first, so that
statements about the counter during a traversal can be made. -/
structure IRPrinter where
  stream : String
  indent : Int
  history : List Int

namespace IRPrinter

/-- The constructor `IRPrinter::IRPrinter(ostream &s)`: indent starts at 0. -/
def new (s : String) : IRPrinter := ⟨s, 0, []⟩

/-- Insertion of a piece of text, `stream << s`. -/
def emit (p : IRPrinter) (s : String) : IRPrinter :=
  { p with stream := p.stream ++ s }

/-- Insertion of `endl`. -/
def endl (p : IRPrinter) : IRPrinter := p.emit "\n"

/-- The assignment `indent += 2`. -/
def indent_up (p : IRPrinter) : IRPrinter :=
  { p with indent := p.indent + 2, history := (p.indent + 2) :: p.history }

/-- The assignment `indent -= 2`. -/
def indent_down (p : IRPrinter) : IRPrinter :=
  { p with indent := p.indent - 2, history := (p.indent - 2) :: p.history }

/-- The method `do_indent`: `for (int i = 0; i < indent; i++) stream << ' '`,
one space per iteration; no iteration when `indent` is not positive. -/
def do_indent (p : IRPrinter) : IRPrinter :=
  (List.range p.indent.toNat).foldl (fun q _ => q.emit " ") p

/-- The value of `size - 1` computed in `size_t` (unsigned 64-bit, wrapping
to `2^64 - 1` at `size = 0`): the bound `size() - 1` of the separator tests. -/
def size_minus_one (size : Nat) : Nat := (2 ^ 64 + size - 1) % 2 ^ 64

mutual

/-- The method `print(Expr)`: dispatch to the `visit` overload of the node. -/
def printExpr (fmt : Float → String) : Expr → IRPrinter → IRPrinter
  | .IntImm value, p => p.emit (intText value)
  | .FloatImm value, p => p.emit (fmt value)
  | .Cast type value, p =>
    let p := { p with stream := writeType p.stream type }
    let p := p.emit "("
    let p := printExpr fmt value p
    p.emit ")"
  | .Var _ name, p => p.emit name
  | .Add a b, p =>
    let p := p.emit "("
    let p := printExpr fmt a p
    let p := p.emit " + "
    let p := printExpr fmt b p
    p.emit ")"
  | .Sub a b, p =>
    let p := p.emit "("
    let p := printExpr fmt a p
    let p := p.emit " - "
    let p := printExpr fmt b p
    p.emit ")"
  | .Mul a b, p =>
    let p := p.emit "("
    let p := printExpr fmt a p
    let p := p.emit "*"
    let p := printExpr fmt b p
    p.emit ")"
  | .Div a b, p =>
    let p := p.emit "("
    let p := printExpr fmt a p
    let p := p.emit "/"
    let p := printExpr fmt b p
    p.emit ")"
  | .Mod a b, p =>
    let p := p.emit "("
    let p := printExpr fmt a p
    let p := p.emit " % "
    let p := printExpr fmt b p
    p.emit ")"
  | .Min a b, p =>
    let p := p.emit "min("
    let p := printExpr fmt a p
    let p := p.emit ", "
    let p := printExpr fmt b p
    p.emit ")"
  | .Max a b, p =>
    let p := p.emit "max("
    let p := printExpr fmt a p
    let p := p.emit ", "
    let p := printExpr fmt b p
    p.emit ")"
  | .EQ a b, p =>
    let p := p.emit "("
    let p := printExpr fmt a p
    let p := p.emit " == "
    let p := printExpr fmt b p
    p.emit ")"
  | .NE a b, p =>
    let p := p.emit "("
    let p := printExpr fmt a p
    let p := p.emit " != "
    let p := printExpr fmt b p
    p.emit ")"
  | .LT a b, p =>
    let p := p.emit "("
    let p := printExpr fmt a p
    let p := p.emit " < "
    let p := printExpr fmt b p
    p.emit ")"
  | .LE a b, p =>
    let p := p.emit "("
    let p := printExpr fmt a p
    let p := p.emit " <= "
    let p := printExpr fmt b p
    p.emit ")"
  | .GT a b, p =>
    let p := p.emit "("
    let p := printExpr fmt a p
    let p := p.emit " > "
    let p := printExpr fmt b p
    p.emit ")"
  | .GE a b, p =>
    let p := p.emit "("
    let p := printExpr fmt a p
    let p := p.emit " >= "
    let p := printExpr fmt b p
    p.emit ")"
  | .And a b, p =>
    let p := p.emit "("
    let p := printExpr fmt a p
    let p := p.emit " && "
    let p := printExpr fmt b p
    p.emit ")"
  | .Or a b, p =>
    let p := p.emit "("
    let p := printExpr fmt a p
    let p := p.emit " || "
    let p := printExpr fmt b p
    p.emit ")"
  | .Not a, p =>
    let p := p.emit "!"
    printExpr fmt a p
  | .Select condition true_value false_value, p =>
    let p := p.emit "select("
    let p := printExpr fmt condition p
    let p := p.emit ", "
    let p := printExpr fmt true_value p
    let p := p.emit ", "
    let p := printExpr fmt false_value p
    p.emit ")"
  | .Load buffer index, p =>
    let p := (p.emit buffer).emit "["
    let p := printExpr fmt index p
    p.emit "]"
  | .Ramp base stride width, p =>
    let p := p.emit "ramp("
    let p := printExpr fmt base p
    let p := p.emit ", "
    let p := printExpr fmt stride p
    ((p.emit ", ").emit (intText width)).emit ")"
  | .Broadcast value width, p =>
    let p := p.emit "broadcast("
    let p := printExpr fmt value p
    ((p.emit ", ").emit (intText width)).emit ")"
  | .Call _ buffer args _, p =>
    let p := (p.emit buffer).emit "("
    let p := printArgs fmt args.length 0 args p
    p.emit ")"
  | .Let name value body, p =>
    let p := ((p.emit "(let ").emit name).emit " = "
    let p := printExpr fmt value p
    let p := p.emit " in "
    let p := printExpr fmt body p
    p.emit ")"

/-- The argument loop of `visit(const Call *)` and `visit(const Provide *)`:
`for (size_t i = 0; i < size; i++) { print(args[i]); if (i < size - 1) stream << ", "; }`
resumed at index `i` with the arguments from `i` on still to print. -/
def printArgs (fmt : Float → String) (size : Nat) : Nat → List Expr → IRPrinter → IRPrinter
  | _, [], p => p
  | i, arg :: rest, p =>
    let p := printExpr fmt arg p
    let p := if i < size_minus_one size then p.emit ", " else p
    printArgs fmt size (i + 1) rest p

end

/-- The argument loop of `visit(const PrintStmt *)`: a separator, then the
argument, for each argument in order. -/
def printPrintArgs (fmt : Float → String) : List Expr → IRPrinter → IRPrinter
  | [], p => p
  | arg :: rest, p =>
    let p := p.emit ", "
    let p := printExpr fmt arg p
    printPrintArgs fmt rest p

/-- The bounds loop of `visit(const Realize *)`, resumed at index `i`. -/
def printBounds (fmt : Float → String) (size : Nat) :
    Nat → List (Expr × Expr) → IRPrinter → IRPrinter
  | _, [], p => p
  | i, bound :: rest, p =>
    let p := p.emit "["
    let p := printExpr fmt bound.1 p
    let p := p.emit ", "
    let p := printExpr fmt bound.2 p
    let p := p.emit "]"
    let p := if i < size_minus_one size then p.emit ", " else p
    printBounds fmt size (i + 1) rest p

/-- The method `print(Stmt)`: dispatch to the `visit` overload of the node. -/
def printStmt (fmt : Float → String) : Stmt → IRPrinter → IRPrinter
  | .LetStmt name value body, p =>
    let p := do_indent p
    let p := ((p.emit "let ").emit name).emit " = "
    let p := printExpr fmt value p
    let p := p.endl
    let p := do_indent p
    printStmt fmt body p
  | .PrintStmt pfx args, p =>
    let p := do_indent p
    let p := (p.emit "print(").emit pfx
    let p := printPrintArgs fmt args p
    (p.emit ")").endl
  | .AssertStmt condition message, p =>
    let p := do_indent p
    let p := p.emit "assert("
    let p := printExpr fmt condition p
    (((p.emit ", \"").emit message).emit "\")").endl
  | .Pipeline buffer produce update consume, p =>
    let p := do_indent p
    let p := (((p.emit "produce ").emit buffer).emit " \x7b").endl
    let p := indent_up p
    let p := printStmt fmt produce p
    let p := indent_down p
    let p :=
      match update with
      | some u =>
        let p := do_indent p
        let p := (p.emit "\x7d update \x7b").endl
        let p := indent_up p
        let p := printStmt fmt u p
        indent_down p
      | none => p
    let p := do_indent p
    let p := (p.emit "\x7d consume \x7b").endl
    let p := indent_up p
    let p := printStmt fmt consume p
    let p := indent_down p
    let p := do_indent p
    (p.emit "\x7d").endl
  | .For name min extent for_type body, p =>
    let p := do_indent p
    let p := { p with stream := writeForType p.stream for_type }
    let p := ((p.emit " (").emit name).emit ", "
    let p := printExpr fmt min p
    let p := p.emit ", "
    let p := printExpr fmt extent p
    let p := (p.emit ") \x7b").endl
    let p := indent_up p
    let p := printStmt fmt body p
    let p := indent_down p
    let p := do_indent p
    (p.emit "\x7d").endl
  | .Store buffer value index, p =>
    let p := do_indent p
    let p := (p.emit buffer).emit "["
    let p := printExpr fmt index p
    let p := p.emit "] = "
    let p := printExpr fmt value p
    p.endl
  | .Provide buffer args value, p =>
    let p := do_indent p
    let p := (p.emit buffer).emit "("
    let p := printArgs fmt args.length 0 args p
    let p := p.emit ") = "
    let p := printExpr fmt value p
    p.endl
  | .Allocate buffer type size body, p =>
    let p := do_indent p
    let p := ((p.emit "allocate ").emit buffer).emit "["
    let p := { p with stream := writeType p.stream type }
    let p := p.emit " * "
    let p := printExpr fmt size p
    let p := (p.emit "]").endl
    let p := printStmt fmt body p
    let p := do_indent p
    (((p.emit "free ").emit buffer)).endl
  | .Realize buffer bounds body, p =>
    let p := do_indent p
    let p := ((p.emit "realize ").emit buffer).emit "("
    let p := printBounds fmt bounds.length 0 bounds p
    let p := (p.emit ") \x7b").endl
    let p := indent_up p
    let p := printStmt fmt body p
    let p := indent_down p
    let p := do_indent p
    (p.emit "\x7d").endl
  | .Block first rest, p =>
    let p := printStmt fmt first p
    match rest with
    | some r => printStmt fmt r p
    | none => p

end IRPrinter

open IRPrinter

/-- The stream insertion `operator<<(ostream &stream, Expr ir)`: a fresh
printer on the stream prints the expression. -/
def writeExpr (fmt : Float → String) (stream : String) (ir : Expr) : String :=
  (IRPrinter.printExpr fmt ir (IRPrinter.new stream)).stream

/-- The stream insertion `operator<<(ostream &stream, Stmt ir)`. -/
def writeStmt (fmt : Float → String) (stream : String) (ir : Stmt) : String :=
  (IRPrinter.printStmt fmt ir (IRPrinter.new stream)).stream

/-! ## Derived texts -/

/-- The run of spaces `do_indent` writes when the counter is `n`. -/
def spaces (n : Int) : String := String.mk (List.replicate n.toNat ' ')

/-- The text of an expression: what `operator<<` writes to an empty stream. -/
def exprText (fmt : Float → String) (e : Expr) : String := writeExpr fmt "" e

/-- The text the argument loop writes when resumed at index `i`. -/
def argsText (fmt : Float → String) (size i : Nat) (args : List Expr) : String :=
  (printArgs fmt size i args (IRPrinter.new "")).stream

/-- The text the `PrintStmt` argument loop writes. -/
def printArgsText (fmt : Float → String) (args : List Expr) : String :=
  (printPrintArgs fmt args (IRPrinter.new "")).stream

/-- The text the `Realize` bounds loop writes when resumed at index `i`. -/
def boundsText (fmt : Float → String) (size i : Nat) (bounds : List (Expr × Expr)) : String :=
  (printBounds fmt size i bounds (IRPrinter.new "")).stream

/-- The text `print(Stmt)` writes when the indent counter is `n` on entry. -/
def stmtText (fmt : Float → String) (n : Int) (s : Stmt) : String :=
  (printStmt fmt s ⟨"", n, []⟩).stream

/-- The values `print(Stmt)` assigns to the indent counter, most recent first,
when the counter is `n` on entry. -/
def stmtHist (fmt : Float → String) (n : Int) (s : Stmt) : List Int :=
  (printStmt fmt s ⟨"", n, []⟩).history

/-- The text of a type: what `operator<<` writes to an empty stream. -/
def typeText (type : IRType) : String := writeType "" type

/-- The text of a loop kind: what `operator<<` writes to an empty stream. -/
def forTypeText (type : ForType) : String := writeForType "" type

end HalideInternal

namespace HalideInternal.IRPrinter.test

/-! ## The nodes built by `IRPrinter::test`

The overloaded operators of `IROperator.h` and the conversion of an `int` to
an `Expr` are not among the sources. As in the spec's examples, `x + 3` builds
`Add(x, IntImm(3))`, and likewise for the other operators; an `int` where an
`Expr` is expected builds an `IntImm`. -/

/-- The local `i32`. -/
def i32 : IRType := IRType.Int 32

/-- The local `f32`. -/
def f32 : IRType := IRType.Float 32

/-- The local `x`. -/
def x : Expr := .Var i32 "x"

/-- The local `y`. -/
def y : Expr := .Var i32 "y"

/-- Modelled from the spec: the operators are declared outside the sources.
The expression `(x + 3) * (y / 2 + 17)` of the first output line. -/
def product : Expr := .Mul (.Add x (.IntImm 3)) (.Add (.Div y (.IntImm 2)) (.IntImm 17))

/-- Modelled from the spec: the operators are declared outside the sources.
The local `store`: `Store("buf", (x * 17) / (x - 3), y - 1)`. -/
def store : Stmt := .Store "buf" (.Div (.Mul x (.IntImm 17)) (.Sub x (.IntImm 3))) (.Sub y (.IntImm 1))

/-- Modelled from the spec: the operators are declared outside the sources.
The local `for_loop`: `For("x", -2, y + 2, For::Parallel, store)`. -/
def for_loop : Stmt := .For "x" (.IntImm (-2)) (.Add y (.IntImm 2)) .Parallel store

/-- Modelled from the spec: the operators are declared outside the sources.
The local `call`, with `args = [x % 3]`. -/
def call : Expr := .Call i32 "buf" [.Mod x (.IntImm 3)] .Halide

/-- Modelled from the spec: the operators are declared outside the sources.
The local `store2`: `Store("out", call + 1, x)`. -/
def store2 : Stmt := .Store "out" (.Add call (.IntImm 1)) x

/-- Modelled from the spec: the conversion of `0` to an `Expr` is declared
outside the sources. The local `for_loop2`. -/
def for_loop2 : Stmt := .For "x" (.IntImm 0) y .Vectorized store2

/-- The local `pipeline`; its update is the undefined `Stmt()`. -/
def pipeline : Stmt := .Pipeline "buf" for_loop none for_loop2

/-- Modelled from the spec: the operators are declared outside the sources.
The local `assertion`: `AssertStmt(y > 3, "y is greater than 3")`. -/
def assertion : Stmt := .AssertStmt (.GT y (.IntImm 3)) "y is greater than 3"

/-- The local `block`. -/
def block : Stmt := .Block assertion (some pipeline)

/-- Modelled from the spec: the conversion of `17` to an `Expr` is declared
outside the sources. The local `let_stmt`. -/
def let_stmt : Stmt := .LetStmt "y" (.IntImm 17) block

/-- Modelled from the spec: the conversion of `1023` to an `Expr` is declared
outside the sources. The local `allocate`, the statement the test prints. -/
def allocate : Stmt := .Allocate "buf" f32 (.IntImm 1023) let_stmt

end HalideInternal.IRPrinter.test

namespace HalideInternal
open IRPrinter

/-- A `LetStmt` inside a loop body:
`For("x", 0, 4, For::Serial, LetStmt("y", 17, Store("buf", y, x)))`. -/
def nested_let : Stmt :=
  .For "x" (.IntImm 0) (.IntImm 4) .Serial
    (.LetStmt "y" (.IntImm 17)
      (.Store "buf" (.Var (IRType.Int 32) "y") (.Var (IRType.Int 32) "x")))

/-! ## User-supplied strings and bracket structure -/

mutual

/-- The strings an expression carries: variable, buffer and function names and
the names bound by `Let`, in printing order. -/
def Expr.names : Expr → List String
  | .IntImm _ => []
  | .FloatImm _ => []
  | .Cast _ value => value.names
  | .Var _ name => [name]
  | .Add a b => a.names ++ b.names
  | .Sub a b => a.names ++ b.names
  | .Mul a b => a.names ++ b.names
  | .Div a b => a.names ++ b.names
  | .Mod a b => a.names ++ b.names
  | .Min a b => a.names ++ b.names
  | .Max a b => a.names ++ b.names
  | .EQ a b => a.names ++ b.names
  | .NE a b => a.names ++ b.names
  | .LT a b => a.names ++ b.names
  | .LE a b => a.names ++ b.names
  | .GT a b => a.names ++ b.names
  | .GE a b => a.names ++ b.names
  | .And a b => a.names ++ b.names
  | .Or a b => a.names ++ b.names
  | .Not a => a.names
  | .Select condition true_value false_value =>
    condition.names ++ true_value.names ++ false_value.names
  | .Load buffer index => buffer :: index.names
  | .Ramp base stride _ => base.names ++ stride.names
  | .Broadcast value _ => value.names
  | .Call _ buffer args _ => buffer :: Expr.namesOfList args
  | .Let name value body => name :: (value.names ++ body.names)

/-- The strings carried by a list of expressions. -/
def Expr.namesOfList : List Expr → List String
  | [] => []
  | arg :: rest => arg.names ++ Expr.namesOfList rest

end

/-- The strings carried by a list of bounds. -/
def namesOfBounds : List (Expr × Expr) → List String
  | [] => []
  | bound :: rest => bound.1.names ++ bound.2.names ++ namesOfBounds rest

/-- The strings a statement carries: names, buffers, the `PrintStmt` prefix
and the `AssertStmt` message, together with those of its expressions. -/
def Stmt.names : Stmt → List String
  | .LetStmt name value body => name :: (value.names ++ body.names)
  | .PrintStmt pfx args => pfx :: Expr.namesOfList args
  | .AssertStmt condition message => message :: condition.names
  | .Pipeline buffer produce update consume =>
    buffer :: (produce.names
      ++ (match update with
          | some u => u.names
          | none => [])
      ++ consume.names)
  | .For name min extent _ body => name :: (min.names ++ extent.names ++ body.names)
  | .Store buffer value index => buffer :: (value.names ++ index.names)
  | .Provide buffer args value => buffer :: (Expr.namesOfList args ++ value.names)
  | .Allocate buffer _ size body => buffer :: (size.names ++ body.names)
  | .Realize buffer bounds body => buffer :: (namesOfBounds bounds ++ body.names)
  | .Block first rest =>
    first.names
      ++ (match rest with
          | some r => r.names
          | none => [])

/-- The nesting depth of a statement: the largest number of bodies printed
with an increased indent (`Pipeline`, `For`, `Realize`) around one another. -/
def Stmt.depth : Stmt → Nat
  | .LetStmt _ _ body => body.depth
  | .PrintStmt _ _ => 0
  | .AssertStmt _ _ => 0
  | .Pipeline _ produce update consume =>
    1 + max (max produce.depth
      (match update with
        | some u => u.depth
        | none => 0)) consume.depth
  | .For _ _ _ _ body => 1 + body.depth
  | .Store _ _ _ => 0
  | .Provide _ _ _ => 0
  | .Allocate _ _ _ body => body.depth
  | .Realize _ _ body => 1 + body.depth
  | .Block first rest =>
    max first.depth
      (match rest with
        | some r => r.depth
        | none => 0)

/-- A text is properly nested for an opening character `o` and a closing
character `c`: it has as many of one as of the other, and no prefix of it
has more closing than opening ones. -/
def Nested (o c : Char) (l : List Char) : Prop :=
  l.count o = l.count c ∧ ∀ k : Nat, (l.take k).count c ≤ (l.take k).count o

/-- Reading a text from nesting depth `d`: the depth after the last character,
or `none` when a closing character is met at depth 0. -/
def scan (o c : Char) : Nat → List Char → Option Nat
  | d, [] => some d
  | d, x :: xs =>
    if x = o then scan o c (d + 1) xs
    else if x = c then
      match d with
      | 0 => none
      | d' + 1 => scan o c d' xs
    else scan o c d xs

/-- The characters the printer uses for structure: braces and the line break.
No scalar text and no expression literal contains one. -/
def structural (c : Char) : Prop := c = '{' ∨ c = '}' ∨ c = '\n'

/-- Expressions built only from Add, Sub, Mul, Div and Mod nodes over Var and
IntImm leaves. -/
inductive IsArith : Expr → Prop where
  | int (value : Int) : IsArith (.IntImm value)
  | var (type : IRType) (name : String) : IsArith (.Var type name)
  | add {a b : Expr} : IsArith a → IsArith b → IsArith (.Add a b)
  | sub {a b : Expr} : IsArith a → IsArith b → IsArith (.Sub a b)
  | mul {a b : Expr} : IsArith a → IsArith b → IsArith (.Mul a b)
  | div {a b : Expr} : IsArith a → IsArith b → IsArith (.Div a b)
  | mod {a b : Expr} : IsArith a → IsArith b → IsArith (.Mod a b)

/-- The number of Add, Sub, Mul, Div and Mod nodes of an arithmetic
expression. -/
def Expr.arithOps : Expr → Nat
  | .Add a b => a.arithOps + b.arithOps + 1
  | .Sub a b => a.arithOps + b.arithOps + 1
  | .Mul a b => a.arithOps + b.arithOps + 1
  | .Div a b => a.arithOps + b.arithOps + 1
  | .Mod a b => a.arithOps + b.arithOps + 1
  | _ => 0

/-- The number a list of decimal digit characters denotes. -/
def digitsValue (l : List Char) : Nat :=
  l.foldl (fun acc c => acc * 10 + (c.toNat - 48)) 0

/-! ## Notions used to state the list and line properties -/

/-- The text of one bound of a `Realize`. -/
def boundText (fmt : Float → String) (bound : Expr × Expr) : String :=
  "[" ++ exprText fmt bound.1 ++ ", " ++ exprText fmt bound.2 ++ "]"

/-- The text made of the given lines, each written as `n` spaces, the rest of
the line and a line break. -/
def layout (n : Nat) : List (List Char) → List Char
  | [] => []
  | rest :: more => List.replicate n ' ' ++ rest ++ '\n' :: layout n more

/-- A text consists of whole lines indented by at least `n`: it is a
non-empty sequence of lines, each made of `n` spaces, a rest that contains no
line break, and a line break. -/
def IndentedLines (n : Nat) (l : List Char) : Prop :=
  ∃ rests : List (List Char), rests ≠ [] ∧ (∀ r ∈ rests, '\n' ∉ r) ∧ l = layout n rests

/-! ## Reading an expression back from its text -/

/-- The characters at which a name or a number ends inside the text of an
expression: the space, the operator signs `*` and `/`, brackets and the
comma. -/
def delimiter (c : Char) : Bool :=
  c = ' ' || c = '*' || c = '/' || c = '(' || c = ')' || c = '[' || c = ']' || c = ','

/-- The delimiters that can follow a complete expression inside a text. -/
def follower (c : Char) : Bool :=
  c = ' ' || c = '*' || c = '/' || c = ')' || c = ']' || c = ','

/-- A remainder of text that may follow an expression: empty, or starting
with a follower. -/
def Follows (r : List Char) : Prop := ∀ c, r.head? = some c → follower c = true

/-- A name that cannot be mistaken for another piece of an expression: it is
not empty, does not start like a number or a negation, and contains no
delimiter. -/
def nameOk (name : String) : Bool :=
  match name.data with
  | [] => false
  | c :: cs => !(c.isDigit || c = '-' || c = '!') && (c :: cs).all (fun x => !delimiter x)

/-- The number a text denotes if it is the text of an `int`: the value of its
digits, negated after a minus sign. -/
def intCandidate (tok : List Char) : Int :=
  match tok with
  | [] => 0
  | c :: digits =>
    if c = '-' then -(digitsValue digits : Int) else (digitsValue (c :: digits) : Int)

/-- The `int` whose text is the given characters, if there is one. -/
def readInt (tok : List Char) : Option Int :=
  if (intText (intCandidate tok)).data = tok then some (intCandidate tok) else none

/-- The letter a type text starts with. -/
def kindChar : TypeCode → Char
  | TypeCode.Int => 'i'
  | TypeCode.UInt => 'u'
  | TypeCode.Float => 'f'

/-- The kind a type text starts with. -/
def readTypeCode (c : Char) : Option TypeCode :=
  if c = 'i' then some TypeCode.Int
  else if c = 'u' then some TypeCode.UInt
  else if c = 'f' then some TypeCode.Float
  else none

/-- The type a text denotes if it is the text of a type: the kind of its
first letter, the bits up to an `x`, and the width after it (1 without). -/
def typeCandidate (tok : List Char) : IRType :=
  match tok with
  | [] => ⟨TypeCode.Int, 0, 1⟩
  | k :: rest =>
    ⟨(readTypeCode k).getD TypeCode.Int,
      intCandidate (rest.takeWhile (fun c => !(c = 'x'))),
      match rest.dropWhile (fun c => !(c = 'x')) with
      | [] => 1
      | _ :: width => intCandidate width⟩

/-- A type whose text is the given characters, if there is one. -/
def readType (tok : List Char) : Option IRType :=
  if (typeText (typeCandidate tok)).data = tok then some (typeCandidate tok) else none

/-- Whether the characters are the text of a type. -/
def isTypeText (tok : List Char) : Bool := (readType tok).isSome

/-- The words the printer writes before `(` for node kinds of their own. -/
def keywords : List String := ["min", "max", "select", "ramp", "broadcast"]

/-- A function name that cannot be mistaken for a keyword or a type. -/
def callNameOk (name : String) : Bool :=
  nameOk name && !(keywords.contains name) && !(isTypeText name.data)

/-- The text of a float literal that cannot be mistaken for a name or an
integer: it starts with a digit or a minus sign, contains no delimiter and is
not the text of an `int`. -/
def floatTextOk (text : String) : Bool :=
  match text.data with
  | [] => false
  | c :: cs =>
    (c.isDigit || c = '-') && (c :: cs).all (fun x => !delimiter x) && (readInt (c :: cs)).isNone

mutual

/-- An expression whose text can be read back: its names are `nameOk`, the
names of its calls `callNameOk`, the texts of its float literals
`floatTextOk`, and its argument lists shorter than `2 ^ 64`. -/
def Expr.readable (fmt : Float → String) : Expr → Bool
  | .IntImm _ => true
  | .FloatImm value => floatTextOk (fmt value)
  | .Cast _ value => value.readable fmt
  | .Var _ name => nameOk name
  | .Add a b => a.readable fmt && b.readable fmt
  | .Sub a b => a.readable fmt && b.readable fmt
  | .Mul a b => a.readable fmt && b.readable fmt
  | .Div a b => a.readable fmt && b.readable fmt
  | .Mod a b => a.readable fmt && b.readable fmt
  | .Min a b => a.readable fmt && b.readable fmt
  | .Max a b => a.readable fmt && b.readable fmt
  | .EQ a b => a.readable fmt && b.readable fmt
  | .NE a b => a.readable fmt && b.readable fmt
  | .LT a b => a.readable fmt && b.readable fmt
  | .LE a b => a.readable fmt && b.readable fmt
  | .GT a b => a.readable fmt && b.readable fmt
  | .GE a b => a.readable fmt && b.readable fmt
  | .And a b => a.readable fmt && b.readable fmt
  | .Or a b => a.readable fmt && b.readable fmt
  | .Not a => a.readable fmt
  | .Select condition true_value false_value =>
    condition.readable fmt && true_value.readable fmt && false_value.readable fmt
  | .Load buffer index => nameOk buffer && index.readable fmt
  | .Ramp base stride _ => base.readable fmt && stride.readable fmt
  | .Broadcast value _ => value.readable fmt
  | .Call _ buffer args _ =>
    callNameOk buffer && decide (args.length < 2 ^ 64) && Expr.readableList fmt args
  | .Let name value body => nameOk name && value.readable fmt && body.readable fmt

/-- Every expression of a list is readable. -/
def Expr.readableList (fmt : Float → String) : List Expr → Bool
  | [] => true
  | arg :: rest => arg.readable fmt && Expr.readableList fmt rest

end

/-- The parenthesised binary operators. -/
inductive BinOp where
  | Add
  | Sub
  | Mul
  | Div
  | Mod
  | EQ
  | NE
  | LT
  | LE
  | GT
  | GE
  | And
  | Or
  deriving DecidableEq, Repr

/-- What the text shows of an expression: the node kinds and every field the
printer writes. A `Var` has lost its type, a `Call` its type and call kind; a
`Cast` keeps the text of its type and a float literal the text the stream
gives it. -/
inductive Shape where
  | IntImm (value : Int)
  | FloatImm (text : String)
  | Cast (type : String) (value : Shape)
  | Var (name : String)
  | Binary (op : BinOp) (a b : Shape)
  | Min (a b : Shape)
  | Max (a b : Shape)
  | Not (a : Shape)
  | Select (condition true_value false_value : Shape)
  | Load (buffer : String) (index : Shape)
  | Ramp (base stride : Shape) (width : Int)
  | Broadcast (value : Shape) (width : Int)
  | Call (buffer : String) (args : List Shape)
  | Let (name : String) (value body : Shape)

mutual

/-- The shape of an expression. -/
def Expr.shape (fmt : Float → String) : Expr → Shape
  | .IntImm value => .IntImm value
  | .FloatImm value => .FloatImm (fmt value)
  | .Cast type value => .Cast (typeText type) (value.shape fmt)
  | .Var _ name => .Var name
  | .Add a b => .Binary .Add (a.shape fmt) (b.shape fmt)
  | .Sub a b => .Binary .Sub (a.shape fmt) (b.shape fmt)
  | .Mul a b => .Binary .Mul (a.shape fmt) (b.shape fmt)
  | .Div a b => .Binary .Div (a.shape fmt) (b.shape fmt)
  | .Mod a b => .Binary .Mod (a.shape fmt) (b.shape fmt)
  | .Min a b => .Min (a.shape fmt) (b.shape fmt)
  | .Max a b => .Max (a.shape fmt) (b.shape fmt)
  | .EQ a b => .Binary .EQ (a.shape fmt) (b.shape fmt)
  | .NE a b => .Binary .NE (a.shape fmt) (b.shape fmt)
  | .LT a b => .Binary .LT (a.shape fmt) (b.shape fmt)
  | .LE a b => .Binary .LE (a.shape fmt) (b.shape fmt)
  | .GT a b => .Binary .GT (a.shape fmt) (b.shape fmt)
  | .GE a b => .Binary .GE (a.shape fmt) (b.shape fmt)
  | .And a b => .Binary .And (a.shape fmt) (b.shape fmt)
  | .Or a b => .Binary .Or (a.shape fmt) (b.shape fmt)
  | .Not a => .Not (a.shape fmt)
  | .Select condition true_value false_value =>
    .Select (condition.shape fmt) (true_value.shape fmt) (false_value.shape fmt)
  | .Load buffer index => .Load buffer (index.shape fmt)
  | .Ramp base stride width => .Ramp (base.shape fmt) (stride.shape fmt) width
  | .Broadcast value width => .Broadcast (value.shape fmt) width
  | .Call _ buffer args _ => .Call buffer (Expr.shapes fmt args)
  | .Let name value body => .Let name (value.shape fmt) (body.shape fmt)

/-- The shapes of a list of expressions. -/
def Expr.shapes (fmt : Float → String) : List Expr → List Shape
  | [] => []
  | arg :: rest => arg.shape fmt :: Expr.shapes fmt rest

end

/-- The text with the given characters taken off its front, if it starts with
them. -/
def strip : List Char → List Char → Option (List Char)
  | [], l => some l
  | _ :: _, [] => none
  | p :: ps, c :: cs => if p = c then strip ps cs else none

/-- The operator a sign stands for. -/
def signOp (sign : List Char) : Option BinOp :=
  if sign = "+".data then some .Add
  else if sign = "-".data then some .Sub
  else if sign = "%".data then some .Mod
  else if sign = "==".data then some .EQ
  else if sign = "!=".data then some .NE
  else if sign = "<".data then some .LT
  else if sign = "<=".data then some .LE
  else if sign = ">".data then some .GT
  else if sign = ">=".data then some .GE
  else if sign = "&&".data then some .And
  else if sign = "||".data then some .Or
  else none

/-- The text the printer writes for an operator between its operands. -/
def BinOp.text : BinOp → String
  | .Add => " + "
  | .Sub => " - "
  | .Mul => "*"
  | .Div => "/"
  | .Mod => " % "
  | .EQ => " == "
  | .NE => " != "
  | .LT => " < "
  | .LE => " <= "
  | .GT => " > "
  | .GE => " >= "
  | .And => " && "
  | .Or => " || "

/-- Reads an operator text off the front: `*`, `/`, or a sign between two
spaces. -/
def readOperator (l : List Char) : Option (BinOp × List Char) :=
  match l with
  | [] => none
  | c :: r =>
    if c = '*' then some (.Mul, r)
    else if c = '/' then some (.Div, r)
    else if c = ' ' then
      match r.span (fun x => !delimiter x) with
      | (sign, rest) =>
        match strip " ".data rest with
        | none => none
        | some r2 =>
          match signOp sign with
          | none => none
          | some op => some (op, r2)
    else none

/-- After `(` and a first operand: an operator, the second operand and
`)`. -/
def readBinaryTail (p : List Char → Option (Shape × List Char)) (a : Shape) (r1 : List Char) :
    Option (Shape × List Char) :=
  match readOperator r1 with
  | none => none
  | some (op, r2) =>
    match p r2 with
    | none => none
    | some (b, r3) =>
      match strip ")".data r3 with
      | none => none
      | some r4 => some (.Binary op a b, r4)

/-- After `(let`: a space, the name, ` = `, the value, ` in `, the body and
`)`. -/
def readLetTail (p : List Char → Option (Shape × List Char)) (r1 : List Char) :
    Option (Shape × List Char) :=
  match strip " ".data r1 with
  | none => none
  | some r2 =>
    match r2.span (fun x => !delimiter x) with
    | (name, r3) =>
      match strip " = ".data r3 with
      | none => none
      | some r4 =>
        match p r4 with
        | none => none
        | some (value, r5) =>
          match strip " in ".data r5 with
          | none => none
          | some r6 =>
            match p r6 with
            | none => none
            | some (body, r7) =>
              match strip ")".data r7 with
              | none => none
              | some r8 => some (.Let (String.mk name) value body, r8)

/-- After `(`: a first operand, then either the rest of a binary operation
or, when the operand reads as the word `let`, the rest of a `Let`. -/
def readOpen (p : List Char → Option (Shape × List Char)) (rest : List Char) :
    Option (Shape × List Char) :=
  match p rest with
  | none => none
  | some (a, r1) =>
    match readBinaryTail p a r1 with
    | some result => some result
    | none =>
      match a with
      | .Var name => if name = "let" then readLetTail p r1 else none
      | _ => none

/-- Two expressions separated by `, `. -/
def readPair (p : List Char → Option (Shape × List Char)) (l : List Char) :
    Option (Shape × Shape × List Char) :=
  match p l with
  | none => none
  | some (a, r1) =>
    match strip ", ".data r1 with
    | none => none
    | some r2 =>
      match p r2 with
      | none => none
      | some (b, r3) => some (a, b, r3)

/-- An `int` up to the next delimiter. -/
def readWidth (l : List Char) : Option (Int × List Char) :=
  match l.span (fun x => !delimiter x) with
  | (tok, rest) =>
    match readInt tok with
    | none => none
    | some w => some (w, rest)

/-- The arguments of a call after the first `(`, up to and including `)`:
expressions separated by `, `, read with at most `n` steps. -/
def readArgs (p : List Char → Option (Shape × List Char)) :
    Nat → List Char → Option (List Shape × List Char)
  | 0, _ => none
  | n + 1, l =>
    match p l with
    | none => none
    | some (a, r1) =>
      match strip ")".data r1 with
      | some r2 => some ([a], r2)
      | none =>
        match strip ", ".data r1 with
        | none => none
        | some r2 =>
          match readArgs p n r2 with
          | none => none
          | some (rest, r3) => some (a :: rest, r3)

/-- After a word and `(`: the operands of a keyword, the operand of a cast,
or the arguments of a call. -/
def readCallLike (p : List Char → Option (Shape × List Char)) (n : Nat) (tok r1 : List Char) :
    Option (Shape × List Char) :=
  if tok = "min".data then
    match readPair p r1 with
    | none => none
    | some (a, b, r2) => (strip ")".data r2).map (fun r3 => (.Min a b, r3))
  else if tok = "max".data then
    match readPair p r1 with
    | none => none
    | some (a, b, r2) => (strip ")".data r2).map (fun r3 => (.Max a b, r3))
  else if tok = "select".data then
    match readPair p r1 with
    | none => none
    | some (c, t, r2) =>
      match strip ", ".data r2 with
      | none => none
      | some r3 =>
        match p r3 with
        | none => none
        | some (f, r4) => (strip ")".data r4).map (fun r5 => (.Select c t f, r5))
  else if tok = "ramp".data then
    match readPair p r1 with
    | none => none
    | some (base, stride, r2) =>
      match strip ", ".data r2 with
      | none => none
      | some r3 =>
        match readWidth r3 with
        | none => none
        | some (w, r4) => (strip ")".data r4).map (fun r5 => (.Ramp base stride w, r5))
  else if tok = "broadcast".data then
    match p r1 with
    | none => none
    | some (value, r2) =>
      match strip ", ".data r2 with
      | none => none
      | some r3 =>
        match readWidth r3 with
        | none => none
        | some (w, r4) => (strip ")".data r4).map (fun r5 => (.Broadcast value w, r5))
  else if isTypeText tok then
    match p r1 with
    | none => none
    | some (value, r2) => (strip ")".data r2).map (fun r3 => (.Cast (String.mk tok) value, r3))
  else
    match readArgs p n r1 with
    | some (args, r2) => some (.Call (String.mk tok) args, r2)
    | none => (strip ")".data r1).map (fun r2 => (.Call (String.mk tok) [], r2))

/-- A word followed by neither `(` nor `[`: the text of an `int`, else the
text of a float literal if it starts like a number, else a name. -/
def readLeaf (tok rest : List Char) : Option (Shape × List Char) :=
  match readInt tok with
  | some i => some (.IntImm i, rest)
  | none =>
    match tok with
    | [] => none
    | c :: _ =>
      if c.isDigit || c = '-' then some (.FloatImm (String.mk tok), rest)
      else some (.Var (String.mk tok), rest)

/-- After a word: `(` starts a call-like form, `[` the index of a load, and
anything else leaves the word a leaf. -/
def readAfterWord (p : List Char → Option (Shape × List Char)) (n : Nat) (tok rest : List Char) :
    Option (Shape × List Char) :=
  match rest with
  | [] => readLeaf tok rest
  | d :: r1 =>
    if d = '(' then readCallLike p n tok r1
    else if d = '[' then
      match p r1 with
      | none => none
      | some (index, r2) =>
        (strip "]".data r2).map (fun r3 => (.Load (String.mk tok) index, r3))
    else readLeaf tok rest

/-- One level of reading: `(` opens a binary operation or a `Let`, `!` a
negation; otherwise the word up to the next delimiter is read, and what
follows it decides between a call-like form, a load and a leaf. The
sub-expressions are read with `p`. -/
def readStep (p : List Char → Option (Shape × List Char)) (n : Nat) (l : List Char) :
    Option (Shape × List Char) :=
  match l with
  | [] => none
  | c :: cs =>
    if c = '(' then readOpen p cs
    else if c = '!' then
      match p cs with
      | none => none
      | some (a, r) => some (.Not a, r)
    else
      match (c :: cs).span (fun x => !delimiter x) with
      | (tok, rest) =>
        match tok with
        | [] => none
        | _ :: _ => readAfterWord p n tok rest

/-- Reads an expression off the front of a text, nesting at most `fuel`
levels deep: the shape read and the rest of the text. -/
def readExpr : Nat → List Char → Option (Shape × List Char)
  | 0, _ => none
  | fuel + 1, l => readStep (readExpr fuel) fuel l

mutual

/-- The text the printer writes for an expression of a given shape. -/
def Shape.text : Shape → String
  | .IntImm value => intText value
  | .FloatImm text => text
  | .Cast type value => type ++ "(" ++ value.text ++ ")"
  | .Var name => name
  | .Binary op a b => "(" ++ a.text ++ op.text ++ b.text ++ ")"
  | .Min a b => "min(" ++ a.text ++ ", " ++ b.text ++ ")"
  | .Max a b => "max(" ++ a.text ++ ", " ++ b.text ++ ")"
  | .Not a => "!" ++ a.text
  | .Select condition true_value false_value =>
    "select(" ++ condition.text ++ ", " ++ true_value.text ++ ", " ++ false_value.text ++ ")"
  | .Load buffer index => buffer ++ "[" ++ index.text ++ "]"
  | .Ramp base stride width =>
    "ramp(" ++ base.text ++ ", " ++ stride.text ++ ", " ++ intText width ++ ")"
  | .Broadcast value width => "broadcast(" ++ value.text ++ ", " ++ intText width ++ ")"
  | .Call buffer args => buffer ++ "(" ++ Shape.argsText args ++ ")"
  | .Let name value body => "(let " ++ name ++ " = " ++ value.text ++ " in " ++ body.text ++ ")"

/-- The texts of a list of shapes, separated by `, `. -/
def Shape.argsText : List Shape → String
  | [] => ""
  | arg :: rest =>
    arg.text ++ (match rest with
      | [] => ""
      | _ :: _ => ", ") ++ Shape.argsText rest

end

/-- The parser `p` reads the expression `e` off the front of every text that
starts with the text of `e` and goes on as a text can after an expression. -/
def Reads (fmt : Float → String) (p : List Char → Option (Shape × List Char)) (e : Expr) : Prop :=
  ∀ r : List Char, Follows r → p ((exprText fmt e).data ++ r) = some (e.shape fmt, r)

end HalideInternal

/-!
# The tracing test (`test/correctness/tracing.cpp`)

The event record, the sink the trace callback fills, the matcher and the
comparison against the golden trace that ends `main`.

Conventions of the embedding.
* `float` is the IEEE 754 binary32 format, modelled exactly: a number is a
  sign and a magnitude in units of `2 ^ (-149)` (or an infinity or a NaN),
  `+`, `-` round the exact result to nearest, ties to even, and `<` is the
  order of the exact values. Expressions of type `float` are evaluated in
  `float` (`FLT_EVAL_METHOD` 0), and decimal literals are rounded correctly.
* An `assert` that fails, and an access outside an array, end the run with a
  `Fault`; functions that can do either return an `Except Fault`.
* `printf` appends to the text written so far; `%d` is `intText`, and `%f`
  belongs to the C library, so its formatter is a parameter `fmtf`.
* The pipeline run by `f.realize(10)` and the runtime that calls the trace
  callback are outside the sources; `main` is embedded from the point where
  the recorded events are compared.
-/

namespace tracing

open HalideInternal (intText)

/-! ## The type `float` -/

/-- A value of the C type `float` in the IEEE 754 binary32 format. Every finite
binary32 number is an integer multiple of `2 ^ (-149)`, the smallest
subnormal; `finite negative magnitude` stands for
`± magnitude * 2 ^ (-149)`, with the sign kept for zero too. -/
inductive float where
  | finite (negative : Bool) (magnitude : Nat)
  | infinity (negative : Bool)
  | nan
  deriving DecidableEq, Repr

/-- The number of binary digits of `n`, read off by halving (at most `fuel`
times). -/
def bit_length_from : Nat → Nat → Nat
  | 0, _ => 0
  | fuel + 1, n => if n = 0 then 0 else bit_length_from fuel (n / 2) + 1

/-- The number of binary digits of `n` (0 for 0). -/
def bit_length (n : Nat) : Nat := bit_length_from n n

/-- The multiple of `2 ^ k` nearest to `n`; of two equally near ones, the even
multiple. -/
def round_to_multiple (k n : Nat) : Nat :=
  let q := n / 2 ^ k
  let r := n % 2 ^ k
  if 2 * r < 2 ^ k ∨ (2 * r = 2 ^ k ∧ q % 2 = 0) then q * 2 ^ k else (q + 1) * 2 ^ k

/-- Rounding to nearest, ties to even, to `p` significant binary digits and a
spacing of at least `2 ^ low`. -/
def round_nearest_even (p low n : Nat) : Nat :=
  round_to_multiple (max (bit_length n - p) low) n

/-- The binary32 result for an exact magnitude `n` (in units of
`2 ^ (-149)`) of the given sign: rounded to 24 significant digits, and
infinite from `2 ^ 128` on. -/
def float.round (negative : Bool) (n : Nat) : float :=
  let m := round_nearest_even 24 0 n
  if m < 2 ^ 277 then .finite negative m else .infinity negative

/-- The exact value of a finite number in units of `2 ^ (-149)`. -/
def float.signed (negative : Bool) (magnitude : Nat) : Int :=
  if negative then -(magnitude : Int) else (magnitude : Int)

/-- Unary minus. -/
def float.neg : float → float
  | .finite s m => .finite (!s) m
  | .infinity s => .infinity (!s)
  | .nan => .nan

/-- The sum `a + b` in binary32 arithmetic, rounding to nearest. -/
def float.add : float → float → float
  | .nan, _ => .nan
  | _, .nan => .nan
  | .infinity s, .infinity t => if s = t then .infinity s else .nan
  | .infinity s, .finite _ _ => .infinity s
  | .finite _ _, .infinity t => .infinity t
  | .finite s m, .finite t n =>
    let exact : Int := float.signed s m + float.signed t n
    if exact = 0 then .finite (s && t) 0
    else float.round (decide (exact < 0)) exact.natAbs

/-- The difference `a - b` in binary32 arithmetic. -/
def float.sub (a b : float) : float := a.add b.neg

/-- The place of a number in the order of `<`: its exact value in units of
`2 ^ (-149)`, an infinity beyond every finite value, nothing for a NaN. -/
def float.key : float → Option Int
  | .finite s m => some (float.signed s m)
  | .infinity s => some (float.signed s (2 ^ 277))
  | .nan => none

/-- The comparison `a < b`; false when either side is a NaN. -/
def float.lt (a b : float) : Bool :=
  match a.key, b.key with
  | some p, some q => decide (p < q)
  | _, _ => false

instance : Add float := ⟨float.add⟩

instance : Sub float := ⟨float.sub⟩

instance : LT float := ⟨fun a b => a.lt b = true⟩

instance (a b : float) : Decidable (a < b) := inferInstanceAs (Decidable (a.lt b = true))

/-- The magnitude, in units of `2 ^ (-unit)`, of the decimal
`digits * 10 ^ (-places)` rounded to `p` significant digits and a spacing of
at least `2 ^ low`. The quotient is taken two binary places finer than the
unit, with the last place set when the division leaves a remainder, so that
the rounding sees on which side of every candidate and midpoint the decimal
lies. -/
def round_decimal (p unit low digits places : Nat) : Nat :=
  let scaled := digits * 2 ^ (unit + 1)
  let q := scaled / 10 ^ places
  let n := 2 * q + (if scaled % 10 ^ places = 0 then 0 else 1)
  round_nearest_even p (low + 2) n / 4

/-- A `float` literal such as `0.001f`: the decimal `digits * 10 ^ (-places)`
rounded to binary32. -/
def float.of_decimal (digits places : Nat) : float :=
  let m := round_decimal 24 149 0 digits places
  if m < 2 ^ 277 then .finite false m else .infinity false

/-- A `double` literal converted to `float`, as in the initialiser of
`correct_trace`: the decimal is rounded to binary64 (53 digits, multiples of
`2 ^ (-1074)`) and that number is rounded to binary32. -/
def float.of_double_decimal (digits places : Nat) : float :=
  let d := round_decimal 53 1074 0 digits places
  let m := round_nearest_even 24 925 d / 2 ^ 925
  if m < 2 ^ 277 then .finite false m else .infinity false

instance : OfScientific float where
  ofScientific mantissa exponentSign decimalExponent :=
    if exponentSign then float.of_double_decimal mantissa decimalExponent
    else float.of_double_decimal (mantissa * 10 ^ decimalExponent) 0

instance : OfNat float 0 := ⟨.finite false 0⟩

/-- Whether a number is one binary32 has: a finite magnitude with at most 24
significant digits, below `2 ^ 128`. -/
def float.representable : float → Bool
  | .finite _ m => decide (m % 2 ^ (bit_length m - 24) = 0 ∧ m < 2 ^ 277)
  | _ => true

/-- The exact value of a finite number as a rational (0 for the others). -/
def float.to_rat : float → ℚ
  | .finite s m => (float.signed s m : ℚ) / 2 ^ 149
  | _ => 0

/-- Whether a number is finite. -/
def float.is_finite : float → Bool
  | .finite _ _ => true
  | _ => false

/-! ## Events and the sink -/

/-- The record `struct event`; the arrays `int_args[4]` and `value[4]` are
functions on the four indices. -/
structure event where
  func : Char
  event_type : Int
  type_code : Int
  bits : Int
  width : Int
  value_index : Int
  num_int_args : Int
  int_args : Fin 4 → Int
  value : Fin 4 → float

/-- The zero-initialised record of `event e = {0}`, also the initial content of
every slot of the global `trace`. -/
def event.zero : event :=
  ⟨Char.ofNat 0, 0, 0, 0, 0, 0, 0, fun _ => 0, fun _ => 0⟩

/-- The read `e.int_args[i]`. An index of 4 or more is outside the array; the
code reads only below `num_int_args`, which it asserts to be at most 4. -/
def event.int_arg (e : event) (i : Nat) : Int :=
  if h : i < 4 then e.int_args ⟨i, h⟩ else 0

/-- The read `e.value[i]`, with the same remark as for `int_arg`. -/
def event.value_at (e : event) (i : Nat) : float :=
  if h : i < 4 then e.value ⟨i, h⟩ else 0

/-- The ways a run ends early: a failed `assert`, or an access outside an
array. -/
inductive Fault where
  | assertion_failed
  | out_of_bounds
  deriving DecidableEq, Repr

/-- The globals `event trace[1024]` and `int n_trace`. -/
structure Sink where
  trace : Fin 1024 → event
  n_trace : Int

/-- The globals at program start: a zeroed array and `n_trace = 0`. -/
def Sink.initial : Sink := ⟨fun _ => event.zero, 0⟩

/-- The read `trace[i]`. An index of 1024 or more is outside the array; the
code reads only below `n_trace`. -/
def Sink.read (s : Sink) (i : Nat) : event :=
  if h : i < 1024 then s.trace ⟨i, h⟩ else event.zero

/-- The recorded sequence `trace[0]`, ..., `trace[n_trace - 1]`. -/
def Sink.recorded (s : Sink) : List event :=
  (List.range s.n_trace.toNat).map s.read

/-! ## Printing an event -/

/-- The table `event_types` of `print_event`. -/
def event_types : List String :=
  ["Load", "Store", "Begin realization", "End realization", "Produce", "Update", "Consume",
    "End consume"]

/-- The function `print_event`: both assertions and the table lookup come
before the first `printf`, then the line of the event is written. -/
def print_event (fmtf : float → String) (e : event) (out : String) : Except Fault String :=
  if ¬ (e.num_int_args ≤ 4 ∧ e.width ≤ 4) then .error .assertion_failed
  else if ¬ (e.event_type ≥ 0 ∧ e.event_type ≤ 8) then .error .assertion_failed
  else
    match event_types[e.event_type.toNat]? with
    | none => .error .out_of_bounds
    | some name =>
      let out := out ++ name ++ " "
      let out := out ++ String.singleton e.func ++ "." ++ intText e.value_index ++ "["
      let out := (List.range e.num_int_args.toNat).foldl
        (fun out i => (if i > 0 then out ++ ", " else out) ++ intText (e.int_arg i)) out
      let out := out ++ "] ["
      let out := (List.range e.width.toNat).foldl
        (fun out i => (if i > 0 then out ++ ", " else out) ++ fmtf (e.value_at i)) out
      .ok (out ++ "]\n")

/-! ## The matcher -/

/-- The function `float_match`: are two floats nearly equal? The constant
`0.001f` is `float.of_decimal 1 3`. -/
def float_match (a b : float) : Bool :=
  decide ((a - float.of_decimal 1 3) < b) && decide ((a + float.of_decimal 1 3) > b)

/-- The function `events_match`: are two events equal? -/
def events_match (a b : event) : Bool :=
  decide (a.func = b.func) &&
  decide (a.event_type = b.event_type) &&
  decide (a.type_code = b.type_code) &&
  decide (a.bits = b.bits) &&
  decide (a.width = b.width) &&
  decide (a.value_index = b.value_index) &&
  decide (a.num_int_args = b.num_int_args) &&
  decide (a.int_args 0 = b.int_args 0) &&
  decide (a.int_args 1 = b.int_args 1) &&
  decide (a.int_args 2 = b.int_args 2) &&
  decide (a.int_args 3 = b.int_args 3) &&
  float_match (a.value 0) (b.value 0) &&
  float_match (a.value 1) (b.value 1) &&
  float_match (a.value 2) (b.value 2) &&
  float_match (a.value 3) (b.value 3)

/-! ## The trace callback -/

/-- The write `arr[i] = v` into a four-element array; an index of 4 or more is
outside the array and is not reached (the count is asserted to be at most
4). -/
def store4 {α : Type} (arr : Fin 4 → α) (i : Nat) (v : α) : Fin 4 → α :=
  if h : i < 4 then Function.update arr ⟨i, h⟩ v else arr

/-- The record `e` that `my_trace` builds from its arguments: zeroed, then the
scalar fields, then the first `num_int_args` integers and the first `width`
floats copied from the arrays the pointers `int_args` and `value` address. -/
def my_trace_event (function : String) (event_type type_code bits width value_index : Int)
    (value : Nat → float) (num_int_args : Int) (int_args : Nat → Int) : event :=
  let e := event.zero
  let e := { e with func := function.data.headD (Char.ofNat 0) }
  let e := { e with event_type := event_type }
  let e := { e with type_code := type_code }
  let e := { e with bits := bits }
  let e := { e with width := width }
  let e := { e with value_index := value_index }
  let e := { e with num_int_args := num_int_args }
  let e := { e with
    int_args :=
      ((List.range num_int_args.toNat).foldl (fun arr i => store4 arr i (int_args i))
        e.int_args) }
  { e with
    value :=
      ((List.range width.toNat).foldl (fun arr i => store4 arr i (value i)) e.value) }

/-- The callback `my_trace`: the assertion, the record, and
`trace[n_trace++] = e`, which needs `n_trace` to index the array. -/
def my_trace (function : String) (event_type type_code bits width value_index : Int)
    (value : Nat → float) (num_int_args : Int) (int_args : Nat → Int) (s : Sink) :
    Except Fault Sink :=
  if ¬ (num_int_args ≤ 4 ∧ width ≤ 4) then .error .assertion_failed
  else
    let e := my_trace_event function event_type type_code bits width value_index value
      num_int_args int_args
    if h : 0 ≤ s.n_trace ∧ s.n_trace < 1024 then
      .ok ⟨Function.update s.trace ⟨s.n_trace.toNat, by omega⟩ e, s.n_trace + 1⟩
    else .error .out_of_bounds

/-! ## The comparison in `main` -/

/-- The golden trace `correct_trace` of `main`. -/
def correct_trace : List event :=
  [⟨Char.ofNat 103, 2, 0, 32, 1, 0, 2, ![0, 11, 0, 0], ![0.000000, 0.000000, 0.000000, 0.000000]⟩,
   ⟨Char.ofNat 103, 4, 0, 32, 1, 0, 2, ![0, 5, 0, 0], ![0.000000, 0.000000, 0.000000, 0.000000]⟩,
   ⟨Char.ofNat 103, 1, 2, 32, 4, 0, 4, ![0, 1, 2, 3], ![0.000000, 0.099833, 0.198669, 0.295520]⟩,
   ⟨Char.ofNat 103, 1, 2, 32, 4, 1, 4, ![0, 1, 2, 3], ![1.000000, 0.995004, 0.980067, 0.955337]⟩,
   ⟨Char.ofNat 103, 1, 2, 32, 4, 0, 4, ![1, 2, 3, 4], ![0.099833, 0.198669, 0.295520, 0.389418]⟩,
   ⟨Char.ofNat 103, 1, 2, 32, 4, 1, 4, ![1, 2, 3, 4], ![0.995004, 0.980067, 0.955337, 0.921061]⟩,
   ⟨Char.ofNat 103, 6, 0, 32, 1, 0, 2, ![0, 5, 0, 0], ![0.000000, 0.000000, 0.000000, 0.000000]⟩,
   ⟨Char.ofNat 103, 0, 2, 32, 4, 1, 4, ![1, 2, 3, 4], ![0.995004, 0.980067, 0.955337, 0.921061]⟩,
   ⟨Char.ofNat 103, 0, 2, 32, 4, 0, 4, ![0, 1, 2, 3], ![0.000000, 0.099833, 0.198669, 0.295520]⟩,
   ⟨Char.ofNat 102, 1, 2, 32, 4, 0, 4, ![0, 1, 2, 3], ![0.995004, 1.079900, 1.154006, 1.216581]⟩,
   ⟨Char.ofNat 103, 7, 0, 32, 1, 0, 2, ![0, 5, 0, 0], ![0.000000, 0.000000, 0.000000, 0.000000]⟩,
   ⟨Char.ofNat 103, 4, 0, 32, 1, 0, 2, ![5, 4, 0, 0], ![0.000000, 0.000000, 0.000000, 0.000000]⟩,
   ⟨Char.ofNat 103, 1, 2, 32, 4, 0, 4, ![5, 6, 7, 8], ![0.479426, 0.564642, 0.644218, 0.717356]⟩,
   ⟨Char.ofNat 103, 1, 2, 32, 4, 1, 4, ![5, 6, 7, 8], ![0.877583, 0.825336, 0.764842, 0.696707]⟩,
   ⟨Char.ofNat 103, 6, 0, 32, 1, 0, 2, ![5, 4, 0, 0], ![0.000000, 0.000000, 0.000000, 0.000000]⟩,
   ⟨Char.ofNat 103, 0, 2, 32, 4, 1, 4, ![5, 6, 7, 8], ![0.877583, 0.825336, 0.764842, 0.696707]⟩,
   ⟨Char.ofNat 103, 0, 2, 32, 4, 0, 4, ![4, 5, 6, 7], ![0.389418, 0.479426, 0.564642, 0.644218]⟩,
   ⟨Char.ofNat 102, 1, 2, 32, 4, 0, 4, ![4, 5, 6, 7], ![1.267001, 1.304761, 1.329485, 1.340924]⟩,
   ⟨Char.ofNat 103, 7, 0, 32, 1, 0, 2, ![5, 4, 0, 0], ![0.000000, 0.000000, 0.000000, 0.000000]⟩,
   ⟨Char.ofNat 103, 4, 0, 32, 1, 0, 2, ![9, 2, 0, 0], ![0.000000, 0.000000, 0.000000, 0.000000]⟩,
   ⟨Char.ofNat 103, 1, 2, 32, 4, 0, 4, ![7, 8, 9, 10], ![0.644218, 0.717356, 0.783327, 0.841471]⟩,
   ⟨Char.ofNat 103, 1, 2, 32, 4, 1, 4, ![7, 8, 9, 10], ![0.764842, 0.696707, 0.621610, 0.540302]⟩,
   ⟨Char.ofNat 103, 6, 0, 32, 1, 0, 2, ![9, 2, 0, 0], ![0.000000, 0.000000, 0.000000, 0.000000]⟩,
   ⟨Char.ofNat 103, 0, 2, 32, 4, 1, 4, ![7, 8, 9, 10], ![0.764842, 0.696707, 0.621610, 0.540302]⟩,
   ⟨Char.ofNat 103, 0, 2, 32, 4, 0, 4, ![6, 7, 8, 9], ![0.564642, 0.644218, 0.717356, 0.783327]⟩,
   ⟨Char.ofNat 102, 1, 2, 32, 4, 0, 4, ![6, 7, 8, 9], ![1.329485, 1.340924, 1.338966, 1.323629]⟩,
   ⟨Char.ofNat 103, 7, 0, 32, 1, 0, 2, ![9, 2, 0, 0], ![0.000000, 0.000000, 0.000000, 0.000000]⟩,
   ⟨Char.ofNat 103, 3, 0, 32, 1, 0, 2, ![0, 11, 0, 0], ![0.000000, 0.000000, 0.000000, 0.000000]⟩]

/-- How `main` ends: it returns a code, or the run is aborted. -/
inductive Exit where
  | returned (code : Int)
  | aborted (fault : Fault)
  deriving DecidableEq, Repr

/-- What a run of the comparison leaves behind: the text written with `printf`
and the way it ended. -/
structure Outcome where
  stdout : String
  exit : Exit
  deriving DecidableEq, Repr

/-- The loop `for (int j = 0; j < n_trace; j++) { if (j == i) printf(" ===> ");
print_event(events[j]); }`, resumed at index `j` with the events from `j` on
still to print: the text written, and the fault if an event aborted the run. -/
def print_marked (fmtf : float → String) (i : Nat) :
    Nat → List event → String → String × Option Fault
  | _, [], out => (out, none)
  | j, e :: rest, out =>
    let out := if j = i then out ++ " ===> " else out
    match print_event fmtf e out with
    | .ok out => print_marked fmtf i (j + 1) rest out
    | .error fault => (out, some fault)

/-- The body of `if (!events_match(trace[i], correct_trace[i]))`: the report of
a difference at index `i`, ending in `return -1`. -/
def report (fmtf : float → String) (trace correct_trace : List event) (i : Nat) : Outcome :=
  let out := "Traces differs at event " ++ intText i ++ ":\n"
    ++ "-------------------------------\n"
    ++ "Correct trace:\n"
  match print_marked fmtf i 0 correct_trace out with
  | (out, some fault) => ⟨out, .aborted fault⟩
  | (out, none) =>
    let out := out ++ "-------------------------------\n" ++ "Trace encountered:\n"
    match print_marked fmtf i 0 trace out with
    | (out, some fault) => ⟨out, .aborted fault⟩
    | (out, none) => ⟨out ++ "-------------------------------\n", .returned (-1)⟩

/-- The loop `for (int i = 0; i < n_trace; i++)` of `main`, resumed at index
`i` with the events of both sequences from `i` on still to compare, followed
by `printf("Success!\n"); return 0;`. -/
def compare_loop (fmtf : float → String) (trace correct_trace : List event) :
    Nat → List event → List event → Outcome
  | i, a :: as, b :: bs =>
    if !events_match a b then report fmtf trace correct_trace i
    else compare_loop fmtf trace correct_trace (i + 1) as bs
  | _, _, _ => ⟨"Success!\n", .returned 0⟩

/-- The end of `main`, from the assertion on `n_trace` on, for a recorded
sequence `trace` (of length `n_trace`) and a golden sequence. -/
def check_traces (fmtf : float → String) (trace correct_trace : List event) : Outcome :=
  if trace.length ≠ correct_trace.length then ⟨"", .aborted .assertion_failed⟩
  else compare_loop fmtf trace correct_trace 0 trace correct_trace

/-- The end of `main` on the globals: the recorded events against
`correct_trace`. -/
def main_check (fmtf : float → String) (s : Sink) : Outcome :=
  check_traces fmtf s.recorded correct_trace

/-! ## Notions used to state the properties -/

/-- An event passes the assertions of `print_event` and names one of the eight
kinds. -/
def printable (e : event) : Prop :=
  e.num_int_args ≤ 4 ∧ e.width ≤ 4 ∧ 0 ≤ e.event_type ∧ e.event_type ≤ 7

/-- The line `print_event` writes for an event (empty if it writes none). -/
def event_line (fmtf : float → String) (e : event) : String :=
  match print_event fmtf e "" with
  | .ok line => line
  | .error _ => ""

/-- The lines of the events from index `j` on, the one at index `i` preceded
by the marker. -/
def marked_lines (fmtf : float → String) (i : Nat) : Nat → List event → String
  | _, [] => ""
  | j, e :: rest =>
    (if j = i then " ===> " else "") ++ event_line fmtf e ++ marked_lines fmtf i (j + 1) rest

/-- The offset of the first pair of events that do not match, if any. -/
def first_mismatch : List event → List event → Option Nat
  | a :: as, b :: bs =>
    if events_match a b then (first_mismatch as bs).map (fun d => d + 1) else some 0
  | _, _ => none

/-- The kinds of the realization events (kinds 2 to 7) of buffer `g` (character
code 103), in trace order. -/
def g_kinds (t : List event) : List Int :=
  (t.filter (fun e => decide (e.func = Char.ofNat 103 ∧ 2 ≤ e.event_type ∧ e.event_type ≤ 7))).map
    (fun e => e.event_type)

/-- Where a buffer is in its lifecycle, by the last realization event seen. -/
inductive Phase where
  | start
  | begun
  | produce
  | update
  | consume
  | idle
  | ended
  deriving DecidableEq, Repr

/-- One step of the lifecycle BeginRealization (2), Produce (4), Update (5) any
number of times, Consume (6), EndConsume (7), EndRealization (3). With
`rounds`, a further Produce may follow an EndConsume. -/
def lifecycle_step (rounds : Bool) : Phase → Int → Option Phase
  | .start, 2 => some .begun
  | .begun, 4 => some .produce
  | .produce, 5 => some .update
  | .update, 5 => some .update
  | .produce, 6 => some .consume
  | .update, 6 => some .consume
  | .consume, 7 => some .idle
  | .idle, 4 => if rounds then some .produce else none
  | .idle, 3 => some .ended
  | _, _ => none

/-- A sequence of kinds runs through the whole lifecycle. -/
def in_lifecycle_order (rounds : Bool) : Phase → List Int → Bool
  | phase, [] => decide (phase = .ended)
  | phase, kind :: rest =>
    match lifecycle_step rounds phase kind with
    | some next => in_lifecycle_order rounds next rest
    | none => false

/-- Every Load (0) or Store (1) event comes when the last realization event of
buffer `g` before it is a Produce (4), an Update (5) or a Consume (6). -/
def loads_stores_inside : Option Int → List event → Bool
  | _, [] => true
  | last, e :: rest =>
    if e.event_type = 0 ∨ e.event_type = 1 then
      decide (last = some 4 ∨ last = some 5 ∨ last = some 6) && loads_stores_inside last rest
    else if e.func = Char.ofNat 103 ∧ 2 ≤ e.event_type ∧ e.event_type ≤ 7 then
      loads_stores_inside (some e.event_type) rest
    else loads_stores_inside last rest

/-- The lines `print_event` writes for a list of events, one after another. -/
def event_lines (fmtf : float → String) : List event → String
  | [] => ""
  | e :: rest => event_line fmtf e ++ event_lines fmtf rest

end tracing

namespace HalideInternal
open IRPrinter

/-! ## Basic facts about the printer state -/

@[simp] theorem emit_stream (p : IRPrinter) (s : String) :
    (p.emit s).stream = p.stream ++ s := rfl

@[simp] theorem emit_indent (p : IRPrinter) (s : String) : (p.emit s).indent = p.indent := rfl

@[simp] theorem emit_history (p : IRPrinter) (s : String) :
    (p.emit s).history = p.history := rfl

theorem emit_emit (p : IRPrinter) (s t : String) : (p.emit s).emit t = p.emit (s ++ t) := by
  simp [emit, String.append_assoc]

theorem emit_empty (p : IRPrinter) : p.emit "" = p := by
  cases p; simp [emit]

theorem writeType_eq (out : String) (type : IRType) :
    writeType out type = out ++ typeText type := by
  unfold typeText writeType
  cases type.t <;> simp <;> split <;> simp [String.append_assoc]

theorem writeForType_eq (out : String) (type : ForType) :
    writeForType out type = out ++ forTypeText type := by
  cases type <;> simp [forTypeText, writeForType]

theorem do_indent_eq (p : IRPrinter) : do_indent p = p.emit (spaces p.indent) := by
  have h : ∀ (n : Nat) (q : IRPrinter),
      (List.range n).foldl (fun q _ => q.emit " ") q
        = q.emit (String.mk (List.replicate n ' ')) := by
    intro n
    induction n with
    | zero => intro q; cases q; simp [emit]
    | succ k ih =>
      intro q
      rw [List.range_succ, List.foldl_append, ih]
      simp only [List.foldl_cons, List.foldl_nil, emit_emit]
      congr 1
      apply String.ext
      simp [List.replicate_succ']
  exact h _ p

/-- Printing an expression appends its text and touches nothing else; the
same for the argument loop. -/
theorem printExpr_all (fmt : Float → String) (e : Expr) :
    ∀ p : IRPrinter, printExpr fmt e p = p.emit (exprText fmt e) := by
  apply @Expr.rec
    (fun e => ∀ p : IRPrinter, printExpr fmt e p = p.emit (exprText fmt e))
    (fun args => ∀ (size i : Nat) (p : IRPrinter),
      printArgs fmt size i args p = p.emit (argsText fmt size i args))
  all_goals intros
  all_goals simp only [exprText, writeExpr, argsText, printExpr, printArgs, writeType_eq]
  all_goals try simp only [*]
  all_goals try split
  all_goals simp [emit, IRPrinter.new, String.append_assoc]

theorem printArgs_all (fmt : Float → String) (args : List Expr) :
    ∀ (size i : Nat) (p : IRPrinter),
      printArgs fmt size i args p = p.emit (argsText fmt size i args) := by
  induction args with
  | nil => intro size i p; simp [printArgs, argsText, emit_empty, IRPrinter.new]
  | cons a rest ih =>
    intro size i p
    simp only [argsText, printArgs, printExpr_all]
    rw [ih]
    split <;> simp [emit, IRPrinter.new, String.append_assoc, ih]

theorem printPrintArgs_all (fmt : Float → String) (args : List Expr) :
    ∀ p : IRPrinter, printPrintArgs fmt args p = p.emit (printArgsText fmt args) := by
  induction args with
  | nil => intro p; simp [printPrintArgs, printArgsText, emit_empty, IRPrinter.new]
  | cons a rest ih =>
    intro p
    simp only [printArgsText, printPrintArgs, printExpr_all]
    rw [ih, ih]
    simp [emit, IRPrinter.new, String.append_assoc]

theorem printBounds_all (fmt : Float → String) (bounds : List (Expr × Expr)) :
    ∀ (size i : Nat) (p : IRPrinter),
      printBounds fmt size i bounds p = p.emit (boundsText fmt size i bounds) := by
  induction bounds with
  | nil => intro size i p; simp [printBounds, boundsText, emit_empty, IRPrinter.new]
  | cons b rest ih =>
    intro size i p
    simp only [boundsText, printBounds, printExpr_all]
    rw [ih]
    split <;> simp [emit, IRPrinter.new, String.append_assoc, ih]

/-- Structural induction on statements, with the optional children of
`Pipeline` and `Block` split into their two cases. -/
theorem Stmt.induct {P : Stmt → Prop}
    (hLet : ∀ name value body, P body → P (.LetStmt name value body))
    (hPrint : ∀ pfx args, P (.PrintStmt pfx args))
    (hAssert : ∀ condition message, P (.AssertStmt condition message))
    (hPipe : ∀ buffer produce consume, P produce → P consume →
      P (.Pipeline buffer produce none consume))
    (hPipeU : ∀ buffer produce update consume, P produce → P update → P consume →
      P (.Pipeline buffer produce (some update) consume))
    (hFor : ∀ name min extent for_type body, P body → P (.For name min extent for_type body))
    (hStore : ∀ buffer value index, P (.Store buffer value index))
    (hProvide : ∀ buffer args value, P (.Provide buffer args value))
    (hAlloc : ∀ buffer type size body, P body → P (.Allocate buffer type size body))
    (hRealize : ∀ buffer bounds body, P body → P (.Realize buffer bounds body))
    (hBlock : ∀ first, P first → P (.Block first none))
    (hBlockR : ∀ first rest, P first → P rest → P (.Block first (some rest)))
    (s : Stmt) : P s := by
  apply @Stmt.rec P (fun o => ∀ u, o = some u → P u)
  case LetStmt => exact fun n v b ih => hLet n v b ih
  case PrintStmt => exact hPrint
  case AssertStmt => exact hAssert
  case Pipeline =>
    intro buffer produce update consume ihp ihu ihc
    cases update with
    | none => exact hPipe buffer produce consume ihp ihc
    | some u => exact hPipeU buffer produce u consume ihp (ihu u rfl) ihc
  case For => exact fun n mn ex ft b ih => hFor n mn ex ft b ih
  case Store => exact hStore
  case Provide => exact hProvide
  case Allocate => exact fun b t sz body ih => hAlloc b t sz body ih
  case Realize => exact fun b bs body ih => hRealize b bs body ih
  case Block =>
    intro first rest ihf ihr
    cases rest with
    | none => exact hBlock first ihf
    | some r => exact hBlockR first r ihf (ihr r rfl)
  case none => intro u h; cases h
  case some => intro v ih u h; cases h; exact ih

/-- Printing a statement appends its text, restores the indent counter, and
prepends the counter values it went through to the history. -/
theorem printStmt_all (fmt : Float → String) (s : Stmt) :
    ∀ p : IRPrinter, printStmt fmt s p =
      ⟨p.stream ++ stmtText fmt p.indent s, p.indent, stmtHist fmt p.indent s ++ p.history⟩ := by
  induction s using Stmt.induct
  all_goals intro p
  all_goals simp only [stmtText, stmtHist, printStmt, do_indent_eq, printExpr_all,
    printArgs_all, printPrintArgs_all, printBounds_all, writeType_eq, writeForType_eq]
  all_goals try simp only [*]
  all_goals simp [emit, endl, indent_up, indent_down, String.append_assoc]

/-! ## The text of each statement kind -/

theorem stmtText_LetStmt (fmt : Float → String) (n : Int) (name : String) (value : Expr)
    (body : Stmt) :
    stmtText fmt n (.LetStmt name value body) =
      spaces n ++ "let " ++ name ++ " = " ++ exprText fmt value ++ "\n"
        ++ spaces n ++ stmtText fmt n body := by
  rw [stmtText]
  simp only [printStmt, do_indent_eq, printExpr_all, printStmt_all]
  simp [emit, endl, String.append_assoc]

theorem stmtText_PrintStmt (fmt : Float → String) (n : Int) (pfx : String) (args : List Expr) :
    stmtText fmt n (.PrintStmt pfx args) =
      spaces n ++ "print(" ++ pfx ++ printArgsText fmt args ++ ")" ++ "\n" := by
  rw [stmtText]
  simp only [printStmt, do_indent_eq, printPrintArgs_all]
  simp [emit, endl, String.append_assoc]

theorem stmtText_AssertStmt (fmt : Float → String) (n : Int) (condition : Expr)
    (message : String) :
    stmtText fmt n (.AssertStmt condition message) =
      spaces n ++ "assert(" ++ exprText fmt condition ++ ", \"" ++ message ++ "\")" ++ "\n" := by
  rw [stmtText]
  simp only [printStmt, do_indent_eq, printExpr_all]
  simp [emit, endl, String.append_assoc]

theorem stmtText_Pipeline_none (fmt : Float → String) (n : Int) (buffer : String)
    (produce consume : Stmt) :
    stmtText fmt n (.Pipeline buffer produce none consume) =
      spaces n ++ "produce " ++ buffer ++ " \x7b" ++ "\n"
        ++ stmtText fmt (n + 2) produce
        ++ spaces n ++ "\x7d consume \x7b" ++ "\n"
        ++ stmtText fmt (n + 2) consume
        ++ spaces n ++ "\x7d" ++ "\n" := by
  rw [stmtText]
  simp only [printStmt, do_indent_eq, printStmt_all]
  simp [emit, endl, indent_up, indent_down, String.append_assoc]

theorem stmtText_Pipeline_some (fmt : Float → String) (n : Int) (buffer : String)
    (produce update consume : Stmt) :
    stmtText fmt n (.Pipeline buffer produce (some update) consume) =
      spaces n ++ "produce " ++ buffer ++ " \x7b" ++ "\n"
        ++ stmtText fmt (n + 2) produce
        ++ spaces n ++ "\x7d update \x7b" ++ "\n"
        ++ stmtText fmt (n + 2) update
        ++ spaces n ++ "\x7d consume \x7b" ++ "\n"
        ++ stmtText fmt (n + 2) consume
        ++ spaces n ++ "\x7d" ++ "\n" := by
  rw [stmtText]
  simp only [printStmt, do_indent_eq, printStmt_all]
  simp [emit, endl, indent_up, indent_down, String.append_assoc]

theorem stmtText_For (fmt : Float → String) (n : Int) (name : String) (min extent : Expr)
    (for_type : ForType) (body : Stmt) :
    stmtText fmt n (.For name min extent for_type body) =
      spaces n ++ forTypeText for_type ++ " (" ++ name ++ ", " ++ exprText fmt min ++ ", "
        ++ exprText fmt extent ++ ") \x7b" ++ "\n"
        ++ stmtText fmt (n + 2) body
        ++ spaces n ++ "\x7d" ++ "\n" := by
  rw [stmtText]
  simp only [printStmt, do_indent_eq, printExpr_all, printStmt_all, writeForType_eq]
  simp [emit, endl, indent_up, indent_down, String.append_assoc]

theorem stmtText_Store (fmt : Float → String) (n : Int) (buffer : String)
    (value index : Expr) :
    stmtText fmt n (.Store buffer value index) =
      spaces n ++ buffer ++ "[" ++ exprText fmt index ++ "] = " ++ exprText fmt value
        ++ "\n" := by
  rw [stmtText]
  simp only [printStmt, do_indent_eq, printExpr_all]
  simp [emit, endl, String.append_assoc]

theorem stmtText_Provide (fmt : Float → String) (n : Int) (buffer : String)
    (args : List Expr) (value : Expr) :
    stmtText fmt n (.Provide buffer args value) =
      spaces n ++ buffer ++ "(" ++ argsText fmt args.length 0 args ++ ") = "
        ++ exprText fmt value ++ "\n" := by
  rw [stmtText]
  simp only [printStmt, do_indent_eq, printExpr_all, printArgs_all]
  simp [emit, endl, String.append_assoc]

theorem stmtText_Allocate (fmt : Float → String) (n : Int) (buffer : String)
    (type : IRType) (size : Expr) (body : Stmt) :
    stmtText fmt n (.Allocate buffer type size body) =
      spaces n ++ "allocate " ++ buffer ++ "[" ++ typeText type ++ " * "
        ++ exprText fmt size ++ "]" ++ "\n"
        ++ stmtText fmt n body
        ++ spaces n ++ "free " ++ buffer ++ "\n" := by
  rw [stmtText]
  simp only [printStmt, do_indent_eq, printExpr_all, printStmt_all, writeType_eq]
  simp [emit, endl, String.append_assoc]

theorem stmtText_Realize (fmt : Float → String) (n : Int) (buffer : String)
    (bounds : List (Expr × Expr)) (body : Stmt) :
    stmtText fmt n (.Realize buffer bounds body) =
      spaces n ++ "realize " ++ buffer ++ "(" ++ boundsText fmt bounds.length 0 bounds
        ++ ") \x7b" ++ "\n"
        ++ stmtText fmt (n + 2) body
        ++ spaces n ++ "\x7d" ++ "\n" := by
  rw [stmtText]
  simp only [printStmt, do_indent_eq, printBounds_all, printStmt_all]
  simp [emit, endl, indent_up, indent_down, String.append_assoc]

theorem stmtText_Block_none (fmt : Float → String) (n : Int) (first : Stmt) :
    stmtText fmt n (.Block first none) = stmtText fmt n first := by
  rw [stmtText]
  simp only [printStmt, printStmt_all]
  simp

theorem stmtText_Block_some (fmt : Float → String) (n : Int) (first rest : Stmt) :
    stmtText fmt n (.Block first (some rest)) = stmtText fmt n first ++ stmtText fmt n rest := by
  rw [stmtText]
  simp only [printStmt, printStmt_all]
  simp

/-! ## The text of each expression kind -/

theorem exprText_IntImm (fmt : Float → String) (value : Int) :
    exprText fmt (.IntImm value) = intText value := by
  simp [exprText, writeExpr, printExpr, emit, IRPrinter.new]

theorem exprText_FloatImm (fmt : Float → String) (value : Float) :
    exprText fmt (.FloatImm value) = fmt value := by
  simp [exprText, writeExpr, printExpr, emit, IRPrinter.new]

theorem exprText_Var (fmt : Float → String) (type : IRType) (name : String) :
    exprText fmt (.Var type name) = name := by
  simp [exprText, writeExpr, printExpr, emit, IRPrinter.new]

theorem exprText_Cast (fmt : Float → String) (type : IRType) (value : Expr) :
    exprText fmt (.Cast type value) = typeText type ++ "(" ++ exprText fmt value ++ ")" := by
  rw [exprText, writeExpr]
  simp only [printExpr, printExpr_all, writeType_eq]
  simp [emit, IRPrinter.new, String.append_assoc]

theorem exprText_Add (fmt : Float → String) (a b : Expr) :
    exprText fmt (.Add a b) = "(" ++ exprText fmt a ++ " + " ++ exprText fmt b ++ ")" := by
  rw [exprText, writeExpr]
  simp only [printExpr, printExpr_all]
  simp [emit, IRPrinter.new, String.append_assoc]

theorem exprText_Sub (fmt : Float → String) (a b : Expr) :
    exprText fmt (.Sub a b) = "(" ++ exprText fmt a ++ " - " ++ exprText fmt b ++ ")" := by
  rw [exprText, writeExpr]
  simp only [printExpr, printExpr_all]
  simp [emit, IRPrinter.new, String.append_assoc]

theorem exprText_Mul (fmt : Float → String) (a b : Expr) :
    exprText fmt (.Mul a b) = "(" ++ exprText fmt a ++ "*" ++ exprText fmt b ++ ")" := by
  rw [exprText, writeExpr]
  simp only [printExpr, printExpr_all]
  simp [emit, IRPrinter.new, String.append_assoc]

theorem exprText_Div (fmt : Float → String) (a b : Expr) :
    exprText fmt (.Div a b) = "(" ++ exprText fmt a ++ "/" ++ exprText fmt b ++ ")" := by
  rw [exprText, writeExpr]
  simp only [printExpr, printExpr_all]
  simp [emit, IRPrinter.new, String.append_assoc]

theorem exprText_Mod (fmt : Float → String) (a b : Expr) :
    exprText fmt (.Mod a b) = "(" ++ exprText fmt a ++ " % " ++ exprText fmt b ++ ")" := by
  rw [exprText, writeExpr]
  simp only [printExpr, printExpr_all]
  simp [emit, IRPrinter.new, String.append_assoc]

theorem exprText_Min (fmt : Float → String) (a b : Expr) :
    exprText fmt (.Min a b) = "min(" ++ exprText fmt a ++ ", " ++ exprText fmt b ++ ")" := by
  rw [exprText, writeExpr]
  simp only [printExpr, printExpr_all]
  simp [emit, IRPrinter.new, String.append_assoc]

theorem exprText_Max (fmt : Float → String) (a b : Expr) :
    exprText fmt (.Max a b) = "max(" ++ exprText fmt a ++ ", " ++ exprText fmt b ++ ")" := by
  rw [exprText, writeExpr]
  simp only [printExpr, printExpr_all]
  simp [emit, IRPrinter.new, String.append_assoc]

theorem exprText_EQ (fmt : Float → String) (a b : Expr) :
    exprText fmt (.EQ a b) = "(" ++ exprText fmt a ++ " == " ++ exprText fmt b ++ ")" := by
  rw [exprText, writeExpr]
  simp only [printExpr, printExpr_all]
  simp [emit, IRPrinter.new, String.append_assoc]

theorem exprText_NE (fmt : Float → String) (a b : Expr) :
    exprText fmt (.NE a b) = "(" ++ exprText fmt a ++ " != " ++ exprText fmt b ++ ")" := by
  rw [exprText, writeExpr]
  simp only [printExpr, printExpr_all]
  simp [emit, IRPrinter.new, String.append_assoc]

theorem exprText_LT (fmt : Float → String) (a b : Expr) :
    exprText fmt (.LT a b) = "(" ++ exprText fmt a ++ " < " ++ exprText fmt b ++ ")" := by
  rw [exprText, writeExpr]
  simp only [printExpr, printExpr_all]
  simp [emit, IRPrinter.new, String.append_assoc]

theorem exprText_LE (fmt : Float → String) (a b : Expr) :
    exprText fmt (.LE a b) = "(" ++ exprText fmt a ++ " <= " ++ exprText fmt b ++ ")" := by
  rw [exprText, writeExpr]
  simp only [printExpr, printExpr_all]
  simp [emit, IRPrinter.new, String.append_assoc]

theorem exprText_GT (fmt : Float → String) (a b : Expr) :
    exprText fmt (.GT a b) = "(" ++ exprText fmt a ++ " > " ++ exprText fmt b ++ ")" := by
  rw [exprText, writeExpr]
  simp only [printExpr, printExpr_all]
  simp [emit, IRPrinter.new, String.append_assoc]

theorem exprText_GE (fmt : Float → String) (a b : Expr) :
    exprText fmt (.GE a b) = "(" ++ exprText fmt a ++ " >= " ++ exprText fmt b ++ ")" := by
  rw [exprText, writeExpr]
  simp only [printExpr, printExpr_all]
  simp [emit, IRPrinter.new, String.append_assoc]

theorem exprText_And (fmt : Float → String) (a b : Expr) :
    exprText fmt (.And a b) = "(" ++ exprText fmt a ++ " && " ++ exprText fmt b ++ ")" := by
  rw [exprText, writeExpr]
  simp only [printExpr, printExpr_all]
  simp [emit, IRPrinter.new, String.append_assoc]

theorem exprText_Or (fmt : Float → String) (a b : Expr) :
    exprText fmt (.Or a b) = "(" ++ exprText fmt a ++ " || " ++ exprText fmt b ++ ")" := by
  rw [exprText, writeExpr]
  simp only [printExpr, printExpr_all]
  simp [emit, IRPrinter.new, String.append_assoc]

theorem exprText_Not (fmt : Float → String) (a : Expr) :
    exprText fmt (.Not a) = "!" ++ exprText fmt a := by
  rw [exprText, writeExpr]
  simp only [printExpr, printExpr_all]
  simp [emit, IRPrinter.new, String.append_assoc]

theorem exprText_Select (fmt : Float → String) (c t f : Expr) :
    exprText fmt (.Select c t f) =
      "select(" ++ exprText fmt c ++ ", " ++ exprText fmt t ++ ", " ++ exprText fmt f ++ ")" := by
  rw [exprText, writeExpr]
  simp only [printExpr, printExpr_all]
  simp [emit, IRPrinter.new, String.append_assoc]

theorem exprText_Load (fmt : Float → String) (buffer : String) (index : Expr) :
    exprText fmt (.Load buffer index) = buffer ++ "[" ++ exprText fmt index ++ "]" := by
  rw [exprText, writeExpr]
  simp only [printExpr, printExpr_all]
  simp [emit, IRPrinter.new, String.append_assoc]

theorem exprText_Ramp (fmt : Float → String) (base stride : Expr) (width : Int) :
    exprText fmt (.Ramp base stride width) =
      "ramp(" ++ exprText fmt base ++ ", " ++ exprText fmt stride ++ ", " ++ intText width
        ++ ")" := by
  rw [exprText, writeExpr]
  simp only [printExpr, printExpr_all]
  simp [emit, IRPrinter.new, String.append_assoc]

theorem exprText_Broadcast (fmt : Float → String) (value : Expr) (width : Int) :
    exprText fmt (.Broadcast value width) =
      "broadcast(" ++ exprText fmt value ++ ", " ++ intText width ++ ")" := by
  rw [exprText, writeExpr]
  simp only [printExpr, printExpr_all]
  simp [emit, IRPrinter.new, String.append_assoc]

theorem exprText_Call (fmt : Float → String) (type : IRType) (buffer : String)
    (args : List Expr) (call_type : CallType) :
    exprText fmt (.Call type buffer args call_type) =
      buffer ++ "(" ++ argsText fmt args.length 0 args ++ ")" := by
  rw [exprText, writeExpr]
  simp only [printExpr, printArgs_all]
  simp [emit, IRPrinter.new, String.append_assoc]

theorem exprText_Let (fmt : Float → String) (name : String) (value body : Expr) :
    exprText fmt (.Let name value body) =
      "(let " ++ name ++ " = " ++ exprText fmt value ++ " in " ++ exprText fmt body ++ ")" := by
  rw [exprText, writeExpr]
  simp only [printExpr, printExpr_all]
  simp [emit, IRPrinter.new, String.append_assoc]

theorem argsText_nil (fmt : Float → String) (size i : Nat) : argsText fmt size i [] = "" := by
  simp [argsText, printArgs, IRPrinter.new]

theorem argsText_cons (fmt : Float → String) (size i : Nat) (arg : Expr) (rest : List Expr) :
    argsText fmt size i (arg :: rest) =
      exprText fmt arg ++ (if i < size_minus_one size then ", " else "")
        ++ argsText fmt size (i + 1) rest := by
  rw [argsText]
  simp only [printArgs, printExpr_all, printArgs_all]
  split <;> simp [emit, IRPrinter.new, String.append_assoc]

theorem printArgsText_nil (fmt : Float → String) : printArgsText fmt [] = "" := by
  simp [printArgsText, printPrintArgs, IRPrinter.new]

theorem printArgsText_cons (fmt : Float → String) (arg : Expr) (rest : List Expr) :
    printArgsText fmt (arg :: rest) = ", " ++ exprText fmt arg ++ printArgsText fmt rest := by
  rw [printArgsText]
  simp only [printPrintArgs, printExpr_all, printPrintArgs_all]
  simp [emit, IRPrinter.new, String.append_assoc]

theorem boundsText_nil (fmt : Float → String) (size i : Nat) : boundsText fmt size i [] = "" := by
  simp [boundsText, printBounds, IRPrinter.new]

theorem boundsText_cons (fmt : Float → String) (size i : Nat) (bound : Expr × Expr)
    (rest : List (Expr × Expr)) :
    boundsText fmt size i (bound :: rest) =
      "[" ++ exprText fmt bound.1 ++ ", " ++ exprText fmt bound.2 ++ "]"
        ++ (if i < size_minus_one size then ", " else "")
        ++ boundsText fmt size (i + 1) rest := by
  rw [boundsText]
  simp only [printBounds, printExpr_all, printBounds_all]
  split <;> simp [emit, IRPrinter.new, String.append_assoc]

theorem writeStmt_eq (fmt : Float → String) (stream : String) (s : Stmt) :
    writeStmt fmt stream s = stream ++ stmtText fmt 0 s := by
  rw [writeStmt, printStmt_all]
  rfl

theorem writeExpr_eq (fmt : Float → String) (stream : String) (e : Expr) :
    writeExpr fmt stream e = stream ++ exprText fmt e := by
  rw [writeExpr, printExpr_all]
  rfl

set_option maxRecDepth 100000 in
theorem test_allocate_text (fmt : Float → String) :
    writeStmt fmt "" IRPrinter.test.allocate =
      "allocate buf[f32 * 1023]" ++ "\n"
        ++ ("let y = 17\n"
          ++ "assert((y > 3), \"y is greater than 3\")\n"
          ++ "produce buf \x7b\n"
          ++ "  parallel (x, -2, (y + 2)) \x7b\n"
          ++ "    buf[(y - 1)] = ((x*17)/(x - 3))\n"
          ++ "  \x7d\n"
          ++ "\x7d consume \x7b\n"
          ++ "  vectorized (x, 0, y) \x7b\n"
          ++ "    out[x] = (buf((x % 3)) + 1)\n"
          ++ "  \x7d\n"
          ++ "\x7d\n")
        ++ "free buf" ++ "\n" := by
  rw [writeStmt_eq]
  simp only [IRPrinter.test.allocate, IRPrinter.test.let_stmt, IRPrinter.test.block,
    IRPrinter.test.assertion, IRPrinter.test.pipeline, IRPrinter.test.for_loop,
    IRPrinter.test.for_loop2, IRPrinter.test.store, IRPrinter.test.store2,
    IRPrinter.test.call, IRPrinter.test.x, IRPrinter.test.y,
    stmtText_Allocate, stmtText_LetStmt, stmtText_Block_some, stmtText_AssertStmt,
    stmtText_Pipeline_none, stmtText_For, stmtText_Store, exprText_IntImm, exprText_Var,
    exprText_Add, exprText_Sub, exprText_Mul, exprText_Div, exprText_Mod, exprText_GT,
    exprText_Call, argsText_cons, argsText_nil]
  decide

/-! ## Indent balance -/

theorem stmtHist_ge (fmt : Float → String) (s : Stmt) :
    ∀ (n v : Int), v ∈ stmtHist fmt n s → n ≤ v := by
  induction s using Stmt.induct
  all_goals intro n v hv
  all_goals rw [stmtHist] at hv
  all_goals simp only [printStmt, do_indent_eq, printExpr_all, printArgs_all,
    printPrintArgs_all, printBounds_all, printStmt_all] at hv
  all_goals simp [emit, endl, indent_up, indent_down] at hv
  case hLet ih => exact ih n v hv
  case hPipe ihp ihc =>
    rcases hv with h | h | h | h | h | h
    · omega
    · have := ihc _ _ h; omega
    · omega
    · omega
    · have := ihp _ _ h; omega
    · omega
  case hPipeU ihp ihu ihc =>
    rcases hv with h | h | h | h | h | h | h | h | h
    · omega
    · have := ihc _ _ h; omega
    · omega
    · omega
    · have := ihu _ _ h; omega
    · omega
    · omega
    · have := ihp _ _ h; omega
    · omega
  case hFor ih =>
    rcases hv with h | h | h
    · omega
    · have := ih _ _ h; omega
    · omega
  case hAlloc ih => exact ih n v hv
  case hRealize ih =>
    rcases hv with h | h | h
    · omega
    · have := ih _ _ h; omega
    · omega
  case hBlock ih => exact ih n v hv
  case hBlockR ihf ihr =>
    rcases hv with h | h
    · exact ihr n v h
    · exact ihf n v h

/-- The counter never exceeds its starting value by more than twice the
nesting depth: a run that starts at `n` with `n + 2 * depth` representable in
an `int` never overflows the counter. -/
theorem stmtHist_le (fmt : Float → String) (s : Stmt) :
    ∀ (n v : Int), v ∈ stmtHist fmt n s → v ≤ n + 2 * (s.depth : Int) := by
  induction s using Stmt.induct
  all_goals intro n v hv
  all_goals rw [stmtHist] at hv
  all_goals simp only [printStmt, do_indent_eq, printExpr_all, printArgs_all,
    printPrintArgs_all, printBounds_all, printStmt_all] at hv
  all_goals simp [emit, endl, indent_up, indent_down] at hv
  all_goals simp only [Stmt.depth]
  case hLet ih => exact ih n v hv
  case hPipe ihp ihc =>
    rcases hv with h | h | h | h | h | h
    · omega
    · have := ihc _ _ h; omega
    · omega
    · omega
    · have := ihp _ _ h; omega
    · omega
  case hPipeU ihp ihu ihc =>
    rcases hv with h | h | h | h | h | h | h | h | h
    · omega
    · have := ihc _ _ h; omega
    · omega
    · omega
    · have := ihu _ _ h; omega
    · omega
    · omega
    · have := ihp _ _ h; omega
    · omega
  case hFor ih =>
    rcases hv with h | h | h
    · omega
    · have := ih _ _ h; omega
    · omega
  case hAlloc ih => exact ih n v hv
  case hRealize ih =>
    rcases hv with h | h | h
    · omega
    · have := ih _ _ h; omega
    · omega
  case hBlock ih => have := ih n v hv; omega
  case hBlockR ihf ihr =>
    rcases hv with h | h
    · have := ihr n v h; omega
    · have := ihf n v h; omega

/-- C1 (indent balance). Printing any statement from any printer state leaves
the indent counter at its starting value, and every value the counter is
assigned during the traversal (the entries the traversal adds to the history)
is at least the starting value. -/
theorem indent_balance (fmt : Float → String) (s : Stmt) (p : IRPrinter) :
    (printStmt fmt s p).indent = p.indent ∧
      ∃ assigned : List Int,
        (printStmt fmt s p).history = assigned ++ p.history ∧
          ∀ v ∈ assigned, p.indent ≤ v := by
  rw [printStmt_all]
  exact ⟨rfl, stmtHist fmt p.indent s, rfl, fun v hv => stmtHist_ge fmt s _ v hv⟩

/-! ## Expression and type grammar -/

/-- C2 (arithmetic grammar). Add, Sub, Mul, Div and Mod print as an opening
parenthesis, the text of `a`, the operator (" + ", " - ", "*", "/", " % "),
the text of `b` and a closing parenthesis; the first expression printed by
`IRPrinter::test` comes out as `((x + 3)*((y/2) + 17))`. -/
theorem arithmetic_grammar (fmt : Float → String) (a b : Expr) :
    (exprText fmt (.Add a b) = "(" ++ exprText fmt a ++ " + " ++ exprText fmt b ++ ")" ∧
     exprText fmt (.Sub a b) = "(" ++ exprText fmt a ++ " - " ++ exprText fmt b ++ ")" ∧
     exprText fmt (.Mul a b) = "(" ++ exprText fmt a ++ "*" ++ exprText fmt b ++ ")" ∧
     exprText fmt (.Div a b) = "(" ++ exprText fmt a ++ "/" ++ exprText fmt b ++ ")" ∧
     exprText fmt (.Mod a b) = "(" ++ exprText fmt a ++ " % " ++ exprText fmt b ++ ")") ∧
    writeExpr fmt "" IRPrinter.test.product = "((x + 3)*((y/2) + 17))" := by
  refine ⟨⟨exprText_Add fmt a b, exprText_Sub fmt a b, exprText_Mul fmt a b,
    exprText_Div fmt a b, exprText_Mod fmt a b⟩, ?_⟩
  rw [writeExpr_eq]
  simp only [IRPrinter.test.product, IRPrinter.test.x, IRPrinter.test.y, exprText_IntImm,
    exprText_Var, exprText_Add, exprText_Mul, exprText_Div]
  decide

/-- C3 (For rendering). A loop over a store prints three lines: the header
with the loop kind's word at the starting indent, the store line two columns
further in, and the closing brace at the starting indent; the four kinds print
as "for", "parallel", "unrolled", "vectorized"; the first line of the loop of
`IRPrinter::test` is `parallel (x, -2, (y + 2)) {`. -/
theorem for_rendering (fmt : Float → String) (k : ForType) (name : String) (min extent : Expr)
    (buffer : String) (value index : Expr) (n : Int) :
    stmtText fmt n (.For name min extent k (.Store buffer value index)) =
        (spaces n ++ forTypeText k ++ " (" ++ name ++ ", " ++ exprText fmt min ++ ", "
          ++ exprText fmt extent ++ ") \x7b") ++ "\n"
        ++ (spaces (n + 2) ++ (buffer ++ "[" ++ exprText fmt index ++ "] = "
          ++ exprText fmt value)) ++ "\n"
        ++ (spaces n ++ "\x7d") ++ "\n" ∧
    (forTypeText .Serial = "for" ∧ forTypeText .Parallel = "parallel" ∧
      forTypeText .Unrolled = "unrolled" ∧ forTypeText .Vectorized = "vectorized") ∧
    writeStmt fmt "" IRPrinter.test.for_loop =
      "parallel (x, -2, (y + 2)) \x7b" ++ "\n" ++ "  buf[(y - 1)] = ((x*17)/(x - 3))" ++ "\n"
        ++ "\x7d" ++ "\n" := by
  refine ⟨?_, ⟨rfl, rfl, rfl, rfl⟩, ?_⟩
  · rw [stmtText_For, stmtText_Store]
    simp [String.append_assoc]
  · rw [writeStmt_eq]
    simp only [IRPrinter.test.for_loop, IRPrinter.test.store, IRPrinter.test.x,
      IRPrinter.test.y, stmtText_For, stmtText_Store, exprText_IntImm, exprText_Var,
      exprText_Add, exprText_Sub, exprText_Mul, exprText_Div]
    decide

/-- C5 (Allocate rendering). An Allocate prints its `allocate` line at the
starting indent, then its body at the same indent, then its `free` line at
the starting indent, last; the statement of `IRPrinter::test` prints with
first line `allocate buf[f32 * 1023]` and last line `free buf`. -/
theorem allocate_rendering (fmt : Float → String) (buffer : String) (type : IRType)
    (size : Expr) (body : Stmt) (n : Int) :
    stmtText fmt n (.Allocate buffer type size body) =
        (spaces n ++ "allocate " ++ buffer ++ "[" ++ typeText type ++ " * "
          ++ exprText fmt size ++ "]") ++ "\n"
        ++ stmtText fmt n body
        ++ (spaces n ++ "free " ++ buffer) ++ "\n" ∧
    writeStmt fmt "" IRPrinter.test.allocate =
      "allocate buf[f32 * 1023]" ++ "\n"
        ++ ("let y = 17\n"
          ++ "assert((y > 3), \"y is greater than 3\")\n"
          ++ "produce buf \x7b\n"
          ++ "  parallel (x, -2, (y + 2)) \x7b\n"
          ++ "    buf[(y - 1)] = ((x*17)/(x - 3))\n"
          ++ "  \x7d\n"
          ++ "\x7d consume \x7b\n"
          ++ "  vectorized (x, 0, y) \x7b\n"
          ++ "    out[x] = (buf((x % 3)) + 1)\n"
          ++ "  \x7d\n"
          ++ "\x7d\n")
        ++ "free buf" ++ "\n" := by
  refine ⟨?_, test_allocate_text fmt⟩
  rw [stmtText_Allocate]
  simp [String.append_assoc]

set_option maxRecDepth 100000 in
/-- C6 (Pipeline rendering). A Pipeline prints `produce <buffer> {` at the
starting indent, the produce statement two columns in, then exactly when an
update is present `} update {` and the update two columns in, then always
`} consume {`, the consume statement two columns in, and a final `}`; the
pipeline of `IRPrinter::test`, whose update is undefined, prints no update
line. -/
theorem pipeline_rendering (fmt : Float → String) (buffer : String) (produce consume : Stmt)
    (update : Option Stmt) (n : Int) :
    stmtText fmt n (.Pipeline buffer produce update consume) =
      (spaces n ++ "produce " ++ buffer ++ " \x7b") ++ "\n"
        ++ stmtText fmt (n + 2) produce
        ++ (match update with
            | some u => (spaces n ++ "\x7d update \x7b") ++ "\n" ++ stmtText fmt (n + 2) u
            | none => "")
        ++ (spaces n ++ "\x7d consume \x7b") ++ "\n"
        ++ stmtText fmt (n + 2) consume
        ++ (spaces n ++ "\x7d") ++ "\n" ∧
    writeStmt fmt "" IRPrinter.test.pipeline =
      "produce buf \x7b\n"
        ++ "  parallel (x, -2, (y + 2)) \x7b\n"
        ++ "    buf[(y - 1)] = ((x*17)/(x - 3))\n"
        ++ "  \x7d\n"
        ++ "\x7d consume \x7b\n"
        ++ "  vectorized (x, 0, y) \x7b\n"
        ++ "    out[x] = (buf((x % 3)) + 1)\n"
        ++ "  \x7d\n"
        ++ "\x7d\n" := by
  refine ⟨?_, ?_⟩
  · cases update with
    | none => rw [stmtText_Pipeline_none]; simp [String.append_assoc]
    | some u => rw [stmtText_Pipeline_some]; simp [String.append_assoc]
  · rw [writeStmt_eq]
    simp only [IRPrinter.test.pipeline, IRPrinter.test.for_loop, IRPrinter.test.for_loop2,
      IRPrinter.test.store, IRPrinter.test.store2, IRPrinter.test.call, IRPrinter.test.x,
      IRPrinter.test.y, stmtText_Pipeline_none, stmtText_For, stmtText_Store,
      exprText_IntImm, exprText_Var, exprText_Add, exprText_Sub, exprText_Mul, exprText_Div,
      exprText_Mod, exprText_Call, argsText_cons, argsText_nil]
    decide

/-- C7 (type text). A type prints as its kind letter, the decimal of its bits
and, exactly when its width exceeds one, an `x` and the decimal of the width. -/
theorem type_text (k : TypeCode) (b w : Int) :
    typeText ⟨k, b, w⟩ =
        (match k with
          | TypeCode.Int => "i"
          | TypeCode.UInt => "u"
          | TypeCode.Float => "f")
        ++ intText b ++ (if w > 1 then "x" ++ intText w else "") ∧
    typeText ⟨TypeCode.Float, 32, 1⟩ = "f32" ∧ typeText ⟨TypeCode.Int, 32, 4⟩ = "i32x4" := by
  refine ⟨?_, rfl, rfl⟩
  unfold typeText writeType
  cases k <;> simp <;> split <;> simp [String.append_assoc]

/-- C4 (what the code does). A LetStmt calls `do_indent` a second time before
printing its body, and the body indents itself again: the output is the `let`
line, then the starting indent once more, then the body's own text. Inside a
loop body (indent 2) the statement under the `let` starts with four spaces,
not with the two spaces it has when printed on its own at that indent. -/
theorem letstmt_double_indent (fmt : Float → String) (name : String) (value : Expr)
    (body : Stmt) (n : Int) :
    stmtText fmt n (.LetStmt name value body) =
        (spaces n ++ "let " ++ name ++ " = " ++ exprText fmt value) ++ "\n"
        ++ (spaces n ++ stmtText fmt n body) ∧
    writeStmt fmt "" nested_let =
      "for (x, 0, 4) \x7b\n" ++ "  let y = 17\n" ++ "    buf[x] = y\n" ++ "\x7d\n" ∧
    writeStmt fmt "" nested_let ≠
      "for (x, 0, 4) \x7b\n" ++ "  let y = 17\n" ++ "  buf[x] = y\n" ++ "\x7d\n" := by
  have ht : writeStmt fmt "" nested_let =
      "for (x, 0, 4) \x7b\n" ++ "  let y = 17\n" ++ "    buf[x] = y\n" ++ "\x7d\n" := by
    rw [writeStmt_eq]
    simp only [nested_let, stmtText_For, stmtText_LetStmt, stmtText_Store, exprText_IntImm,
      exprText_Var]
    decide
  refine ⟨?_, ht, ?_⟩
  · rw [stmtText_LetStmt]
    simp [String.append_assoc]
  · rw [ht]
    decide

/-! ## Bracket structure -/

theorem scan_append (o c : Char) (a b : List Char) :
    ∀ d, scan o c d (a ++ b) = (scan o c d a).bind (fun d' => scan o c d' b) := by
  induction a with
  | nil => intro d; simp [scan]
  | cons x xs ih =>
    intro d
    simp only [List.cons_append, scan]
    split
    · exact ih _
    · split
      · cases d with
        | zero => simp
        | succ d' => exact ih _
      · exact ih _

theorem scan_free (o c : Char) (l : List Char) (ho : o ∉ l) (hc : c ∉ l) :
    ∀ d, scan o c d l = some d := by
  induction l with
  | nil => intro d; simp [scan]
  | cons x xs ih =>
    intro d
    simp only [List.mem_cons, not_or] at ho hc
    have h1 : ¬ x = o := fun h => ho.1 h.symm
    have h2 : ¬ x = c := fun h => hc.1 h.symm
    simp only [scan, h1, h2, if_false]
    exact ih ho.2 hc.2 d

theorem scan_shift (o c : Char) (l : List Char) :
    ∀ (d d' m : Nat), scan o c d l = some d' → scan o c (d + m) l = some (d' + m) := by
  induction l with
  | nil => intro d d' m h; simp [scan] at h ⊢; omega
  | cons x xs ih =>
    intro d d' m h
    simp only [scan] at h ⊢
    split
    · rename_i hx
      rw [if_pos hx] at h
      have := ih _ _ m h
      rwa [show d + m + 1 = d + 1 + m by omega]
    · rename_i hx
      rw [if_neg hx] at h
      split
      · rename_i hx2
        rw [if_pos hx2] at h
        cases d with
        | zero => simp at h
        | succ e =>
          simp only at h
          have := ih _ _ m h
          rw [show e + 1 + m = (e + m) + 1 by omega]
          exact this
      · rename_i hx2
        rw [if_neg hx2] at h
        exact ih _ _ m h

theorem scan_sound (o c : Char) (hoc : o ≠ c) (l : List Char) :
    ∀ (d d' : Nat), scan o c d l = some d' →
      d + l.count o = d' + l.count c ∧
        ∀ k : Nat, (l.take k).count c ≤ d + (l.take k).count o := by
  induction l with
  | nil => intro d d' h; simp [scan] at h ⊢; omega
  | cons x xs ih =>
    intro d d' h
    simp only [scan] at h
    by_cases hx : x = o
    · rw [if_pos hx] at h
      have hxc : ¬ x = c := fun h' => hoc (hx.symm.trans h')
      obtain ⟨h1, h2⟩ := ih _ _ h
      subst hx
      refine ⟨by simp [List.count_cons, hxc] at h1 ⊢; omega, ?_⟩
      intro k
      cases k with
      | zero => simp
      | succ j =>
        have := h2 j
        simp [List.take_succ_cons, List.count_cons, hxc] at this ⊢
        omega
    · rw [if_neg hx] at h
      by_cases hx2 : x = c
      · rw [if_pos hx2] at h
        cases d with
        | zero => simp at h
        | succ e =>
          simp only at h
          obtain ⟨h1, h2⟩ := ih _ _ h
          subst hx2
          refine ⟨by simp [List.count_cons, hx] at h1 ⊢; omega, ?_⟩
          intro k
          cases k with
          | zero => simp
          | succ j =>
            have := h2 j
            simp [List.take_succ_cons, List.count_cons, hx] at this ⊢
            omega
      · rw [if_neg hx2] at h
        obtain ⟨h1, h2⟩ := ih _ _ h
        refine ⟨by simp [List.count_cons, hx, hx2] at h1 ⊢; omega, ?_⟩
        intro k
        cases k with
        | zero => simp
        | succ j =>
          have := h2 j
          simp [List.take_succ_cons, List.count_cons, hx, hx2] at this ⊢
          omega

theorem nested_of_scan (o c : Char) (hoc : o ≠ c) (l : List Char)
    (h : scan o c 0 l = some 0) : Nested o c l := by
  obtain ⟨h1, h2⟩ := scan_sound o c hoc l 0 0 h
  exact ⟨by omega, fun k => by have := h2 k; omega⟩

/-! ## Characters of the scalar texts -/

theorem digitChar_isDigit (d : Nat) (h : d < 10) : (Nat.digitChar d).isDigit = true := by
  interval_cases d <;> decide

theorem toDigitsCore_isDigit (fuel : Nat) :
    ∀ (n : Nat) (acc : List Char), (∀ c ∈ acc, c.isDigit = true) →
      ∀ c ∈ Nat.toDigitsCore 10 fuel n acc, c.isDigit = true := by
  induction fuel with
  | zero => intro n acc h; simpa [Nat.toDigitsCore] using h
  | succ f ih =>
    intro n acc h
    simp only [Nat.toDigitsCore]
    have hd : (Nat.digitChar (n % 10)).isDigit = true :=
      digitChar_isDigit _ (Nat.mod_lt _ (by decide))
    have hacc : ∀ c ∈ Nat.digitChar (n % 10) :: acc, c.isDigit = true := by
      intro c hc
      rcases List.mem_cons.1 hc with h1 | h1
      · rw [h1]; exact hd
      · exact h c h1
    split
    · exact hacc
    · exact ih _ _ hacc

theorem toDigits_isDigit (n : Nat) : ∀ c ∈ Nat.toDigits 10 n, c.isDigit = true :=
  toDigitsCore_isDigit _ _ _ (by simp)

/-- The text of an `int` consists of decimal digits and possibly a minus sign. -/
theorem intText_chars (i : Int) : ∀ c ∈ (intText i).data, c = '-' ∨ c.isDigit = true := by
  intro c hc
  cases i with
  | ofNat m => exact Or.inr (toDigits_isDigit m c (by simpa [intText] using hc))
  | negSucc m =>
    simp only [intText, String.data_append, List.mem_append] at hc
    rcases hc with h | h
    · left; simpa using h
    · exact Or.inr (toDigits_isDigit _ c h)

theorem mem_spaces (n : Int) (c : Char) (h : c ∈ (spaces n).data) : c = ' ' := by
  simp only [spaces] at h
  exact List.eq_of_mem_replicate h

theorem structural_not_mem_intText (c : Char) (hc : structural c) (i : Int) :
    c ∉ (intText i).data := by
  intro h
  rcases intText_chars i c h with h1 | h1 <;> rcases hc with rfl | rfl | rfl <;>
    first | exact absurd h1 (by decide)

theorem structural_not_mem_spaces (c : Char) (hc : structural c) (n : Int) :
    c ∉ (spaces n).data := by
  intro h
  have := mem_spaces n c h
  rcases hc with rfl | rfl | rfl <;> exact absurd this (by decide)

theorem structural_not_mem_typeText (c : Char) (hc : structural c) (type : IRType) :
    c ∉ (typeText type).data := by
  have hb := structural_not_mem_intText c hc type.bits
  have hw := structural_not_mem_intText c hc type.width
  unfold typeText writeType
  rcases hc with rfl | rfl | rfl <;> cases type.t <;> simp <;> split <;> simp [hb, hw]

theorem structural_not_mem_forTypeText (c : Char) (hc : structural c) (type : ForType) :
    c ∉ (forTypeText type).data := by
  rcases hc with rfl | rfl | rfl <;> cases type <;> simp [forTypeText, writeForType]

/-! ## Expressions contain no structural character of their own -/

set_option maxHeartbeats 2000000 in
/-- A structural character occurs in the text of an expression only if the
float formatter or one of the expression's names supplies it. -/
theorem structural_not_mem_exprText (fmt : Float → String) (c : Char) (hc : structural c)
    (hfmt : ∀ v, c ∉ (fmt v).data) (e : Expr) :
    (∀ x ∈ e.names, c ∉ x.data) → c ∉ (exprText fmt e).data := by
  apply @Expr.rec
    (fun e => (∀ x ∈ e.names, c ∉ x.data) → c ∉ (exprText fmt e).data)
    (fun args => ∀ size i, (∀ x ∈ Expr.namesOfList args, c ∉ x.data) →
      c ∉ (argsText fmt size i args).data)
  all_goals intros
  all_goals rename_i hn
  all_goals try simp only [Expr.names, Expr.namesOfList, List.mem_append, List.mem_cons,
    List.mem_singleton, List.not_mem_nil, or_imp, forall_and, forall_eq, false_imp_iff,
    implies_true, and_true, true_and] at hn
  all_goals rcases hc with rfl | rfl | rfl
  all_goals simp only [exprText_IntImm, exprText_FloatImm, exprText_Var, exprText_Cast,
    exprText_Add, exprText_Sub, exprText_Mul, exprText_Div, exprText_Mod, exprText_Min,
    exprText_Max, exprText_EQ, exprText_NE, exprText_LT, exprText_LE, exprText_GT,
    exprText_GE, exprText_And, exprText_Or, exprText_Not, exprText_Select, exprText_Load,
    exprText_Ramp, exprText_Broadcast, exprText_Call, exprText_Let, argsText_nil,
    argsText_cons, String.data_append, List.mem_append, not_or]
  all_goals try split
  all_goals simp_all [structural_not_mem_intText _ (Or.inl rfl),
    structural_not_mem_intText _ (Or.inr (Or.inl rfl)),
    structural_not_mem_intText _ (Or.inr (Or.inr rfl)),
    structural_not_mem_typeText _ (Or.inl rfl),
    structural_not_mem_typeText _ (Or.inr (Or.inl rfl)),
    structural_not_mem_typeText _ (Or.inr (Or.inr rfl))]

theorem structural_not_mem_argsText (fmt : Float → String) (c : Char) (hc : structural c)
    (hfmt : ∀ v, c ∉ (fmt v).data) (args : List Expr) :
    ∀ size i, (∀ x ∈ Expr.namesOfList args, c ∉ x.data) →
      c ∉ (argsText fmt size i args).data := by
  induction args with
  | nil => intro size i _; rw [argsText_nil]; simp
  | cons a rest ih =>
    intro size i hn
    simp only [Expr.namesOfList, List.mem_append, or_imp, forall_and] at hn
    have ha := structural_not_mem_exprText fmt c hc hfmt a hn.1
    have hr := ih size (i + 1) hn.2
    rw [argsText_cons]
    rcases hc with rfl | rfl | rfl <;> split <;> simp [ha, hr]

theorem structural_not_mem_printArgsText (fmt : Float → String) (c : Char)
    (hc : structural c) (hfmt : ∀ v, c ∉ (fmt v).data) (args : List Expr) :
    (∀ x ∈ Expr.namesOfList args, c ∉ x.data) → c ∉ (printArgsText fmt args).data := by
  induction args with
  | nil => intro _; rw [printArgsText_nil]; simp
  | cons a rest ih =>
    intro hn
    simp only [Expr.namesOfList, List.mem_append, or_imp, forall_and] at hn
    have ha := structural_not_mem_exprText fmt c hc hfmt a hn.1
    have hr := ih hn.2
    rw [printArgsText_cons]
    rcases hc with rfl | rfl | rfl <;> simp [ha, hr]

theorem structural_not_mem_boundsText (fmt : Float → String) (c : Char) (hc : structural c)
    (hfmt : ∀ v, c ∉ (fmt v).data) (bounds : List (Expr × Expr)) :
    ∀ size i, (∀ x ∈ namesOfBounds bounds, c ∉ x.data) →
      c ∉ (boundsText fmt size i bounds).data := by
  induction bounds with
  | nil => intro size i _; rw [boundsText_nil]; simp
  | cons b rest ih =>
    intro size i hn
    simp only [namesOfBounds, List.mem_append, or_imp, forall_and] at hn
    have h1 := structural_not_mem_exprText fmt c hc hfmt b.1 hn.1.1
    have h2 := structural_not_mem_exprText fmt c hc hfmt b.2 hn.1.2
    have hr := ih size (i + 1) hn.2
    rw [boundsText_cons]
    rcases hc with rfl | rfl | rfl <;> split <;> simp [h1, h2, hr]

/-! ## Brace balance of statements -/

theorem scan_one_of_zero (o c : Char) (l : List Char) (h : scan o c 0 l = some 0) :
    scan o c 1 l = some 1 :=
  scan_shift o c l 0 0 1 h

set_option maxHeartbeats 4000000 in
/-- Read from depth 0, the text of a statement whose strings carry no brace
never closes a brace that is not open and ends at depth 0. -/
theorem stmtText_scan (fmt : Float → String)
    (hfo : ∀ v, '{' ∉ (fmt v).data) (hfc : ∀ v, '}' ∉ (fmt v).data) (s : Stmt) :
    (∀ x ∈ s.names, '{' ∉ x.data) → (∀ x ∈ s.names, '}' ∉ x.data) →
      ∀ n : Int, scan '{' '}' 0 (stmtText fmt n s).data = some 0 := by
  have so : structural '{' := Or.inl rfl
  have sc : structural '}' := Or.inr (Or.inl rfl)
  have eo := structural_not_mem_exprText fmt _ so hfo
  have ec := structural_not_mem_exprText fmt _ sc hfc
  have ao := structural_not_mem_argsText fmt _ so hfo
  have ac := structural_not_mem_argsText fmt _ sc hfc
  have po := structural_not_mem_printArgsText fmt _ so hfo
  have pc := structural_not_mem_printArgsText fmt _ sc hfc
  have bo := structural_not_mem_boundsText fmt _ so hfo
  have bc := structural_not_mem_boundsText fmt _ sc hfc
  have spo := structural_not_mem_spaces _ so
  have spc := structural_not_mem_spaces _ sc
  have tyo := structural_not_mem_typeText _ so
  have tyc := structural_not_mem_typeText _ sc
  have fto := structural_not_mem_forTypeText _ so
  have ftc := structural_not_mem_forTypeText _ sc
  induction s using Stmt.induct with
  | hLet name value body ih =>
    intro ho hc n
    simp only [Stmt.names, List.mem_append, List.mem_cons, or_imp, forall_and, forall_eq]
      at ho hc
    have ih0 := ih ho.2.2 hc.2.2
    simp only [stmtText_LetStmt, String.data_append, scan_append]
    simp [scan_free, spo, spc, ho.1, hc.1, eo _ ho.2.1, ec _ hc.2.1, ih0]
  | hPrint pfx args =>
    intro ho hc n
    simp only [Stmt.names, List.mem_append, List.mem_cons, or_imp, forall_and, forall_eq]
      at ho hc
    simp only [stmtText_PrintStmt, String.data_append, scan_append]
    simp [scan_free, spo, spc, ho.1, hc.1, po _ ho.2, pc _ hc.2]
  | hAssert condition message =>
    intro ho hc n
    simp only [Stmt.names, List.mem_append, List.mem_cons, or_imp, forall_and, forall_eq]
      at ho hc
    simp only [stmtText_AssertStmt, String.data_append, scan_append]
    simp [scan_free, spo, spc, ho.1, hc.1, eo _ ho.2, ec _ hc.2]
  | hPipe buffer produce consume ihp ihc =>
    intro ho hc n
    simp only [Stmt.names, List.mem_append, List.mem_cons, List.not_mem_nil, or_imp,
      forall_and, forall_eq, false_imp_iff, implies_true, and_true] at ho hc
    have ihp1 := fun n => scan_one_of_zero _ _ _ (ihp ho.2.1 hc.2.1 n)
    have ihc1 := fun n => scan_one_of_zero _ _ _ (ihc ho.2.2 hc.2.2 n)
    simp only [stmtText_Pipeline_none, String.data_append, scan_append]
    simp [scan_free, scan, spo, spc, ho.1, hc.1, ihp1, ihc1]
  | hPipeU buffer produce update consume ihp ihu ihc =>
    intro ho hc n
    simp only [Stmt.names, List.mem_append, List.mem_cons, or_imp, forall_and, forall_eq]
      at ho hc
    have ihp1 := fun n => scan_one_of_zero _ _ _ (ihp ho.2.1.1 hc.2.1.1 n)
    have ihu1 := fun n => scan_one_of_zero _ _ _ (ihu ho.2.1.2 hc.2.1.2 n)
    have ihc1 := fun n => scan_one_of_zero _ _ _ (ihc ho.2.2 hc.2.2 n)
    simp only [stmtText_Pipeline_some, String.data_append, scan_append]
    simp [scan_free, scan, spo, spc, ho.1, hc.1, ihp1, ihu1, ihc1]
  | hFor name min extent for_type body ih =>
    intro ho hc n
    simp only [Stmt.names, List.mem_append, List.mem_cons, or_imp, forall_and, forall_eq]
      at ho hc
    have ih1 := fun n => scan_one_of_zero _ _ _ (ih ho.2.2 hc.2.2 n)
    simp only [stmtText_For, String.data_append, scan_append]
    simp [scan_free, scan, spo, spc, fto, ftc, ho.1, hc.1, eo _ ho.2.1.1, ec _ hc.2.1.1,
      eo _ ho.2.1.2, ec _ hc.2.1.2, ih1]
  | hStore buffer value index =>
    intro ho hc n
    simp only [Stmt.names, List.mem_append, List.mem_cons, or_imp, forall_and, forall_eq]
      at ho hc
    simp only [stmtText_Store, String.data_append, scan_append]
    simp [scan_free, spo, spc, ho.1, hc.1, eo _ ho.2.1, ec _ hc.2.1, eo _ ho.2.2,
      ec _ hc.2.2]
  | hProvide buffer args value =>
    intro ho hc n
    simp only [Stmt.names, List.mem_append, List.mem_cons, or_imp, forall_and, forall_eq]
      at ho hc
    simp only [stmtText_Provide, String.data_append, scan_append]
    simp [scan_free, spo, spc, ho.1, hc.1, ao _ _ _ ho.2.1, ac _ _ _ hc.2.1, eo _ ho.2.2,
      ec _ hc.2.2]
  | hAlloc buffer type size body ih =>
    intro ho hc n
    simp only [Stmt.names, List.mem_append, List.mem_cons, or_imp, forall_and, forall_eq]
      at ho hc
    have ih0 := ih ho.2.2 hc.2.2
    simp only [stmtText_Allocate, String.data_append, scan_append]
    simp [scan_free, spo, spc, tyo, tyc, ho.1, hc.1, eo _ ho.2.1, ec _ hc.2.1, ih0]
  | hRealize buffer bounds body ih =>
    intro ho hc n
    simp only [Stmt.names, List.mem_append, List.mem_cons, or_imp, forall_and, forall_eq]
      at ho hc
    have ih1 := fun n => scan_one_of_zero _ _ _ (ih ho.2.2 hc.2.2 n)
    simp only [stmtText_Realize, String.data_append, scan_append]
    simp [scan_free, scan, spo, spc, ho.1, hc.1, bo _ _ _ ho.2.1, bc _ _ _ hc.2.1, ih1]
  | hBlock first ih =>
    intro ho hc n
    simp only [Stmt.names, List.mem_append, List.not_mem_nil, or_imp, forall_and,
      false_imp_iff, implies_true, and_true] at ho hc
    rw [stmtText_Block_none]
    exact ih ho hc n
  | hBlockR first rest ihf ihr =>
    intro ho hc n
    simp only [Stmt.names, List.mem_append, or_imp, forall_and] at ho hc
    simp only [stmtText_Block_some, String.data_append, scan_append]
    simp [ihf ho.1 hc.1, ihr ho.2 hc.2]

set_option maxRecDepth 100000 in
/-- C8 (brace balance). When neither the float formatter nor any name, prefix
or message of a statement supplies a brace, the printed text has as many
closing as opening braces and no prefix of it has more closing than opening
ones; the statement of `IRPrinter::test` prints four of each. -/
theorem brace_balance (fmt : Float → String)
    (hfmt : ∀ v, '{' ∉ (fmt v).data ∧ '}' ∉ (fmt v).data) (s : Stmt)
    (hs : ∀ x ∈ s.names, '{' ∉ x.data ∧ '}' ∉ x.data) (n : Int) :
    Nested '{' '}' (stmtText fmt n s).data ∧
      ((writeStmt fmt "" IRPrinter.test.allocate).data.count '{' = 4 ∧
        (writeStmt fmt "" IRPrinter.test.allocate).data.count '}' = 4) := by
  refine ⟨nested_of_scan _ _ (by decide) _ ?_, ?_⟩
  · exact stmtText_scan fmt (fun v => (hfmt v).1) (fun v => (hfmt v).2) s
      (fun x hx => (hs x hx).1) (fun x hx => (hs x hx).2) n
  · rw [test_allocate_text]
    decide

/-- C8 at the statement printed by `IRPrinter::test`, whose strings carry no
brace, with a formatter that writes `0`. -/
theorem brace_balance_witness :
    (∀ x ∈ IRPrinter.test.allocate.names, '{' ∉ x.data ∧ '}' ∉ x.data) ∧
      Nested '{' '}' (stmtText (fun _ => "0") 0 IRPrinter.test.allocate).data ∧
      ((writeStmt (fun _ => "0") "" IRPrinter.test.allocate).data.count '{' = 4 ∧
        (writeStmt (fun _ => "0") "" IRPrinter.test.allocate).data.count '}' = 4) :=
  ⟨by decide, brace_balance (fun _ => "0")
    (fun _ => (by decide : '{' ∉ "0".data ∧ '}' ∉ "0".data)) IRPrinter.test.allocate
    (by decide) 0⟩

/-! ## Parentheses of arithmetic expressions -/

theorem paren_not_mem_intText (i : Int) : '(' ∉ (intText i).data ∧ ')' ∉ (intText i).data := by
  constructor <;> intro h <;> rcases intText_chars i _ h with h1 | h1 <;>
    exact absurd h1 (by decide)

theorem arith_paren (fmt : Float → String) (e : Expr) (h : IsArith e) :
    (∀ x ∈ e.names, '(' ∉ x.data) → (∀ x ∈ e.names, ')' ∉ x.data) →
      (exprText fmt e).data.count '(' = e.arithOps ∧
        (exprText fmt e).data.count ')' = e.arithOps ∧
        scan '(' ')' 0 (exprText fmt e).data = some 0 := by
  induction h with
  | int value =>
    intro _ _
    have hi := paren_not_mem_intText value
    rw [exprText_IntImm]
    exact ⟨List.count_eq_zero.2 hi.1, List.count_eq_zero.2 hi.2, scan_free _ _ _ hi.1 hi.2 0⟩
  | var type name =>
    intro ho hc
    simp only [Expr.names, List.mem_singleton, forall_eq] at ho hc
    rw [exprText_Var]
    exact ⟨List.count_eq_zero.2 ho, List.count_eq_zero.2 hc, scan_free _ _ _ ho hc 0⟩
  | add _ _ iha ihb | sub _ _ iha ihb | mul _ _ iha ihb | div _ _ iha ihb
  | mod _ _ iha ihb =>
    intro ho hc
    simp only [Expr.names, List.mem_append, or_imp, forall_and] at ho hc
    obtain ⟨a1, a2, a3⟩ := iha ho.1 hc.1
    obtain ⟨b1, b2, b3⟩ := ihb ho.2 hc.2
    have a4 := scan_one_of_zero _ _ _ a3
    have b4 := scan_one_of_zero _ _ _ b3
    simp only [exprText_Add, exprText_Sub, exprText_Mul, exprText_Div, exprText_Mod,
      String.data_append, scan_append, Expr.arithOps]
    refine ⟨?_, ?_, ?_⟩
    · simp [a1, b1]
    · simp [a2, b2]; omega
    · simp [scan, a4, b4]

/-- C9 (one parenthesis level per operator). An expression built from Add,
Sub, Mul, Div and Mod over Var and IntImm leaves, with no parenthesis in a
variable name, prints with exactly one `(` and one `)` per operator node,
properly nested; `(x + 3) * (y / 2 + 17)` has 4 operator nodes and prints with
4 of each. -/
theorem paren_per_operator (fmt : Float → String) (e : Expr) (h : IsArith e)
    (hn : ∀ x ∈ e.names, '(' ∉ x.data ∧ ')' ∉ x.data) :
    ((exprText fmt e).data.count '(' = e.arithOps ∧
      (exprText fmt e).data.count ')' = e.arithOps ∧
      Nested '(' ')' (exprText fmt e).data) ∧
    (IRPrinter.test.product.arithOps = 4 ∧
      (writeExpr fmt "" IRPrinter.test.product).data.count '(' = 4 ∧
      (writeExpr fmt "" IRPrinter.test.product).data.count ')' = 4) := by
  obtain ⟨h1, h2, h3⟩ := arith_paren fmt e h (fun x hx => (hn x hx).1) (fun x hx => (hn x hx).2)
  refine ⟨⟨h1, h2, nested_of_scan _ _ (by decide) _ h3⟩, by decide, ?_⟩
  have ht : writeExpr fmt "" IRPrinter.test.product = "((x + 3)*((y/2) + 17))" := by
    rw [writeExpr_eq]
    simp only [IRPrinter.test.product, IRPrinter.test.x, IRPrinter.test.y, exprText_IntImm,
      exprText_Var, exprText_Add, exprText_Mul, exprText_Div]
    decide
  rw [ht]
  decide

/-- C9 at the expression `(x + 3) * (y / 2 + 17)` of `IRPrinter::test`. -/
theorem paren_per_operator_witness :
    IsArith IRPrinter.test.product ∧
      (∀ x ∈ IRPrinter.test.product.names, '(' ∉ x.data ∧ ')' ∉ x.data) ∧
      (((exprText (fun _ => "0") IRPrinter.test.product).data.count '('
            = IRPrinter.test.product.arithOps ∧
          (exprText (fun _ => "0") IRPrinter.test.product).data.count ')'
            = IRPrinter.test.product.arithOps ∧
          Nested '(' ')' (exprText (fun _ => "0") IRPrinter.test.product).data) ∧
        (IRPrinter.test.product.arithOps = 4 ∧
          (writeExpr (fun _ => "0") "" IRPrinter.test.product).data.count '(' = 4 ∧
          (writeExpr (fun _ => "0") "" IRPrinter.test.product).data.count ')' = 4)) :=
  have hp : IsArith IRPrinter.test.product :=
    .mul (.add (.var _ _) (.int _)) (.add (.div (.var _ _) (.int _)) (.int _))
  ⟨hp, by decide, paren_per_operator (fun _ => "0") IRPrinter.test.product hp (by decide)⟩

/-! ## The decimal text of an `int` determines it -/

theorem digitChar_value (d : Nat) (h : d < 10) : (Nat.digitChar d).toNat - 48 = d := by
  interval_cases d <;> decide

theorem toDigitsCore_value (fuel : Nat) :
    ∀ (n : Nat) (ds : List Char), n < fuel →
      (Nat.toDigitsCore 10 fuel n ds).foldl (fun acc c => acc * 10 + (c.toNat - 48)) 0
        = ds.foldl (fun acc c => acc * 10 + (c.toNat - 48)) n := by
  induction fuel with
  | zero => intro n ds h; omega
  | succ f ih =>
    intro n ds h
    simp only [Nat.toDigitsCore]
    have hd := digitChar_value (n % 10) (Nat.mod_lt _ (by decide))
    split
    · rename_i h0
      have hn : n % 10 = n := by omega
      rw [hn] at hd
      simp only [List.foldl_cons, hn, hd, Nat.zero_mul, Nat.zero_add]
    · rename_i h0
      rw [ih (n / 10) _ (by omega)]
      simp only [List.foldl_cons, hd]
      congr 1
      omega

theorem toDigits_value (n : Nat) : digitsValue (Nat.toDigits 10 n) = n := by
  unfold digitsValue Nat.toDigits
  rw [toDigitsCore_value _ _ _ (Nat.lt_succ_self n)]
  rfl

theorem toDigits_injective (m n : Nat) (h : Nat.toDigits 10 m = Nat.toDigits 10 n) : m = n := by
  have := congrArg digitsValue h
  rwa [toDigits_value, toDigits_value] at this

theorem toDigitsCore_ne_nil (fuel : Nat) :
    ∀ (n : Nat) (ds : List Char), ds ≠ [] → Nat.toDigitsCore 10 fuel n ds ≠ [] := by
  induction fuel with
  | zero => intro n ds h; simpa [Nat.toDigitsCore] using h
  | succ f ih =>
    intro n ds _
    simp only [Nat.toDigitsCore]
    split
    · simp
    · exact ih _ _ (by simp)

theorem toDigits_ne_nil (n : Nat) : Nat.toDigits 10 n ≠ [] := by
  unfold Nat.toDigits
  simp only [Nat.toDigitsCore]
  split
  · simp
  · exact toDigitsCore_ne_nil _ _ _ (by simp)

/-- The text of an `int` starts with a digit or a minus sign. -/
theorem intText_head (i : Int) :
    ∃ c cs, (intText i).data = c :: cs ∧ (c = '-' ∨ c.isDigit = true) := by
  cases i with
  | ofNat m =>
    cases hl : Nat.toDigits 10 m with
    | nil => exact absurd hl (toDigits_ne_nil m)
    | cons c cs =>
      refine ⟨c, cs, by simp [intText, hl], Or.inr ?_⟩
      exact toDigits_isDigit m c (by simp [hl])
  | negSucc m => exact ⟨'-', Nat.toDigits 10 (m + 1), by simp [intText], Or.inl rfl⟩

theorem intText_injective (i j : Int) (h : (intText i).data = (intText j).data) : i = j := by
  cases i with
  | ofNat m =>
    cases j with
    | ofNat n =>
      simp only [intText] at h
      rw [toDigits_injective m n h]
    | negSucc n =>
      exfalso
      simp only [intText, String.data_append] at h
      cases hl : Nat.toDigits 10 m with
      | nil => exact absurd hl (toDigits_ne_nil m)
      | cons c cs =>
        have hc := toDigits_isDigit m c (by simp [hl])
        rw [hl] at h
        simp at h
        rw [h.1] at hc
        exact absurd hc (by decide)
  | negSucc m =>
    cases j with
    | ofNat n =>
      exfalso
      simp only [intText, String.data_append] at h
      cases hl : Nat.toDigits 10 n with
      | nil => exact absurd hl (toDigits_ne_nil n)
      | cons c cs =>
        have hc := toDigits_isDigit n c (by simp [hl])
        rw [hl] at h
        simp at h
        rw [← h.1] at hc
        exact absurd hc (by decide)
    | negSucc n =>
      simp only [intText, String.data_append] at h
      have h' : Nat.toDigits 10 (m + 1) = Nat.toDigits 10 (n + 1) := by simpa using h
      have := toDigits_injective _ _ h'
      have hmn : m = n := by omega
      rw [hmn]

/-! ## What the text of an expression shows -/

/-- C10 (as stated, refuted). The printer is not injective: a Var prints its
name only, so an `i32` variable and an `f32` variable called `x` have the same
text, and a Call prints no type; beyond types, `min(1, 2)` is the text both of
a Min node and of a call of a function named `min`, and `3` the text both of
an integer and of a variable named `3`. Further, two different expressions
print the same text whenever a name looks like another piece of an
expression: a function named like a type against a cast, a variable named
`-3` against an integer, `!x` against a negation, names containing ` + `,
`*` or `/` inside an operation, names containing brackets against a call or a
load, and a name containing `, ` inside an argument list; a float literal
whose text is `3` or `inf` prints like an integer or a variable; and casts to
types of width 0 and 1 print alike. -/
theorem printer_not_injective :
    (exprText (fun _ => "") (.Var (IRType.Int 32) "x")
        = exprText (fun _ => "") (.Var (IRType.Float 32) "x") ∧
      Expr.Var (IRType.Int 32) "x" ≠ Expr.Var (IRType.Float 32) "x") ∧
    (exprText (fun _ => "") (.Call (IRType.Int 32) "f" [] .Halide)
        = exprText (fun _ => "") (.Call (IRType.Float 32) "f" [] .Halide) ∧
      Expr.Call (IRType.Int 32) "f" [] .Halide ≠ Expr.Call (IRType.Float 32) "f" [] .Halide) ∧
    (exprText (fun _ => "") (.Min (.IntImm 1) (.IntImm 2))
        = exprText (fun _ => "") (.Call (IRType.Int 32) "min" [.IntImm 1, .IntImm 2] .Halide) ∧
      Expr.Min (.IntImm 1) (.IntImm 2)
        ≠ Expr.Call (IRType.Int 32) "min" [.IntImm 1, .IntImm 2] .Halide) ∧
    (exprText (fun _ => "") (.Var (IRType.Int 32) "3") = exprText (fun _ => "") (.IntImm 3) ∧
      Expr.Var (IRType.Int 32) "3" ≠ Expr.IntImm 3) ∧
    (exprText (fun _ => "") (.Cast (IRType.Int 32) (.Var (IRType.Int 32) "x"))
        = exprText (fun _ => "") (.Call (IRType.Int 32) "i32" [.Var (IRType.Int 32) "x"] .Halide) ∧
      Expr.Cast (IRType.Int 32) (.Var (IRType.Int 32) "x")
        ≠ Expr.Call (IRType.Int 32) "i32" [.Var (IRType.Int 32) "x"] .Halide) ∧
    (exprText (fun _ => "") (.Var (IRType.Int 32) "-3") = exprText (fun _ => "") (.IntImm (-3)) ∧
      Expr.Var (IRType.Int 32) "-3" ≠ Expr.IntImm (-3)) ∧
    (exprText (fun _ => "") (.Var (IRType.Int 32) "!x")
        = exprText (fun _ => "") (.Not (.Var (IRType.Int 32) "x")) ∧
      Expr.Var (IRType.Int 32) "!x" ≠ Expr.Not (.Var (IRType.Int 32) "x")) ∧
    (exprText (fun _ => "") (.Add (.Var (IRType.Int 32) "a + b") (.Var (IRType.Int 32) "c"))
        = exprText (fun _ => "") (.Add (.Var (IRType.Int 32) "a") (.Var (IRType.Int 32) "b + c")) ∧
      Expr.Add (.Var (IRType.Int 32) "a + b") (.Var (IRType.Int 32) "c")
        ≠ Expr.Add (.Var (IRType.Int 32) "a") (.Var (IRType.Int 32) "b + c")) ∧
    (exprText (fun _ => "") (.Mul (.Var (IRType.Int 32) "a*b") (.Var (IRType.Int 32) "c"))
        = exprText (fun _ => "") (.Mul (.Var (IRType.Int 32) "a") (.Var (IRType.Int 32) "b*c")) ∧
      Expr.Mul (.Var (IRType.Int 32) "a*b") (.Var (IRType.Int 32) "c")
        ≠ Expr.Mul (.Var (IRType.Int 32) "a") (.Var (IRType.Int 32) "b*c")) ∧
    (exprText (fun _ => "") (.Div (.Var (IRType.Int 32) "a/b") (.Var (IRType.Int 32) "c"))
        = exprText (fun _ => "") (.Div (.Var (IRType.Int 32) "a") (.Var (IRType.Int 32) "b/c")) ∧
      Expr.Div (.Var (IRType.Int 32) "a/b") (.Var (IRType.Int 32) "c")
        ≠ Expr.Div (.Var (IRType.Int 32) "a") (.Var (IRType.Int 32) "b/c")) ∧
    (exprText (fun _ => "") (.Var (IRType.Int 32) "f(x)")
        = exprText (fun _ => "") (.Call (IRType.Int 32) "f" [.Var (IRType.Int 32) "x"] .Halide) ∧
      Expr.Var (IRType.Int 32) "f(x)"
        ≠ Expr.Call (IRType.Int 32) "f" [.Var (IRType.Int 32) "x"] .Halide) ∧
    (exprText (fun _ => "") (.Var (IRType.Int 32) "b[i]")
        = exprText (fun _ => "") (.Load "b" (.Var (IRType.Int 32) "i")) ∧
      Expr.Var (IRType.Int 32) "b[i]"
        ≠ Expr.Load "b" (.Var (IRType.Int 32) "i")) ∧
    (exprText (fun _ => "") (.Call (IRType.Int 32) "f" [.Var (IRType.Int 32) "a, b"] .Halide)
        = exprText (fun _ => "")
          (.Call (IRType.Int 32) "f" [.Var (IRType.Int 32) "a", .Var (IRType.Int 32) "b"]
            .Halide) ∧
      Expr.Call (IRType.Int 32) "f" [.Var (IRType.Int 32) "a, b"] .Halide
        ≠ Expr.Call (IRType.Int 32) "f" [.Var (IRType.Int 32) "a", .Var (IRType.Int 32) "b"]
          .Halide) ∧
    (exprText (fun _ => "3") (.FloatImm 3) = exprText (fun _ => "3") (.IntImm 3) ∧
      Expr.FloatImm 3 ≠ Expr.IntImm 3) ∧
    (exprText (fun _ => "inf") (.FloatImm (1 / 0))
        = exprText (fun _ => "inf") (.Var (IRType.Float 32) "inf") ∧
      Expr.FloatImm (1 / 0) ≠ Expr.Var (IRType.Float 32) "inf") ∧
    (exprText (fun _ => "") (.Cast ⟨TypeCode.Int, 32, 0⟩ (.IntImm 1))
        = exprText (fun _ => "") (.Cast ⟨TypeCode.Int, 32, 1⟩ (.IntImm 1)) ∧
      Expr.Cast ⟨TypeCode.Int, 32, 0⟩ (.IntImm 1) ≠ Expr.Cast ⟨TypeCode.Int, 32, 1⟩ (.IntImm 1)) := by
  refine ⟨⟨by rw [exprText_Var, exprText_Var], ?_⟩, ⟨by rw [exprText_Call, exprText_Call], ?_⟩,
    ⟨by decide, ?_⟩, ⟨by decide, ?_⟩,
    ⟨by decide, ?_⟩, ⟨by decide, ?_⟩, ⟨by decide, ?_⟩, ⟨by decide, ?_⟩, ⟨by decide, ?_⟩,
    ⟨by decide, ?_⟩, ⟨by decide, ?_⟩, ⟨by decide, ?_⟩, ⟨by decide, ?_⟩,
    ⟨by rw [exprText_FloatImm, exprText_IntImm]; decide, ?_⟩,
    ⟨by rw [exprText_FloatImm, exprText_Var], ?_⟩, ⟨by decide, ?_⟩⟩
  · intro h
    injection h with h1 _
    exact absurd h1 (by decide)
  · intro h
    injection h with h1 _
    exact absurd h1 (by decide)
  · intro h
    cases h
  · intro h
    cases h
  · intro h
    cases h
  · intro h
    cases h
  · intro h
    cases h
  · intro h
    injection h with h1 _
    injection h1 with _ h2
    exact absurd h2 (by decide)
  · intro h
    injection h with h1 _
    injection h1 with _ h2
    exact absurd h2 (by decide)
  · intro h
    injection h with h1 _
    injection h1 with _ h2
    exact absurd h2 (by decide)
  · intro h
    cases h
  · intro h
    cases h
  · intro h
    injection h with _ _ h1 _
    injection h1 with h2 _
    injection h2 with _ h3
    exact absurd h3 (by decide)
  · intro h
    cases h
  · intro h
    cases h
  · intro h
    injection h with h1 _
    exact absurd h1 (by decide)

/-! ## Printing is a function of the tree -/

/-- C11 (printing is a function of the tree). Printing an expression from any
printer state appends the text of the expression, whatever the indent counter
and whatever came before, and leaves the counter (and its history) alone; a
node with the same operand twice prints that operand's text twice; and
streaming the same expression or statement a second time appends the same
text as the first time. -/
theorem printing_is_pure (fmt : Float → String) (e : Expr) (s : Stmt) (p : IRPrinter)
    (out : String) :
    ((printExpr fmt e p).stream = p.stream ++ writeExpr fmt "" e ∧
      (printExpr fmt e p).indent = p.indent ∧
      (printExpr fmt e p).history = p.history) ∧
    writeExpr fmt "" (.Add e e)
      = "(" ++ writeExpr fmt "" e ++ " + " ++ writeExpr fmt "" e ++ ")" ∧
    writeExpr fmt (writeExpr fmt out e) e
      = out ++ writeExpr fmt "" e ++ writeExpr fmt "" e ∧
    writeStmt fmt (writeStmt fmt out s) s
      = out ++ writeStmt fmt "" s ++ writeStmt fmt "" s := by
  refine ⟨?_, ?_, ?_, ?_⟩
  · rw [printExpr_all]
    exact ⟨rfl, rfl, rfl⟩
  · exact exprText_Add fmt e e
  · simp only [writeExpr_eq, String.append_assoc, String.empty_append]
  · simp only [writeStmt_eq, String.append_assoc, String.empty_append]

/-! ## Argument lists -/

theorem intercalate_go_append (sep : String) (l : List String) :
    ∀ x y : String, String.intercalate.go (x ++ y) sep l
      = x ++ String.intercalate.go y sep l := by
  induction l with
  | nil => intro x y; simp [String.intercalate.go]
  | cons c cs ih =>
    intro x y
    simp only [String.intercalate.go]
    rw [String.append_assoc x y sep, String.append_assoc x (y ++ sep) c, ih]

theorem intercalate_cons_cons (sep a b : String) (rest : List String) :
    sep.intercalate (a :: b :: rest) = a ++ sep ++ sep.intercalate (b :: rest) := by
  simp only [String.intercalate, String.intercalate.go]
  rw [intercalate_go_append]

theorem intercalate_singleton (sep a : String) : sep.intercalate [a] = a := by
  simp [String.intercalate, String.intercalate.go]

theorem size_minus_one_eq (size : Nat) (h1 : 1 ≤ size) (h2 : size < 2 ^ 64) :
    size_minus_one size = size - 1 := by
  unfold size_minus_one
  have h3 : 2 ^ 64 + size - 1 = (size - 1) + 2 ^ 64 := by omega
  rw [h3, Nat.add_mod_right, Nat.mod_eq_of_lt (by omega)]

/-- The argument loop writes the argument texts separated by ", ". -/
theorem argsText_intercalate (fmt : Float → String) (size : Nat) (hsize : size < 2 ^ 64)
    (args : List Expr) :
    ∀ i : Nat, i + args.length = size →
      argsText fmt size i args = ", ".intercalate (args.map (exprText fmt)) := by
  induction args with
  | nil => intro i _; rw [argsText_nil]; rfl
  | cons a rest ih =>
    intro i hi
    simp only [List.length_cons] at hi
    rw [argsText_cons, size_minus_one_eq size (by omega) hsize, ih (i + 1) (by omega)]
    cases rest with
    | nil =>
      simp only [List.length_nil] at hi
      have : ¬ i < size - 1 := by omega
      simp [this, String.intercalate, String.intercalate.go]
    | cons b rest2 =>
      simp only [List.length_cons] at hi
      have : i < size - 1 := by omega
      simp only [this, if_true, List.map_cons, intercalate_cons_cons]

theorem boundsText_intercalate (fmt : Float → String) (size : Nat) (hsize : size < 2 ^ 64)
    (bounds : List (Expr × Expr)) :
    ∀ i : Nat, i + bounds.length = size →
      boundsText fmt size i bounds = ", ".intercalate (bounds.map (boundText fmt)) := by
  induction bounds with
  | nil => intro i _; rw [boundsText_nil]; rfl
  | cons a rest ih =>
    intro i hi
    simp only [List.length_cons] at hi
    rw [boundsText_cons, size_minus_one_eq size (by omega) hsize, ih (i + 1) (by omega)]
    cases rest with
    | nil =>
      simp only [List.length_nil] at hi
      have : ¬ i < size - 1 := by omega
      simp [this, String.intercalate, String.intercalate.go, boundText]
    | cons b rest2 =>
      simp only [List.length_cons] at hi
      have : i < size - 1 := by omega
      simp only [this, if_true, List.map_cons, intercalate_cons_cons, boundText,
        String.append_assoc]

/-- C12 (argument-list grammar). For an argument list that a `vector` can hold
(fewer than `2^64` elements), a Call prints its name, `(`, the argument texts
joined by ", " (nothing for the empty list) and `)`; a Provide prints the same
list followed by `) = `, the value and a line break on its own indented line;
a Realize prints its bounds as `[min, extent]` items joined by ", " between
`realize buffer(` and `) {`; the call of `IRPrinter::test` prints
`buf((x % 3))`. -/
theorem argument_list_grammar (fmt : Float → String) (type : IRType) (name : String)
    (args : List Expr) (call_type : CallType) (value : Expr) (bounds : List (Expr × Expr))
    (body : Stmt) (n : Int) (hargs : args.length < 2 ^ 64) (hbounds : bounds.length < 2 ^ 64) :
    exprText fmt (.Call type name args call_type)
      = name ++ "(" ++ ", ".intercalate (args.map (exprText fmt)) ++ ")" ∧
    stmtText fmt n (.Provide name args value)
      = (spaces n ++ (name ++ "(" ++ ", ".intercalate (args.map (exprText fmt)) ++ ") = "
          ++ exprText fmt value)) ++ "\n" ∧
    stmtText fmt n (.Realize name bounds body)
      = (spaces n ++ ("realize " ++ name ++ "("
          ++ ", ".intercalate
              (bounds.map (fun b => "[" ++ exprText fmt b.1 ++ ", " ++ exprText fmt b.2 ++ "]"))
          ++ ") \x7b")) ++ "\n"
        ++ stmtText fmt (n + 2) body
        ++ (spaces n ++ "\x7d") ++ "\n" ∧
    ", ".intercalate ([] : List String) = "" ∧
    writeExpr fmt "" IRPrinter.test.call = "buf((x % 3))" := by
  refine ⟨?_, ?_, ?_, rfl, ?_⟩
  · rw [exprText_Call, argsText_intercalate fmt _ hargs args 0 (by simp)]
  · rw [stmtText_Provide, argsText_intercalate fmt _ hargs args 0 (by simp)]
    simp only [String.append_assoc]
  · have hb : boundText fmt
        = fun b => "[" ++ exprText fmt b.1 ++ ", " ++ exprText fmt b.2 ++ "]" := by
      funext b; rfl
    rw [stmtText_Realize, boundsText_intercalate fmt _ hbounds bounds 0 (by simp), hb]
    simp only [String.append_assoc]
  · rw [writeExpr_eq]
    simp only [IRPrinter.test.call, IRPrinter.test.x, exprText_Call, exprText_Mod,
      exprText_Var, exprText_IntImm, argsText_cons, argsText_nil]
    decide

/-- C12 at a call with two arguments and a Realize with two bounds. -/
theorem argument_list_grammar_witness :
    [Expr.IntImm 1, Expr.IntImm 2].length < 2 ^ 64 ∧
      [(Expr.IntImm 0, Expr.IntImm 8), (Expr.IntImm 0, Expr.IntImm 4)].length < 2 ^ 64 ∧
      exprText (fun _ => "0") (.Call (IRType.Int 32) "f" [.IntImm 1, .IntImm 2] .Halide)
        = "f" ++ "(" ++ ", ".intercalate
            ([Expr.IntImm 1, Expr.IntImm 2].map (exprText (fun _ => "0"))) ++ ")" :=
  ⟨by decide, by decide,
    (argument_list_grammar (fun _ => "0") (IRType.Int 32) "f" [.IntImm 1, .IntImm 2] .Halide
      (.IntImm 3) [(.IntImm 0, .IntImm 8), (.IntImm 0, .IntImm 4)]
      (.Store "b" (.IntImm 1) (.IntImm 0)) 0 (by decide) (by decide)).1⟩

/-! ## Whole indented lines -/

theorem layout_append (n : Nat) (a b : List (List Char)) :
    layout n (a ++ b) = layout n a ++ layout n b := by
  induction a with
  | nil => rfl
  | cons r rs ih => simp [layout, ih]

theorem indentedLines_append (n : Nat) (a b : List Char) (ha : IndentedLines n a)
    (hb : IndentedLines n b) : IndentedLines n (a ++ b) := by
  obtain ⟨ra, ha1, ha2, rfl⟩ := ha
  obtain ⟨rb, _, hb2, rfl⟩ := hb
  refine ⟨ra ++ rb, by simp [ha1], ?_, (layout_append n ra rb).symm⟩
  intro r hr
  rcases List.mem_append.1 hr with h | h
  · exact ha2 r h
  · exact hb2 r h

theorem layout_mono (k m : Nat) (rests : List (List Char)) :
    layout (k + m) rests = layout k (rests.map (fun r => List.replicate m ' ' ++ r)) := by
  induction rests with
  | nil => rfl
  | cons r rs ih =>
    simp only [layout, List.map_cons, ih, List.replicate_add, List.append_assoc]

theorem indentedLines_mono (k k2 : Nat) (h : k ≤ k2) (a : List Char)
    (ha : IndentedLines k2 a) : IndentedLines k a := by
  obtain ⟨ra, ha1, ha2, rfl⟩ := ha
  obtain ⟨m, rfl⟩ := Nat.exists_eq_add_of_le h
  refine ⟨ra.map (fun r => List.replicate m ' ' ++ r), by simpa using ha1, ?_,
    layout_mono k m ra⟩
  intro r hr
  obtain ⟨r0, hr0, rfl⟩ := List.mem_map.1 hr
  intro hmem
  rcases List.mem_append.1 hmem with h1 | h1
  · exact absurd (List.eq_of_mem_replicate h1) (by decide)
  · exact ha2 r0 hr0 h1

theorem indentedLines_line (n : Int) (content : String) (h : '\n' ∉ content.data) :
    IndentedLines n.toNat (spaces n ++ content ++ "\n").data :=
  ⟨[content.data], by simp, by simpa using h, by simp [layout, spaces]⟩

theorem indentedLines_indent (n : Int) (a : String) (ha : IndentedLines n.toNat a.data) :
    IndentedLines n.toNat (spaces n ++ a).data := by
  obtain ⟨ra, ha1, ha2, h⟩ := ha
  cases ra with
  | nil => exact absurd rfl ha1
  | cons r rs =>
    refine ⟨(List.replicate n.toNat ' ' ++ r) :: rs, by simp, ?_, ?_⟩
    · intro x hx
      rcases List.mem_cons.1 hx with rfl | hx
      · intro hmem
        rcases List.mem_append.1 hmem with h1 | h1
        · exact absurd (List.eq_of_mem_replicate h1) (by decide)
        · exact ha2 r (by simp) h1
      · exact ha2 x (by simp [hx])
    · simp [layout, spaces, h, List.append_assoc]

theorem indentedLines_nonempty (n : Nat) (l : List Char) (h : IndentedLines n l) :
    l ≠ [] ∧ l.getLast? = some '\n' := by
  obtain ⟨ra, ha1, _, rfl⟩ := h
  have key : ∀ rs : List (List Char), rs ≠ [] →
      layout n rs ≠ [] ∧ (layout n rs).getLast? = some '\n' := by
    intro rs
    induction rs with
    | nil => intro h; exact absurd rfl h
    | cons r more ih =>
      intro _
      refine ⟨by simp [layout], ?_⟩
      cases more with
      | nil => simp [layout, List.getLast?_append]
      | cons r2 more2 =>
        have := ih (by simp)
        have hsplit : layout n (r :: r2 :: more2)
            = (List.replicate n ' ' ++ r ++ ['\n']) ++ layout n (r2 :: more2) := by
          simp [layout]
        rw [hsplit, List.getLast?_append, this.2]
        rfl
  exact key ra ha1

theorem indentedLines_string_append (n : Nat) (a b : String) (ha : IndentedLines n a.data)
    (hb : IndentedLines n b.data) : IndentedLines n (a ++ b).data := by
  rw [String.data_append]
  exact indentedLines_append n _ _ ha hb

/-- The text of a statement whose strings carry no line break is made of whole
lines indented by at least the starting indent. -/
theorem stmtText_lines (fmt : Float → String) (hfmt : ∀ v, '\n' ∉ (fmt v).data) (s : Stmt) :
    (∀ x ∈ s.names, '\n' ∉ x.data) →
      ∀ n : Int, IndentedLines n.toNat (stmtText fmt n s).data := by
  have sn : structural '\n' := Or.inr (Or.inr rfl)
  have en := structural_not_mem_exprText fmt _ sn hfmt
  have an := structural_not_mem_argsText fmt _ sn hfmt
  have pn := structural_not_mem_printArgsText fmt _ sn hfmt
  have bn := structural_not_mem_boundsText fmt _ sn hfmt
  have tyn := structural_not_mem_typeText _ sn
  have ftn := structural_not_mem_forTypeText _ sn
  induction s using Stmt.induct with
  | hLet name value body ih =>
    intro hn n
    simp only [Stmt.names, List.mem_append, List.mem_cons, or_imp, forall_and, forall_eq] at hn
    have e : stmtText fmt n (.LetStmt name value body)
        = (spaces n ++ ("let " ++ name ++ " = " ++ exprText fmt value) ++ "\n")
          ++ (spaces n ++ stmtText fmt n body) := by
      rw [stmtText_LetStmt]; simp only [String.append_assoc]
    rw [e]
    refine indentedLines_string_append _ _ _ (indentedLines_line n _ ?_)
      (indentedLines_indent n _ (ih hn.2.2 n))
    simp [hn.1, en _ hn.2.1]
  | hPrint pfx args =>
    intro hn n
    simp only [Stmt.names, List.mem_append, List.mem_cons, or_imp, forall_and, forall_eq] at hn
    have e : stmtText fmt n (.PrintStmt pfx args)
        = spaces n ++ ("print(" ++ pfx ++ printArgsText fmt args ++ ")") ++ "\n" := by
      rw [stmtText_PrintStmt]; simp only [String.append_assoc]
    rw [e]
    refine indentedLines_line n _ ?_
    simp [hn.1, pn _ hn.2]
  | hAssert condition message =>
    intro hn n
    simp only [Stmt.names, List.mem_append, List.mem_cons, or_imp, forall_and, forall_eq] at hn
    have e : stmtText fmt n (.AssertStmt condition message)
        = spaces n ++ ("assert(" ++ exprText fmt condition ++ ", \"" ++ message ++ "\")")
          ++ "\n" := by
      rw [stmtText_AssertStmt]; simp only [String.append_assoc]
    rw [e]
    refine indentedLines_line n _ ?_
    simp [hn.1, en _ hn.2]
  | hPipe buffer produce consume ihp ihc =>
    intro hn n
    simp only [Stmt.names, List.mem_append, List.mem_cons, List.not_mem_nil, or_imp,
      forall_and, forall_eq, false_imp_iff, implies_true, and_true] at hn
    have e : stmtText fmt n (.Pipeline buffer produce none consume)
        = (spaces n ++ ("produce " ++ buffer ++ " \x7b") ++ "\n")
          ++ (stmtText fmt (n + 2) produce
          ++ ((spaces n ++ "\x7d consume \x7b" ++ "\n")
          ++ (stmtText fmt (n + 2) consume
          ++ (spaces n ++ "\x7d" ++ "\n")))) := by
      rw [stmtText_Pipeline_none]; simp only [String.append_assoc]
    rw [e]
    have hle : n.toNat ≤ (n + 2).toNat := by omega
    refine indentedLines_string_append _ _ _ (indentedLines_line n _ ?_)
      (indentedLines_string_append _ _ _
        (indentedLines_mono _ _ hle _ (ihp hn.2.1 (n + 2)))
        (indentedLines_string_append _ _ _ (indentedLines_line n _ ?_)
          (indentedLines_string_append _ _ _
            (indentedLines_mono _ _ hle _ (ihc hn.2.2 (n + 2)))
            (indentedLines_line n _ ?_))))
    · simp [hn.1]
    · simp
    · simp
  | hPipeU buffer produce update consume ihp ihu ihc =>
    intro hn n
    simp only [Stmt.names, List.mem_append, List.mem_cons, or_imp, forall_and, forall_eq] at hn
    have e : stmtText fmt n (.Pipeline buffer produce (some update) consume)
        = (spaces n ++ ("produce " ++ buffer ++ " \x7b") ++ "\n")
          ++ (stmtText fmt (n + 2) produce
          ++ ((spaces n ++ "\x7d update \x7b" ++ "\n")
          ++ (stmtText fmt (n + 2) update
          ++ ((spaces n ++ "\x7d consume \x7b" ++ "\n")
          ++ (stmtText fmt (n + 2) consume
          ++ (spaces n ++ "\x7d" ++ "\n")))))) := by
      rw [stmtText_Pipeline_some]; simp only [String.append_assoc]
    rw [e]
    have hle : n.toNat ≤ (n + 2).toNat := by omega
    refine indentedLines_string_append _ _ _ (indentedLines_line n _ ?_)
      (indentedLines_string_append _ _ _
        (indentedLines_mono _ _ hle _ (ihp hn.2.1.1 (n + 2)))
        (indentedLines_string_append _ _ _ (indentedLines_line n _ ?_)
          (indentedLines_string_append _ _ _
            (indentedLines_mono _ _ hle _ (ihu hn.2.1.2 (n + 2)))
            (indentedLines_string_append _ _ _ (indentedLines_line n _ ?_)
              (indentedLines_string_append _ _ _
                (indentedLines_mono _ _ hle _ (ihc hn.2.2 (n + 2)))
                (indentedLines_line n _ ?_))))))
    · simp [hn.1]
    · simp
    · simp
    · simp
  | hFor name min extent for_type body ih =>
    intro hn n
    simp only [Stmt.names, List.mem_append, List.mem_cons, or_imp, forall_and, forall_eq] at hn
    have e : stmtText fmt n (.For name min extent for_type body)
        = (spaces n ++ (forTypeText for_type ++ " (" ++ name ++ ", " ++ exprText fmt min
            ++ ", " ++ exprText fmt extent ++ ") \x7b") ++ "\n")
          ++ (stmtText fmt (n + 2) body ++ (spaces n ++ "\x7d" ++ "\n")) := by
      rw [stmtText_For]; simp only [String.append_assoc]
    rw [e]
    have hle : n.toNat ≤ (n + 2).toNat := by omega
    refine indentedLines_string_append _ _ _ (indentedLines_line n _ ?_)
      (indentedLines_string_append _ _ _
        (indentedLines_mono _ _ hle _ (ih hn.2.2 (n + 2))) (indentedLines_line n _ ?_))
    · simp [hn.1, ftn, en _ hn.2.1.1, en _ hn.2.1.2]
    · simp
  | hStore buffer value index =>
    intro hn n
    simp only [Stmt.names, List.mem_append, List.mem_cons, or_imp, forall_and, forall_eq] at hn
    have e : stmtText fmt n (.Store buffer value index)
        = spaces n ++ (buffer ++ "[" ++ exprText fmt index ++ "] = " ++ exprText fmt value)
          ++ "\n" := by
      rw [stmtText_Store]; simp only [String.append_assoc]
    rw [e]
    refine indentedLines_line n _ ?_
    simp [hn.1, en _ hn.2.1, en _ hn.2.2]
  | hProvide buffer args value =>
    intro hn n
    simp only [Stmt.names, List.mem_append, List.mem_cons, or_imp, forall_and, forall_eq] at hn
    have e : stmtText fmt n (.Provide buffer args value)
        = spaces n ++ (buffer ++ "(" ++ argsText fmt args.length 0 args ++ ") = "
            ++ exprText fmt value) ++ "\n" := by
      rw [stmtText_Provide]; simp only [String.append_assoc]
    rw [e]
    refine indentedLines_line n _ ?_
    simp [hn.1, an _ _ _ hn.2.1, en _ hn.2.2]
  | hAlloc buffer type size body ih =>
    intro hn n
    simp only [Stmt.names, List.mem_append, List.mem_cons, or_imp, forall_and, forall_eq] at hn
    have e : stmtText fmt n (.Allocate buffer type size body)
        = (spaces n ++ ("allocate " ++ buffer ++ "[" ++ typeText type ++ " * "
            ++ exprText fmt size ++ "]") ++ "\n")
          ++ (stmtText fmt n body ++ (spaces n ++ ("free " ++ buffer) ++ "\n")) := by
      rw [stmtText_Allocate]; simp only [String.append_assoc]
    rw [e]
    refine indentedLines_string_append _ _ _ (indentedLines_line n _ ?_)
      (indentedLines_string_append _ _ _ (ih hn.2.2 n) (indentedLines_line n _ ?_))
    · simp [hn.1, tyn, en _ hn.2.1]
    · simp [hn.1]
  | hRealize buffer bounds body ih =>
    intro hn n
    simp only [Stmt.names, List.mem_append, List.mem_cons, or_imp, forall_and, forall_eq] at hn
    have e : stmtText fmt n (.Realize buffer bounds body)
        = (spaces n ++ ("realize " ++ buffer ++ "(" ++ boundsText fmt bounds.length 0 bounds
            ++ ") \x7b") ++ "\n")
          ++ (stmtText fmt (n + 2) body ++ (spaces n ++ "\x7d" ++ "\n")) := by
      rw [stmtText_Realize]; simp only [String.append_assoc]
    rw [e]
    have hle : n.toNat ≤ (n + 2).toNat := by omega
    refine indentedLines_string_append _ _ _ (indentedLines_line n _ ?_)
      (indentedLines_string_append _ _ _
        (indentedLines_mono _ _ hle _ (ih hn.2.2 (n + 2))) (indentedLines_line n _ ?_))
    · simp [hn.1, bn _ _ _ hn.2.1]
    · simp
  | hBlock first ih =>
    intro hn n
    simp only [Stmt.names, List.mem_append, List.not_mem_nil, or_imp, forall_and,
      false_imp_iff, implies_true, and_true] at hn
    rw [stmtText_Block_none]
    exact ih hn n
  | hBlockR first rest ihf ihr =>
    intro hn n
    simp only [Stmt.names, List.mem_append, or_imp, forall_and] at hn
    rw [stmtText_Block_some]
    exact indentedLines_string_append _ _ _ (ihf hn.1 n) (ihr hn.2 n)

/-- C16 (whole indented lines). When neither the float formatter nor any name,
prefix or message of a statement supplies a line break, the text printed at
starting indent `n` is not empty, ends with a line break, and consists of
lines that each begin with `n` spaces (none for a negative `n`). -/
theorem whole_indented_lines (fmt : Float → String) (hfmt : ∀ v, '\n' ∉ (fmt v).data)
    (s : Stmt) (hs : ∀ x ∈ s.names, '\n' ∉ x.data) (n : Int) :
    stmtText fmt n s ≠ "" ∧ (stmtText fmt n s).data.getLast? = some '\n' ∧
      IndentedLines n.toNat (stmtText fmt n s).data := by
  have h := stmtText_lines fmt hfmt s hs n
  have h2 := indentedLines_nonempty _ _ h
  refine ⟨?_, h2.2, h⟩
  intro he
  rw [he] at h2
  exact h2.1 rfl

/-- C16 at the statement printed by `IRPrinter::test`, started at indent 2,
with a formatter that writes `0`. -/
theorem whole_indented_lines_witness :
    (∀ x ∈ IRPrinter.test.allocate.names, '\n' ∉ x.data) ∧
      stmtText (fun _ => "0") 2 IRPrinter.test.allocate ≠ "" ∧
      (stmtText (fun _ => "0") 2 IRPrinter.test.allocate).data.getLast? = some '\n' ∧
      IndentedLines (2 : Int).toNat (stmtText (fun _ => "0") 2 IRPrinter.test.allocate).data :=
  ⟨by decide, whole_indented_lines (fun _ => "0") (fun _ => (by decide : '\n' ∉ "0".data))
    IRPrinter.test.allocate (by decide) 2⟩

/-! ## Reading an expression back from its text: proofs -/

theorem follower_delimiter (c : Char) (h : follower c = true) : delimiter c = true := by
  simp only [follower, Bool.or_eq_true, decide_eq_true_eq] at h
  simp only [delimiter, Bool.or_eq_true, decide_eq_true_eq]
  tauto

theorem span_token (tok : List Char) (r : List Char)
    (htok : ∀ c ∈ tok, delimiter c = false)
    (hr : ∀ c, r.head? = some c → delimiter c = true) :
    (tok ++ r).span (fun x => !delimiter x) = (tok, r) := by
  induction tok with
  | nil =>
    cases r with
    | nil => rfl
    | cons d r' =>
      have hd := hr d rfl
      simp [List.span, List.span.loop, hd]
  | cons c cs ih =>
    have hc := htok c (by simp)
    have := ih (fun x hx => htok x (by simp [hx]))
    rw [List.span_eq_take_drop] at this ⊢
    simp only [List.cons_append, List.takeWhile_cons, List.dropWhile_cons, hc, Bool.not_false,
      if_true]
    simp only [Prod.mk.injEq] at this ⊢
    exact ⟨by rw [this.1], this.2⟩

theorem follows_delimiter (r : List Char) (h : Follows r) :
    ∀ c, r.head? = some c → delimiter c = true :=
  fun c hc => follower_delimiter c (h c hc)

theorem strip_append (pat r : List Char) : strip pat (pat ++ r) = some r := by
  induction pat with
  | nil => cases r <;> rfl
  | cons p ps ih => simp [strip, ih]

theorem strip_cons_ne (p c : Char) (ps r : List Char) (h : p ≠ c) :
    strip (p :: ps) (c :: r) = none := by
  simp [strip, h]

theorem follows_cons (c : Char) (r : List Char) (h : follower c = true) : Follows (c :: r) := by
  intro d hd
  simp only [List.head?_cons, Option.some.injEq] at hd
  rw [← hd]
  exact h

theorem follows_nil : Follows [] := by
  intro c hc
  simp at hc

/-! ### Integers -/

theorem digit_ne_minus (c : Char) (h : c.isDigit = true) : c ≠ '-' := by
  intro hc
  rw [hc] at h
  exact absurd h (by decide)

theorem intCandidate_intText (i : Int) : intCandidate (intText i).data = i := by
  cases i with
  | ofNat m =>
    have hne := toDigits_ne_nil m
    have hval := toDigits_value m
    show intCandidate (Nat.toDigits 10 m) = Int.ofNat m
    cases hd : Nat.toDigits 10 m with
    | nil => exact absurd hd hne
    | cons c cs =>
      have hc := digit_ne_minus c (toDigits_isDigit m c (by simp [hd]))
      rw [hd] at hval
      simp only [intCandidate, if_neg hc, hval]
      rfl
  | negSucc m =>
    show intCandidate ('-' :: Nat.toDigits 10 (m + 1)) = Int.negSucc m
    simp only [intCandidate, if_true, toDigits_value]
    rfl

theorem readInt_intText (i : Int) : readInt (intText i).data = some i := by
  unfold readInt
  rw [intCandidate_intText, if_pos rfl]

theorem readInt_some (tok : List Char) (i : Int) (h : readInt tok = some i) :
    (intText i).data = tok := by
  unfold readInt at h
  split at h
  · rename_i heq
    simp only [Option.some.injEq] at h
    rw [← h]
    exact heq
  · cases h

theorem intText_no_delimiter (i : Int) : ∀ c ∈ (intText i).data, delimiter c = false := by
  intro c hc
  rcases intText_chars i c hc with h | h
  · rw [h]; decide
  · simp only [delimiter, Bool.or_eq_false_iff, decide_eq_false_iff_not]
    refine ⟨⟨⟨⟨⟨⟨⟨?_, ?_⟩, ?_⟩, ?_⟩, ?_⟩, ?_⟩, ?_⟩, ?_⟩ <;> intro h' <;> rw [h'] at h <;>
      exact absurd h (by decide)

/-! ### Names -/

theorem nameOk_chars (name : String) (h : nameOk name = true) :
    (∀ c ∈ name.data, delimiter c = false) ∧
      ∃ c cs, name.data = c :: cs ∧ c.isDigit = false ∧ c ≠ '-' ∧ c ≠ '!' ∧ c ≠ '(' := by
  unfold nameOk at h
  cases hd : name.data with
  | nil => rw [hd] at h; simp at h
  | cons c cs =>
    rw [hd] at h
    simp only [Bool.and_eq_true, Bool.not_eq_true', Bool.or_eq_false_iff,
      decide_eq_false_iff_not, List.all_eq_true] at h
    have hall : ∀ x ∈ c :: cs, delimiter x = false := fun x hx => by simpa using h.2 x hx
    refine ⟨hall, c, cs, rfl, h.1.1.1, h.1.1.2, h.1.2, ?_⟩
    intro hc
    have := hall c (by simp)
    rw [hc] at this
    exact absurd this (by decide)

theorem readInt_name (name : String) (h : nameOk name = true) : readInt name.data = none := by
  obtain ⟨_, c, cs, h1, h2, h3, _⟩ := nameOk_chars name h
  cases hr : readInt name.data with
  | none => rfl
  | some i =>
    exfalso
    have := readInt_some _ _ hr
    obtain ⟨d, ds, h4, h5⟩ := intText_head i
    rw [h4, h1] at this
    simp only [List.cons.injEq] at this
    rw [this.1] at h5
    rcases h5 with h5 | h5
    · exact h3 h5
    · rw [h2] at h5
      exact absurd h5 (by decide)

/-! ### Types -/

theorem typeText_data (k : TypeCode) (b w : Int) :
    (typeText ⟨k, b, w⟩).data =
      kindChar k :: ((intText b).data ++ (if w > 1 then 'x' :: (intText w).data else [])) := by
  rw [(type_text k b w).1]
  cases k <;> by_cases hw : w > 1 <;>
    simp [hw, kindChar, String.data_append]

theorem not_x_intText (i : Int) : ∀ c ∈ (intText i).data, (!(decide (c = 'x'))) = true := by
  intro c hc
  rcases intText_chars i c hc with h | h
  · rw [h]; decide
  · simp only [Bool.not_eq_true', decide_eq_false_iff_not]
    intro h'
    rw [h'] at h
    exact absurd h (by decide)

theorem readTypeCode_kindChar (k : TypeCode) : readTypeCode (kindChar k) = some k := by
  cases k <;> rfl

theorem typeCandidate_typeText (k : TypeCode) (b w : Int) :
    typeCandidate (typeText ⟨k, b, w⟩).data = ⟨k, b, if w > 1 then w else 1⟩ := by
  rw [typeText_data]
  unfold typeCandidate
  simp only [readTypeCode_kindChar, Option.getD_some]
  by_cases hw : w > 1
  · simp only [hw, if_true]
    rw [List.takeWhile_append_of_pos (not_x_intText b), List.dropWhile_append_of_pos (not_x_intText b)]
    simp [intCandidate_intText]
  · simp only [hw, if_false, List.append_nil]
    have h1 : (intText b).data.takeWhile (fun c => !(decide (c = 'x'))) = (intText b).data :=
      List.takeWhile_eq_self_iff.2 (not_x_intText b)
    have h2 : (intText b).data.dropWhile (fun c => !(decide (c = 'x'))) = [] :=
      List.dropWhile_eq_nil_iff.2 (not_x_intText b)
    rw [h1, h2]
    simp [intCandidate_intText]

theorem isTypeText_typeText (t : IRType) : isTypeText (typeText t).data = true := by
  obtain ⟨k, b, w⟩ := t
  unfold isTypeText readType
  rw [typeCandidate_typeText]
  have : (typeText ⟨k, b, if w > 1 then w else 1⟩).data = (typeText ⟨k, b, w⟩).data := by
    rw [typeText_data, typeText_data]
    by_cases hw : w > 1
    · simp [hw]
    · simp [hw]
  rw [if_pos this]
  rfl

theorem typeText_no_delimiter (t : IRType) : ∀ c ∈ (typeText t).data, delimiter c = false := by
  obtain ⟨k, b, w⟩ := t
  intro c hc
  rw [typeText_data] at hc
  simp only [List.mem_cons, List.mem_append] at hc
  rcases hc with h | h | h
  · rw [h]; cases k <;> decide
  · exact intText_no_delimiter b c h
  · by_cases hw : w > 1
    · simp only [hw, if_true, List.mem_cons] at h
      rcases h with h | h
      · rw [h]; decide
      · exact intText_no_delimiter w c h
    · simp [hw] at h

theorem typeText_head (t : IRType) :
    ∃ c cs, (typeText t).data = c :: cs ∧ (c = 'i' ∨ c = 'u' ∨ c = 'f') := by
  obtain ⟨k, b, w⟩ := t
  rw [typeText_data]
  refine ⟨_, _, rfl, ?_⟩
  cases k <;> simp [kindChar]

/-! ### One level of reading -/

theorem delimiter_paren : delimiter '(' = true := by decide

theorem readStep_word (p : List Char → Option (Shape × List Char)) (n : Nat) (c : Char)
    (cs rest : List Char) (htok : ∀ x ∈ c :: cs, delimiter x = false) (hc : c ≠ '!')
    (hrest : ∀ d, rest.head? = some d → delimiter d = true) :
    readStep p n ((c :: cs) ++ rest) = readAfterWord p n (c :: cs) rest := by
  have hc1 : c ≠ '(' := by
    intro h
    have := htok c (by simp)
    rw [h] at this
    exact absurd this (by decide)
  have hspan := span_token (c :: cs) rest htok hrest
  simp only [List.cons_append] at hspan
  unfold readStep
  simp only [List.cons_append, if_neg hc1, if_neg hc, hspan]

theorem readStep_leaf (p : List Char → Option (Shape × List Char)) (n : Nat) (c : Char)
    (cs r : List Char) (htok : ∀ x ∈ c :: cs, delimiter x = false) (hc : c ≠ '!')
    (hr : Follows r) :
    readStep p n ((c :: cs) ++ r) = readLeaf (c :: cs) r := by
  rw [readStep_word p n c cs r htok hc (follows_delimiter r hr)]
  cases r with
  | nil => rfl
  | cons d r1 =>
    have hd := hr d rfl
    have h1 : d ≠ '(' := by
      intro h; rw [h] at hd; exact absurd hd (by decide)
    have h2 : d ≠ '[' := by
      intro h; rw [h] at hd; exact absurd hd (by decide)
    simp only [readAfterWord, if_neg h1, if_neg h2]

theorem readStep_call (p : List Char → Option (Shape × List Char)) (n : Nat) (c : Char)
    (cs r1 : List Char) (htok : ∀ x ∈ c :: cs, delimiter x = false) (hc : c ≠ '!') :
    readStep p n ((c :: cs) ++ '(' :: r1) = readCallLike p n (c :: cs) r1 := by
  rw [readStep_word p n c cs _ htok hc (by
    intro d hd
    simp only [List.head?_cons, Option.some.injEq] at hd
    rw [← hd]; decide)]
  simp only [readAfterWord, if_true]

theorem readStep_load (p : List Char → Option (Shape × List Char)) (n : Nat) (c : Char)
    (cs r1 : List Char) (htok : ∀ x ∈ c :: cs, delimiter x = false) (hc : c ≠ '!')
    (index : Shape) (r2 : List Char) (hp : p r1 = some (index, ']' :: r2)) :
    readStep p n ((c :: cs) ++ '[' :: r1) = some (.Load (String.mk (c :: cs)) index, r2) := by
  rw [readStep_word p n c cs _ htok hc (by
    intro d hd
    simp only [List.head?_cons, Option.some.injEq] at hd
    rw [← hd]; decide)]
  simp only [readAfterWord, show ¬ ('[' = '(') by decide, if_false, if_true, hp]
  rfl

/-! ### Leaves -/

theorem readStep_IntImm (fmt : Float → String) (p : List Char → Option (Shape × List Char))
    (n : Nat) (value : Int) (r : List Char) (hr : Follows r) :
    readStep p n ((exprText fmt (.IntImm value)).data ++ r)
      = some ((Expr.IntImm value).shape fmt, r) := by
  rw [exprText_IntImm]
  obtain ⟨c, cs, h, hc⟩ := intText_head value
  have hnd := intText_no_delimiter value
  rw [h] at hnd ⊢
  have hb : c ≠ '!' := by
    rcases hc with hc | hc
    · rw [hc]; decide
    · intro h'; rw [h'] at hc; exact absurd hc (by decide)
  rw [readStep_leaf p n c cs r hnd hb hr, ← h]
  simp only [readLeaf, readInt_intText, Expr.shape]

theorem readStep_Var (fmt : Float → String) (p : List Char → Option (Shape × List Char))
    (n : Nat) (type : IRType) (name : String) (hn : nameOk name = true) (r : List Char)
    (hr : Follows r) :
    readStep p n ((exprText fmt (.Var type name)).data ++ r)
      = some ((Expr.Var type name).shape fmt, r) := by
  rw [exprText_Var]
  obtain ⟨hnd, c, cs, h, h1, h2, h3, _⟩ := nameOk_chars name hn
  have hri := readInt_name name hn
  rw [h] at hnd hri ⊢
  rw [readStep_leaf p n c cs r hnd h3 hr]
  have hcond : (c.isDigit || decide (c = '-')) = false := by
    simp [h1, h2]
  simp only [readLeaf, hri, hcond, Bool.false_eq_true, if_false, Expr.shape]
  rw [← h]

theorem floatTextOk_chars (text : String) (h : floatTextOk text = true) :
    (∀ c ∈ text.data, delimiter c = false) ∧ readInt text.data = none ∧
      ∃ c cs, text.data = c :: cs ∧ (c.isDigit || decide (c = '-')) = true := by
  unfold floatTextOk at h
  cases hd : text.data with
  | nil => rw [hd] at h; simp at h
  | cons c cs =>
    rw [hd] at h
    simp only [Bool.and_eq_true, List.all_eq_true, Option.isNone_iff_eq_none] at h
    exact ⟨fun x hx => by simpa using h.1.2 x hx, h.2, c, cs, rfl, h.1.1⟩

theorem readStep_FloatImm (fmt : Float → String) (p : List Char → Option (Shape × List Char))
    (n : Nat) (value : Float) (hv : floatTextOk (fmt value) = true) (r : List Char)
    (hr : Follows r) :
    readStep p n ((exprText fmt (.FloatImm value)).data ++ r)
      = some ((Expr.FloatImm value).shape fmt, r) := by
  rw [exprText_FloatImm]
  obtain ⟨hnd, hri, c, cs, h, hc⟩ := floatTextOk_chars _ hv
  rw [h] at hnd hri ⊢
  have hb : c ≠ '!' := by
    intro h'
    rw [h'] at hc
    exact absurd hc (by decide)
  rw [readStep_leaf p n c cs r hnd hb hr]
  simp only [readLeaf, hri, hc, if_true, Expr.shape]
  rw [← h]

/-! ### Operators -/

theorem sign_span (sign X : List Char) (h : ∀ c ∈ sign, delimiter c = false) :
    (sign ++ ' ' :: X).span (fun x => !delimiter x) = (sign, ' ' :: X) :=
  span_token sign (' ' :: X) h (by
    intro d hd
    simp only [List.head?_cons, Option.some.injEq] at hd
    rw [← hd]; decide)

theorem readOperator_text (op : BinOp) (X : List Char) :
    readOperator (op.text.data ++ X) = some (op, X) := by
  cases op
  case Mul => rfl
  case Div => rfl
  all_goals
    simp only [BinOp.text]
    first
      | (have h := sign_span "+".data X (by decide)
         show readOperator (' ' :: ("+".data ++ ' ' :: X)) = _
         simp only [readOperator, h]; rfl)
      | (have h := sign_span "-".data X (by decide)
         show readOperator (' ' :: ("-".data ++ ' ' :: X)) = _
         simp only [readOperator, h]; rfl)
      | (have h := sign_span "%".data X (by decide)
         show readOperator (' ' :: ("%".data ++ ' ' :: X)) = _
         simp only [readOperator, h]; rfl)
      | (have h := sign_span "==".data X (by decide)
         show readOperator (' ' :: ("==".data ++ ' ' :: X)) = _
         simp only [readOperator, h]; rfl)
      | (have h := sign_span "!=".data X (by decide)
         show readOperator (' ' :: ("!=".data ++ ' ' :: X)) = _
         simp only [readOperator, h]; rfl)
      | (have h := sign_span "<".data X (by decide)
         show readOperator (' ' :: ("<".data ++ ' ' :: X)) = _
         simp only [readOperator, h]; rfl)
      | (have h := sign_span "<=".data X (by decide)
         show readOperator (' ' :: ("<=".data ++ ' ' :: X)) = _
         simp only [readOperator, h]; rfl)
      | (have h := sign_span ">".data X (by decide)
         show readOperator (' ' :: (">".data ++ ' ' :: X)) = _
         simp only [readOperator, h]; rfl)
      | (have h := sign_span ">=".data X (by decide)
         show readOperator (' ' :: (">=".data ++ ' ' :: X)) = _
         simp only [readOperator, h]; rfl)
      | (have h := sign_span "&&".data X (by decide)
         show readOperator (' ' :: ("&&".data ++ ' ' :: X)) = _
         simp only [readOperator, h]; rfl)
      | (have h := sign_span "||".data X (by decide)
         show readOperator (' ' :: ("||".data ++ ' ' :: X)) = _
         simp only [readOperator, h]; rfl)

theorem follows_operator (op : BinOp) (X : List Char) : Follows (op.text.data ++ X) := by
  cases op <;> exact follows_cons _ _ (by decide)

/-- The text of a parenthesised binary operation is read back. -/
theorem readStep_binary (fmt : Float → String) (p : List Char → Option (Shape × List Char))
    (n : Nat) (op : BinOp) (a b : Expr) (ha : Reads fmt p a) (hb : Reads fmt p b)
    (r : List Char) :
    readStep p n ('(' :: ((exprText fmt a).data ++ (op.text.data ++
        ((exprText fmt b).data ++ ')' :: r))))
      = some (.Binary op (a.shape fmt) (b.shape fmt), r) := by
  have h1 := ha _ (follows_operator op ((exprText fmt b).data ++ ')' :: r))
  have h2 := hb (')' :: r) (follows_cons _ _ (by decide))
  have h3 : strip ")".data (')' :: r) = some r := strip_append ")".data r
  simp only [readStep, if_true, readOpen, h1, readBinaryTail, readOperator_text, h2, h3]

theorem readStep_Not (fmt : Float → String) (p : List Char → Option (Shape × List Char))
    (n : Nat) (a : Expr) (ha : Reads fmt p a) (r : List Char) (hr : Follows r) :
    readStep p n ('!' :: ((exprText fmt a).data ++ r)) = some (.Not (a.shape fmt), r) := by
  have h1 := ha r hr
  simp only [readStep, show ¬ ('!' = '(') by decide, if_false, if_true, h1]

theorem signOp_ne_none_strip (p : List Char → Option (Shape × List Char))
    (heq : ∀ r : List Char, Follows r → p ('=' :: r) = some (.Var "=", r))
    (name X : List Char) (hn : ∀ c ∈ name, delimiter c = false) (a : Shape) :
    readBinaryTail p a (' ' :: (name ++ ' ' :: '=' :: ' ' :: X)) = none := by
  have hs := sign_span name ('=' :: ' ' :: X) hn
  have h1 : strip " ".data (' ' :: '=' :: ' ' :: X) = some ('=' :: ' ' :: X) :=
    strip_append " ".data _
  have h2 := heq (' ' :: X) (follows_cons _ _ (by decide))
  have h3 : strip ")".data (' ' :: X) = none := strip_cons_ne _ _ _ _ (by decide)
  unfold readBinaryTail readOperator
  simp only [show ¬ (' ' = '*') by decide, show ¬ (' ' = '/') by decide, if_false, if_true, hs, h1]
  cases signOp name with
  | none => rfl
  | some op => simp only [h2, h3]

/-- The text of a `Let` is read back. -/
theorem readStep_Let (fmt : Float → String) (p : List Char → Option (Shape × List Char))
    (n : Nat) (name : String) (value body : Expr) (hn : nameOk name = true)
    (hlet : ∀ r : List Char, Follows r → p ('l' :: 'e' :: 't' :: r) = some (.Var "let", r))
    (heq : ∀ r : List Char, Follows r → p ('=' :: r) = some (.Var "=", r))
    (hv : Reads fmt p value) (hb : Reads fmt p body) (r : List Char) :
    readStep p n ('(' :: 'l' :: 'e' :: 't' :: ' ' :: (name.data ++ ' ' :: '=' :: ' ' ::
        ((exprText fmt value).data ++ ' ' :: 'i' :: 'n' :: ' ' ::
          ((exprText fmt body).data ++ ')' :: r))))
      = some (.Let name (value.shape fmt) (body.shape fmt), r) := by
  obtain ⟨hnd, _⟩ := nameOk_chars name hn
  have h6 := hb (')' :: r) (follows_cons _ _ (by decide))
  have h4 := hv (' ' :: 'i' :: 'n' :: ' ' :: ((exprText fmt body).data ++ ')' :: r))
    (follows_cons _ _ (by decide))
  generalize (exprText fmt body).data ++ ')' :: r = B at *
  generalize (exprText fmt value).data ++ ' ' :: 'i' :: 'n' :: ' ' :: B = V at *
  have h0 := hlet (' ' :: (name.data ++ ' ' :: '=' :: ' ' :: V)) (follows_cons _ _ (by decide))
  have hbin := signOp_ne_none_strip p heq name.data V hnd (.Var "let")
  have h1 : strip " ".data (' ' :: (name.data ++ ' ' :: '=' :: ' ' :: V))
      = some (name.data ++ ' ' :: '=' :: ' ' :: V) := strip_append " ".data _
  have h2 := span_token name.data (' ' :: '=' :: ' ' :: V) hnd (by
      intro d hd
      simp only [List.head?_cons, Option.some.injEq] at hd
      rw [← hd]; decide)
  have h3 : strip " = ".data (' ' :: '=' :: ' ' :: V) = some V := strip_append " = ".data V
  have h5 : strip " in ".data (' ' :: 'i' :: 'n' :: ' ' :: B) = some B :=
    strip_append " in ".data B
  have h7 : strip ")".data (')' :: r) = some r := strip_append ")".data r
  simp only [readStep, if_true, readOpen, h0, hbin, readLetTail, h1, h2, h3, h4, h5, h6, h7]

/-! ### Call-like forms -/

theorem readPair_ok (fmt : Float → String) (p : List Char → Option (Shape × List Char))
    (a b : Expr) (ha : Reads fmt p a) (hb : Reads fmt p b) (R : List Char) (hR : Follows R) :
    readPair p ((exprText fmt a).data ++ ',' :: ' ' :: ((exprText fmt b).data ++ R))
      = some (a.shape fmt, b.shape fmt, R) := by
  have h1 := ha (',' :: ' ' :: ((exprText fmt b).data ++ R)) (follows_cons _ _ (by decide))
  have h2 : strip ", ".data (',' :: ' ' :: ((exprText fmt b).data ++ R))
      = some ((exprText fmt b).data ++ R) := strip_append ", ".data _
  have h3 := hb R hR
  simp only [readPair, h1, h2, h3]

theorem readWidth_ok (w : Int) (r : List Char) :
    readWidth ((intText w).data ++ ')' :: r) = some (w, ')' :: r) := by
  have h := span_token (intText w).data (')' :: r) (intText_no_delimiter w) (by
    intro d hd
    simp only [List.head?_cons, Option.some.injEq] at hd
    rw [← hd]; decide)
  simp only [readWidth, h, readInt_intText]

theorem readStep_Min (fmt : Float → String) (p : List Char → Option (Shape × List Char))
    (n : Nat) (a b : Expr) (ha : Reads fmt p a) (hb : Reads fmt p b) (r : List Char) :
    readStep p n ('m' :: 'i' :: 'n' :: '(' :: ((exprText fmt a).data ++ ',' :: ' ' ::
        ((exprText fmt b).data ++ ')' :: r)))
      = some (.Min (a.shape fmt) (b.shape fmt), r) := by
  have h0 := readStep_call p n 'm' ['i', 'n'] ((exprText fmt a).data ++ ',' :: ' ' ::
        ((exprText fmt b).data ++ ')' :: r)) (by decide) (by decide)
  have h1 := readPair_ok fmt p a b ha hb (')' :: r) (follows_cons _ _ (by decide))
  have h2 : strip ")".data (')' :: r) = some r := strip_append ")".data r
  rw [show ('m' :: 'i' :: 'n' :: '(' :: ((exprText fmt a).data ++ ',' :: ' ' ::
        ((exprText fmt b).data ++ ')' :: r))) = ['m', 'i', 'n'] ++ '(' :: ((exprText fmt a).data
        ++ ',' :: ' ' :: ((exprText fmt b).data ++ ')' :: r)) from rfl, h0]
  simp [readCallLike, h1, h2]

theorem readStep_Max (fmt : Float → String) (p : List Char → Option (Shape × List Char))
    (n : Nat) (a b : Expr) (ha : Reads fmt p a) (hb : Reads fmt p b) (r : List Char) :
    readStep p n ('m' :: 'a' :: 'x' :: '(' :: ((exprText fmt a).data ++ ',' :: ' ' ::
        ((exprText fmt b).data ++ ')' :: r)))
      = some (.Max (a.shape fmt) (b.shape fmt), r) := by
  have h0 := readStep_call p n 'm' ['a', 'x'] ((exprText fmt a).data ++ ',' :: ' ' ::
        ((exprText fmt b).data ++ ')' :: r)) (by decide) (by decide)
  have h1 := readPair_ok fmt p a b ha hb (')' :: r) (follows_cons _ _ (by decide))
  have h2 : strip ")".data (')' :: r) = some r := strip_append ")".data r
  rw [show ('m' :: 'a' :: 'x' :: '(' :: ((exprText fmt a).data ++ ',' :: ' ' ::
        ((exprText fmt b).data ++ ')' :: r))) = ['m', 'a', 'x'] ++ '(' :: ((exprText fmt a).data
        ++ ',' :: ' ' :: ((exprText fmt b).data ++ ')' :: r)) from rfl, h0]
  simp [readCallLike, h1, h2]

theorem readStep_Select (fmt : Float → String) (p : List Char → Option (Shape × List Char))
    (n : Nat) (c t f : Expr) (hc : Reads fmt p c) (ht : Reads fmt p t) (hf : Reads fmt p f)
    (r : List Char) :
    readStep p n ('s' :: 'e' :: 'l' :: 'e' :: 'c' :: 't' :: '(' :: ((exprText fmt c).data ++
        ',' :: ' ' :: ((exprText fmt t).data ++ ',' :: ' ' :: ((exprText fmt f).data ++ ')' :: r))))
      = some (.Select (c.shape fmt) (t.shape fmt) (f.shape fmt), r) := by
  have h0 := readStep_call p n 's' ['e', 'l', 'e', 'c', 't'] ((exprText fmt c).data ++
        ',' :: ' ' :: ((exprText fmt t).data ++ ',' :: ' ' :: ((exprText fmt f).data ++ ')' :: r)))
    (by decide) (by decide)
  have h1 := readPair_ok fmt p c t hc ht (',' :: ' ' :: ((exprText fmt f).data ++ ')' :: r))
    (follows_cons _ _ (by decide))
  have h2 : strip ", ".data (',' :: ' ' :: ((exprText fmt f).data ++ ')' :: r))
      = some ((exprText fmt f).data ++ ')' :: r) := strip_append ", ".data _
  have h3 := hf (')' :: r) (follows_cons _ _ (by decide))
  have h4 : strip ")".data (')' :: r) = some r := strip_append ")".data r
  rw [show ('s' :: 'e' :: 'l' :: 'e' :: 'c' :: 't' :: '(' :: ((exprText fmt c).data ++
        ',' :: ' ' :: ((exprText fmt t).data ++ ',' :: ' ' :: ((exprText fmt f).data ++ ')' :: r))))
      = ['s', 'e', 'l', 'e', 'c', 't'] ++ '(' :: ((exprText fmt c).data ++
        ',' :: ' ' :: ((exprText fmt t).data ++ ',' :: ' ' :: ((exprText fmt f).data ++ ')' :: r)))
      from rfl, h0]
  simp [readCallLike, h1, h2, h3, h4]

theorem readStep_Ramp (fmt : Float → String) (p : List Char → Option (Shape × List Char))
    (n : Nat) (base stride : Expr) (width : Int) (hb : Reads fmt p base)
    (hs : Reads fmt p stride) (r : List Char) :
    readStep p n ('r' :: 'a' :: 'm' :: 'p' :: '(' :: ((exprText fmt base).data ++
        ',' :: ' ' :: ((exprText fmt stride).data ++ ',' :: ' ' ::
          ((intText width).data ++ ')' :: r))))
      = some (.Ramp (base.shape fmt) (stride.shape fmt) width, r) := by
  have h0 := readStep_call p n 'r' ['a', 'm', 'p'] ((exprText fmt base).data ++
        ',' :: ' ' :: ((exprText fmt stride).data ++ ',' :: ' ' ::
          ((intText width).data ++ ')' :: r))) (by decide) (by decide)
  have h1 := readPair_ok fmt p base stride hb hs (',' :: ' ' :: ((intText width).data ++ ')' :: r))
    (follows_cons _ _ (by decide))
  have h2 : strip ", ".data (',' :: ' ' :: ((intText width).data ++ ')' :: r))
      = some ((intText width).data ++ ')' :: r) := strip_append ", ".data _
  have h3 := readWidth_ok width r
  have h4 : strip ")".data (')' :: r) = some r := strip_append ")".data r
  rw [show ('r' :: 'a' :: 'm' :: 'p' :: '(' :: ((exprText fmt base).data ++
        ',' :: ' ' :: ((exprText fmt stride).data ++ ',' :: ' ' ::
          ((intText width).data ++ ')' :: r))))
      = ['r', 'a', 'm', 'p'] ++ '(' :: ((exprText fmt base).data ++
        ',' :: ' ' :: ((exprText fmt stride).data ++ ',' :: ' ' ::
          ((intText width).data ++ ')' :: r))) from rfl, h0]
  simp [readCallLike, h1, h2, h3, h4]

theorem readStep_Broadcast (fmt : Float → String) (p : List Char → Option (Shape × List Char))
    (n : Nat) (value : Expr) (width : Int) (hv : Reads fmt p value) (r : List Char) :
    readStep p n ('b' :: 'r' :: 'o' :: 'a' :: 'd' :: 'c' :: 'a' :: 's' :: 't' :: '(' ::
        ((exprText fmt value).data ++ ',' :: ' ' :: ((intText width).data ++ ')' :: r)))
      = some (.Broadcast (value.shape fmt) width, r) := by
  have h0 := readStep_call p n 'b' ['r', 'o', 'a', 'd', 'c', 'a', 's', 't']
    ((exprText fmt value).data ++ ',' :: ' ' :: ((intText width).data ++ ')' :: r))
    (by decide) (by decide)
  have h1 := hv (',' :: ' ' :: ((intText width).data ++ ')' :: r)) (follows_cons _ _ (by decide))
  have h2 : strip ", ".data (',' :: ' ' :: ((intText width).data ++ ')' :: r))
      = some ((intText width).data ++ ')' :: r) := strip_append ", ".data _
  have h3 := readWidth_ok width r
  have h4 : strip ")".data (')' :: r) = some r := strip_append ")".data r
  rw [show ('b' :: 'r' :: 'o' :: 'a' :: 'd' :: 'c' :: 'a' :: 's' :: 't' :: '(' ::
        ((exprText fmt value).data ++ ',' :: ' ' :: ((intText width).data ++ ')' :: r)))
      = ['b', 'r', 'o', 'a', 'd', 'c', 'a', 's', 't'] ++ '(' ::
        ((exprText fmt value).data ++ ',' :: ' ' :: ((intText width).data ++ ')' :: r))
      from rfl, h0]
  simp [readCallLike, h1, h2, h3, h4]

/-- A word that starts with none of `m`, `s`, `r`, `b` is no keyword. -/
theorem not_keyword_of_head (c : Char) (cs : List Char)
    (h : c ≠ 'm' ∧ c ≠ 's' ∧ c ≠ 'r' ∧ c ≠ 'b') :
    c :: cs ≠ "min".data ∧ c :: cs ≠ "max".data ∧ c :: cs ≠ "select".data ∧
      c :: cs ≠ "ramp".data ∧ c :: cs ≠ "broadcast".data := by
  refine ⟨?_, ?_, ?_, ?_, ?_⟩ <;> intro he <;> injection he with h1 _
  · exact h.1 h1
  · exact h.1 h1
  · exact h.2.1 h1
  · exact h.2.2.1 h1
  · exact h.2.2.2 h1

theorem readStep_Cast (fmt : Float → String) (p : List Char → Option (Shape × List Char))
    (n : Nat) (type : IRType) (value : Expr) (hv : Reads fmt p value) (r : List Char) :
    readStep p n ((typeText type).data ++ '(' :: ((exprText fmt value).data ++ ')' :: r))
      = some (.Cast (typeText type) (value.shape fmt), r) := by
  obtain ⟨c, cs, h, hc⟩ := typeText_head type
  have hnd := typeText_no_delimiter type
  have hty := isTypeText_typeText type
  rw [h] at hnd hty ⊢
  have hb : c ≠ '!' := by
    rcases hc with hc | hc | hc <;> rw [hc] <;> decide
  have hkw := not_keyword_of_head c cs (by
    rcases hc with hc | hc | hc <;> rw [hc] <;> decide)
  have h1 := hv (')' :: r) (follows_cons _ _ (by decide))
  have h2 : strip ")".data (')' :: r) = some r := strip_append ")".data r
  rw [readStep_call p n c cs _ hnd hb]
  simp only [readCallLike, if_neg hkw.1, if_neg hkw.2.1, if_neg hkw.2.2.1, if_neg hkw.2.2.2.1,
    if_neg hkw.2.2.2.2, hty, if_true, h1, h2, Option.map_some']
  rw [← h]

theorem readStep_Load (fmt : Float → String) (p : List Char → Option (Shape × List Char))
    (n : Nat) (buffer : String) (index : Expr) (hn : nameOk buffer = true)
    (hi : Reads fmt p index) (r : List Char) :
    readStep p n (buffer.data ++ '[' :: ((exprText fmt index).data ++ ']' :: r))
      = some (.Load buffer (index.shape fmt), r) := by
  obtain ⟨hnd, c, cs, h, _, _, h3, _⟩ := nameOk_chars buffer hn
  rw [h] at hnd ⊢
  have h1 := hi (']' :: r) (follows_cons _ _ (by decide))
  rw [readStep_load p n c cs _ hnd h3 _ _ h1, ← h]

/-! ### Calls -/

theorem callNameOk_facts (name : String) (h : callNameOk name = true) :
    nameOk name = true ∧ isTypeText name.data = false ∧
      (name.data ≠ "min".data ∧ name.data ≠ "max".data ∧ name.data ≠ "select".data ∧
        name.data ≠ "ramp".data ∧ name.data ≠ "broadcast".data) := by
  unfold callNameOk at h
  simp only [Bool.and_eq_true, Bool.not_eq_true', keywords, List.contains_eq_any_beq,
    List.any_cons, List.any_nil, Bool.or_false, Bool.or_eq_false_iff, beq_eq_false_iff_ne] at h
  obtain ⟨⟨h1, h2, h3, h4, h5, h6⟩, h7⟩ := h
  refine ⟨h1, h7, ?_, ?_, ?_, ?_, ?_⟩ <;> intro he
  · exact h2 (String.ext he)
  · exact h3 (String.ext he)
  · exact h4 (String.ext he)
  · exact h5 (String.ext he)
  · exact h6 (String.ext he)

theorem readArgs_ok (fmt : Float → String) (p : List Char → Option (Shape × List Char))
    (size : Nat) (hsize : size < 2 ^ 64) (args : List Expr) :
    ∀ (i n : Nat), args ≠ [] → i + args.length = size → args.length ≤ n →
      (∀ a ∈ args, Reads fmt p a) → ∀ r : List Char,
      readArgs p n ((argsText fmt size i args).data ++ ')' :: r)
        = some (Expr.shapes fmt args, r) := by
  induction args with
  | nil => intro i n h; exact absurd rfl h
  | cons a rest ih =>
    intro i n _ hi hn hreads r
    simp only [List.length_cons] at hi hn
    obtain ⟨n', rfl⟩ : ∃ n', n = n' + 1 := ⟨n - 1, by omega⟩
    have ha := hreads a (by simp)
    rw [argsText_cons, size_minus_one_eq size (by omega) hsize]
    cases rest with
    | nil =>
      simp only [List.length_nil] at hi
      have hlt : ¬ i < size - 1 := by omega
      have h1 := ha (')' :: r) (follows_cons _ _ (by decide))
      have h2 : strip ")".data (')' :: r) = some r := strip_append ")".data r
      simp only [if_neg hlt, argsText_nil, String.append_empty, readArgs, h1, h2, Expr.shapes]
    | cons b more =>
      simp only [List.length_cons] at hi hn
      have hlt : i < size - 1 := by omega
      have hrec := ih (i + 1) n' (by simp) (by simp only [List.length_cons]; omega)
        (by simp only [List.length_cons]; omega) (fun x hx => hreads x (by simp [hx])) r
      have h1 := ha (',' :: ' ' :: ((argsText fmt size (i + 1) (b :: more)).data ++ ')' :: r))
        (follows_cons _ _ (by decide))
      have h2 : strip ")".data
          (',' :: ' ' :: ((argsText fmt size (i + 1) (b :: more)).data ++ ')' :: r)) = none :=
        strip_cons_ne _ _ _ _ (by decide)
      have h3 : strip ", ".data
          (',' :: ' ' :: ((argsText fmt size (i + 1) (b :: more)).data ++ ')' :: r))
          = some ((argsText fmt size (i + 1) (b :: more)).data ++ ')' :: r) :=
        strip_append ", ".data _
      have e : (exprText fmt a ++ ", " ++ argsText fmt size (i + 1) (b :: more)).data ++ ')' :: r
          = (exprText fmt a).data ++ ',' :: ' ' ::
            ((argsText fmt size (i + 1) (b :: more)).data ++ ')' :: r) := by
        simp only [String.data_append, List.append_assoc]
        rfl
      rw [if_pos hlt, e]
      simp only [readArgs, h1, h2, h3, hrec]
      rfl

theorem readArgs_close (p : List Char → Option (Shape × List Char))
    (hclose : ∀ r : List Char, p (')' :: r) = none) (n : Nat) (r : List Char) :
    readArgs p n (')' :: r) = none := by
  cases n with
  | zero => rfl
  | succ n => simp only [readArgs, hclose]

theorem readStep_Call (fmt : Float → String) (p : List Char → Option (Shape × List Char))
    (n : Nat) (buffer : String) (args : List Expr) (hn : callNameOk buffer = true)
    (hlen : args.length < 2 ^ 64) (hargs : ∀ a ∈ args, Reads fmt p a)
    (hclose : ∀ r : List Char, p (')' :: r) = none) (hfuel : args.length ≤ n) (r : List Char) :
    readStep p n (buffer.data ++ '(' :: ((argsText fmt args.length 0 args).data ++ ')' :: r))
      = some (.Call buffer (Expr.shapes fmt args), r) := by
  obtain ⟨hok, hty, hk1, hk2, hk3, hk4, hk5⟩ := callNameOk_facts buffer hn
  obtain ⟨hnd, c, cs, h, _, _, h3, _⟩ := nameOk_chars buffer hok
  rw [h] at hnd hty hk1 hk2 hk3 hk4 hk5 ⊢
  rw [readStep_call p n c cs _ hnd h3]
  simp only [readCallLike, if_neg hk1, if_neg hk2, if_neg hk3, if_neg hk4, if_neg hk5, hty,
    Bool.false_eq_true, if_false]
  cases args with
  | nil =>
    have h2 : strip ")".data (')' :: r) = some r := strip_append ")".data r
    simp only [List.length_nil, argsText_nil]
    show (match readArgs p n (')' :: r) with
      | some (args, r2) => some (Shape.Call (String.mk (c :: cs)) args, r2)
      | none => (strip ")".data (')' :: r)).map
          (fun r2 => (Shape.Call (String.mk (c :: cs)) [], r2))) = _
    rw [readArgs_close p hclose n r, h2, ← h]
    rfl
  | cons a rest =>
    have := readArgs_ok fmt p (a :: rest).length hlen (a :: rest) 0 n (by simp)
      (by simp) hfuel hargs r
    simp only [this]
    rw [← h]

theorem readExpr_close (fuel : Nat) (r : List Char) : readExpr fuel (')' :: r) = none := by
  cases fuel with
  | zero => rfl
  | succ f =>
    show readStep (readExpr f) f (')' :: r) = none
    have hs : (')' :: r).span (fun x => !delimiter x) = ([], ')' :: r) := by
      simp [List.span, List.span.loop, delimiter]
    simp only [readStep, show ¬ (')' = '(') by decide, show ¬ (')' = '!') by decide, if_false, hs]

/-! ### Every readable expression is read back -/

theorem readExpr_succ (fuel : Nat) (l : List Char) :
    readExpr (fuel + 1) l = readStep (readExpr fuel) fuel l := rfl

theorem readExpr_let (f : Nat) (r : List Char) (hr : Follows r) :
    readExpr (f + 1) ('l' :: 'e' :: 't' :: r) = some (.Var "let", r) := by
  have := readStep_Var (fun _ => "") (readExpr f) f (IRType.Int 32) "let" (by decide) r hr
  rw [exprText_Var] at this
  exact this

theorem readExpr_eq (f : Nat) (r : List Char) (hr : Follows r) :
    readExpr (f + 1) ('=' :: r) = some (.Var "=", r) := by
  have := readStep_Var (fun _ => "") (readExpr f) f (IRType.Int 32) "=" (by decide) r hr
  rw [exprText_Var] at this
  exact this

theorem reads_binary (fmt : Float → String) (op : BinOp) (a b e : Expr)
    (ht : (exprText fmt e).data
      = '(' :: ((exprText fmt a).data ++ (op.text.data ++ ((exprText fmt b).data ++ [')']))))
    (hs : e.shape fmt = .Binary op (a.shape fmt) (b.shape fmt))
    (iha : ∃ N, ∀ fuel, N ≤ fuel → Reads fmt (readExpr fuel) a)
    (ihb : ∃ N, ∀ fuel, N ≤ fuel → Reads fmt (readExpr fuel) b) :
    ∃ N, ∀ fuel, N ≤ fuel → Reads fmt (readExpr fuel) e := by
  obtain ⟨Na, ha⟩ := iha
  obtain ⟨Nb, hb⟩ := ihb
  refine ⟨max Na Nb + 1, fun fuel hf r _ => ?_⟩
  obtain ⟨f, rfl⟩ : ∃ f, fuel = f + 1 := ⟨fuel - 1, by omega⟩
  rw [readExpr_succ, ht, hs]
  have := readStep_binary fmt (readExpr f) f op a b (ha f (by omega)) (hb f (by omega)) r
  simpa only [List.cons_append, List.append_assoc, List.nil_append] using this

theorem readExpr_exprText (fmt : Float → String) (e : Expr) :
    e.readable fmt = true → ∃ N, ∀ fuel, N ≤ fuel → Reads fmt (readExpr fuel) e := by
  apply @Expr.rec
    (fun e => e.readable fmt = true → ∃ N, ∀ fuel, N ≤ fuel → Reads fmt (readExpr fuel) e)
    (fun args => Expr.readableList fmt args = true →
      ∃ N, ∀ fuel, N ≤ fuel → ∀ a ∈ args, Reads fmt (readExpr fuel) a)
  case IntImm =>
    intro value _
    refine ⟨1, fun fuel hf r hr => ?_⟩
    obtain ⟨f, rfl⟩ : ∃ f, fuel = f + 1 := ⟨fuel - 1, by omega⟩
    exact readStep_IntImm fmt (readExpr f) f value r hr
  case FloatImm =>
    intro value h
    refine ⟨1, fun fuel hf r hr => ?_⟩
    obtain ⟨f, rfl⟩ : ∃ f, fuel = f + 1 := ⟨fuel - 1, by omega⟩
    exact readStep_FloatImm fmt (readExpr f) f value (by simpa [Expr.readable] using h) r hr
  case Var =>
    intro type name h
    refine ⟨1, fun fuel hf r hr => ?_⟩
    obtain ⟨f, rfl⟩ : ∃ f, fuel = f + 1 := ⟨fuel - 1, by omega⟩
    exact readStep_Var fmt (readExpr f) f type name (by simpa [Expr.readable] using h) r hr
  case Cast =>
    intro type value ih h
    obtain ⟨N, hv⟩ := ih (by simpa [Expr.readable] using h)
    refine ⟨N + 1, fun fuel hf r _ => ?_⟩
    obtain ⟨f, rfl⟩ : ∃ f, fuel = f + 1 := ⟨fuel - 1, by omega⟩
    rw [readExpr_succ, exprText_Cast]
    have := readStep_Cast fmt (readExpr f) f type value (hv f (by omega)) r
    simpa [String.data_append, List.append_assoc, Expr.shape] using this
  case Add =>
    intro a b iha ihb h
    simp only [Expr.readable, Bool.and_eq_true] at h
    exact reads_binary fmt .Add a b _ (by simp [exprText_Add, String.data_append, BinOp.text])
      (by simp [Expr.shape]) (iha h.1) (ihb h.2)
  case Sub =>
    intro a b iha ihb h
    simp only [Expr.readable, Bool.and_eq_true] at h
    exact reads_binary fmt .Sub a b _ (by simp [exprText_Sub, String.data_append, BinOp.text])
      (by simp [Expr.shape]) (iha h.1) (ihb h.2)
  case Mul =>
    intro a b iha ihb h
    simp only [Expr.readable, Bool.and_eq_true] at h
    exact reads_binary fmt .Mul a b _ (by simp [exprText_Mul, String.data_append, BinOp.text])
      (by simp [Expr.shape]) (iha h.1) (ihb h.2)
  case Div =>
    intro a b iha ihb h
    simp only [Expr.readable, Bool.and_eq_true] at h
    exact reads_binary fmt .Div a b _ (by simp [exprText_Div, String.data_append, BinOp.text])
      (by simp [Expr.shape]) (iha h.1) (ihb h.2)
  case Mod =>
    intro a b iha ihb h
    simp only [Expr.readable, Bool.and_eq_true] at h
    exact reads_binary fmt .Mod a b _ (by simp [exprText_Mod, String.data_append, BinOp.text])
      (by simp [Expr.shape]) (iha h.1) (ihb h.2)
  case EQ =>
    intro a b iha ihb h
    simp only [Expr.readable, Bool.and_eq_true] at h
    exact reads_binary fmt .EQ a b _ (by simp [exprText_EQ, String.data_append, BinOp.text])
      (by simp [Expr.shape]) (iha h.1) (ihb h.2)
  case NE =>
    intro a b iha ihb h
    simp only [Expr.readable, Bool.and_eq_true] at h
    exact reads_binary fmt .NE a b _ (by simp [exprText_NE, String.data_append, BinOp.text])
      (by simp [Expr.shape]) (iha h.1) (ihb h.2)
  case LT =>
    intro a b iha ihb h
    simp only [Expr.readable, Bool.and_eq_true] at h
    exact reads_binary fmt .LT a b _ (by simp [exprText_LT, String.data_append, BinOp.text])
      (by simp [Expr.shape]) (iha h.1) (ihb h.2)
  case LE =>
    intro a b iha ihb h
    simp only [Expr.readable, Bool.and_eq_true] at h
    exact reads_binary fmt .LE a b _ (by simp [exprText_LE, String.data_append, BinOp.text])
      (by simp [Expr.shape]) (iha h.1) (ihb h.2)
  case GT =>
    intro a b iha ihb h
    simp only [Expr.readable, Bool.and_eq_true] at h
    exact reads_binary fmt .GT a b _ (by simp [exprText_GT, String.data_append, BinOp.text])
      (by simp [Expr.shape]) (iha h.1) (ihb h.2)
  case GE =>
    intro a b iha ihb h
    simp only [Expr.readable, Bool.and_eq_true] at h
    exact reads_binary fmt .GE a b _ (by simp [exprText_GE, String.data_append, BinOp.text])
      (by simp [Expr.shape]) (iha h.1) (ihb h.2)
  case And =>
    intro a b iha ihb h
    simp only [Expr.readable, Bool.and_eq_true] at h
    exact reads_binary fmt .And a b _ (by simp [exprText_And, String.data_append, BinOp.text])
      (by simp [Expr.shape]) (iha h.1) (ihb h.2)
  case Or =>
    intro a b iha ihb h
    simp only [Expr.readable, Bool.and_eq_true] at h
    exact reads_binary fmt .Or a b _ (by simp [exprText_Or, String.data_append, BinOp.text])
      (by simp [Expr.shape]) (iha h.1) (ihb h.2)
  case Min =>
    intro a b iha ihb h
    simp only [Expr.readable, Bool.and_eq_true] at h
    obtain ⟨Na, ha⟩ := iha h.1
    obtain ⟨Nb, hb⟩ := ihb h.2
    refine ⟨max Na Nb + 1, fun fuel hf r _ => ?_⟩
    obtain ⟨f, rfl⟩ : ∃ f, fuel = f + 1 := ⟨fuel - 1, by omega⟩
    rw [readExpr_succ, exprText_Min]
    have := readStep_Min fmt (readExpr f) f a b (ha f (by omega)) (hb f (by omega)) r
    simpa [String.data_append, List.append_assoc, Expr.shape] using this
  case Max =>
    intro a b iha ihb h
    simp only [Expr.readable, Bool.and_eq_true] at h
    obtain ⟨Na, ha⟩ := iha h.1
    obtain ⟨Nb, hb⟩ := ihb h.2
    refine ⟨max Na Nb + 1, fun fuel hf r _ => ?_⟩
    obtain ⟨f, rfl⟩ : ∃ f, fuel = f + 1 := ⟨fuel - 1, by omega⟩
    rw [readExpr_succ, exprText_Max]
    have := readStep_Max fmt (readExpr f) f a b (ha f (by omega)) (hb f (by omega)) r
    simpa [String.data_append, List.append_assoc, Expr.shape] using this
  case Not =>
    intro a iha h
    obtain ⟨Na, ha⟩ := iha (by simpa [Expr.readable] using h)
    refine ⟨Na + 1, fun fuel hf r hr => ?_⟩
    obtain ⟨f, rfl⟩ : ∃ f, fuel = f + 1 := ⟨fuel - 1, by omega⟩
    rw [readExpr_succ, exprText_Not]
    have := readStep_Not fmt (readExpr f) f a (ha f (by omega)) r hr
    simpa [String.data_append, List.append_assoc, Expr.shape] using this
  case Select =>
    intro c t f ihc iht ihf h
    simp only [Expr.readable, Bool.and_eq_true] at h
    obtain ⟨Nc, hc⟩ := ihc h.1.1
    obtain ⟨Nt, ht⟩ := iht h.1.2
    obtain ⟨Nf, hf'⟩ := ihf h.2
    refine ⟨max Nc (max Nt Nf) + 1, fun fuel hf r _ => ?_⟩
    obtain ⟨g, rfl⟩ : ∃ g, fuel = g + 1 := ⟨fuel - 1, by omega⟩
    rw [readExpr_succ, exprText_Select]
    have := readStep_Select fmt (readExpr g) g c t f (hc g (by omega)) (ht g (by omega))
      (hf' g (by omega)) r
    simpa [String.data_append, List.append_assoc, Expr.shape] using this
  case Load =>
    intro buffer index ih h
    simp only [Expr.readable, Bool.and_eq_true] at h
    obtain ⟨N, hi⟩ := ih h.2
    refine ⟨N + 1, fun fuel hf r _ => ?_⟩
    obtain ⟨f, rfl⟩ : ∃ f, fuel = f + 1 := ⟨fuel - 1, by omega⟩
    rw [readExpr_succ, exprText_Load]
    have := readStep_Load fmt (readExpr f) f buffer index h.1 (hi f (by omega)) r
    simpa [String.data_append, List.append_assoc, Expr.shape] using this
  case Ramp =>
    intro base stride width ihb ihs h
    simp only [Expr.readable, Bool.and_eq_true] at h
    obtain ⟨Nb, hb⟩ := ihb h.1
    obtain ⟨Ns, hs⟩ := ihs h.2
    refine ⟨max Nb Ns + 1, fun fuel hf r _ => ?_⟩
    obtain ⟨f, rfl⟩ : ∃ f, fuel = f + 1 := ⟨fuel - 1, by omega⟩
    rw [readExpr_succ, exprText_Ramp]
    have := readStep_Ramp fmt (readExpr f) f base stride width (hb f (by omega))
      (hs f (by omega)) r
    simpa [String.data_append, List.append_assoc, Expr.shape] using this
  case Broadcast =>
    intro value width ih h
    obtain ⟨N, hv⟩ := ih (by simpa [Expr.readable] using h)
    refine ⟨N + 1, fun fuel hf r _ => ?_⟩
    obtain ⟨f, rfl⟩ : ∃ f, fuel = f + 1 := ⟨fuel - 1, by omega⟩
    rw [readExpr_succ, exprText_Broadcast]
    have := readStep_Broadcast fmt (readExpr f) f value width (hv f (by omega)) r
    simpa [String.data_append, List.append_assoc, Expr.shape] using this
  case Call =>
    intro type buffer args call_type ih h
    simp only [Expr.readable, Bool.and_eq_true, decide_eq_true_eq] at h
    obtain ⟨N, hargs⟩ := ih h.2
    refine ⟨max N args.length + 1, fun fuel hf r _ => ?_⟩
    obtain ⟨f, rfl⟩ : ∃ f, fuel = f + 1 := ⟨fuel - 1, by omega⟩
    rw [readExpr_succ, exprText_Call]
    have := readStep_Call fmt (readExpr f) f buffer args h.1.1 h.1.2 (hargs f (by omega))
      (readExpr_close f) (by omega) r
    simpa [String.data_append, List.append_assoc, Expr.shape] using this
  case Let =>
    intro name value body ihv ihb h
    simp only [Expr.readable, Bool.and_eq_true] at h
    obtain ⟨Nv, hv⟩ := ihv h.1.2
    obtain ⟨Nb, hb⟩ := ihb h.2
    refine ⟨max (max Nv Nb) 1 + 1, fun fuel hf r _ => ?_⟩
    obtain ⟨f, rfl⟩ : ∃ f, fuel = f + 1 := ⟨fuel - 1, by omega⟩
    obtain ⟨g, rfl⟩ : ∃ g, f = g + 1 := ⟨f - 1, by omega⟩
    rw [readExpr_succ, exprText_Let]
    have := readStep_Let fmt (readExpr (g + 1)) (g + 1) name value body h.1.1
      (readExpr_let g) (readExpr_eq g) (hv (g + 1) (by omega)) (hb (g + 1) (by omega)) r
    simpa [String.data_append, List.append_assoc, Expr.shape] using this
  case nil =>
    intro _
    exact ⟨0, fun fuel _ a ha => by simp at ha⟩
  case cons =>
    intro head tail ihh iht h
    simp only [Expr.readableList, Bool.and_eq_true] at h
    obtain ⟨Nh, hh⟩ := ihh h.1
    obtain ⟨Nt, ht⟩ := iht h.2
    refine ⟨max Nh Nt, fun fuel hf a ha => ?_⟩
    simp only [List.mem_cons] at ha
    rcases ha with rfl | ha
    · exact hh fuel (by omega)
    · exact ht fuel (by omega) a ha

/-! ### The shape determines the text -/

theorem shape_text_binary (fmt : Float → String) (op : BinOp) (a b : Expr)
    (ha : exprText fmt a = (a.shape fmt).text) (hb : exprText fmt b = (b.shape fmt).text) :
    "(" ++ exprText fmt a ++ op.text ++ exprText fmt b ++ ")"
      = (Shape.Binary op (a.shape fmt) (b.shape fmt)).text := by
  rw [ha, hb]
  simp only [Shape.text]

/-- The printer writes the text of the shape of a readable expression. -/
theorem exprText_eq_shape_text (fmt : Float → String) (e : Expr) :
    e.readable fmt = true → exprText fmt e = (e.shape fmt).text := by
  apply @Expr.rec
    (fun e => e.readable fmt = true → exprText fmt e = (e.shape fmt).text)
    (fun args => Expr.readableList fmt args = true → ∀ size i : Nat, size < 2 ^ 64 →
      i + args.length = size → argsText fmt size i args = Shape.argsText (Expr.shapes fmt args))
  case IntImm => intro v _; simp only [exprText_IntImm, Expr.shape, Shape.text]
  case FloatImm => intro v _; simp only [exprText_FloatImm, Expr.shape, Shape.text]
  case Var => intro t n _; simp only [exprText_Var, Expr.shape, Shape.text]
  case Cast =>
    intro t v ih h
    simp only [Expr.readable] at h
    simp only [exprText_Cast, Expr.shape, Shape.text, ih h]
  case Add =>
    intro a b iha ihb h
    simp only [Expr.readable, Bool.and_eq_true] at h
    rw [exprText_Add]
    exact shape_text_binary fmt .Add a b (iha h.1) (ihb h.2)
  case Sub =>
    intro a b iha ihb h
    simp only [Expr.readable, Bool.and_eq_true] at h
    rw [exprText_Sub]
    exact shape_text_binary fmt .Sub a b (iha h.1) (ihb h.2)
  case Mul =>
    intro a b iha ihb h
    simp only [Expr.readable, Bool.and_eq_true] at h
    rw [exprText_Mul]
    exact shape_text_binary fmt .Mul a b (iha h.1) (ihb h.2)
  case Div =>
    intro a b iha ihb h
    simp only [Expr.readable, Bool.and_eq_true] at h
    rw [exprText_Div]
    exact shape_text_binary fmt .Div a b (iha h.1) (ihb h.2)
  case Mod =>
    intro a b iha ihb h
    simp only [Expr.readable, Bool.and_eq_true] at h
    rw [exprText_Mod]
    exact shape_text_binary fmt .Mod a b (iha h.1) (ihb h.2)
  case EQ =>
    intro a b iha ihb h
    simp only [Expr.readable, Bool.and_eq_true] at h
    rw [exprText_EQ]
    exact shape_text_binary fmt .EQ a b (iha h.1) (ihb h.2)
  case NE =>
    intro a b iha ihb h
    simp only [Expr.readable, Bool.and_eq_true] at h
    rw [exprText_NE]
    exact shape_text_binary fmt .NE a b (iha h.1) (ihb h.2)
  case LT =>
    intro a b iha ihb h
    simp only [Expr.readable, Bool.and_eq_true] at h
    rw [exprText_LT]
    exact shape_text_binary fmt .LT a b (iha h.1) (ihb h.2)
  case LE =>
    intro a b iha ihb h
    simp only [Expr.readable, Bool.and_eq_true] at h
    rw [exprText_LE]
    exact shape_text_binary fmt .LE a b (iha h.1) (ihb h.2)
  case GT =>
    intro a b iha ihb h
    simp only [Expr.readable, Bool.and_eq_true] at h
    rw [exprText_GT]
    exact shape_text_binary fmt .GT a b (iha h.1) (ihb h.2)
  case GE =>
    intro a b iha ihb h
    simp only [Expr.readable, Bool.and_eq_true] at h
    rw [exprText_GE]
    exact shape_text_binary fmt .GE a b (iha h.1) (ihb h.2)
  case And =>
    intro a b iha ihb h
    simp only [Expr.readable, Bool.and_eq_true] at h
    rw [exprText_And]
    exact shape_text_binary fmt .And a b (iha h.1) (ihb h.2)
  case Or =>
    intro a b iha ihb h
    simp only [Expr.readable, Bool.and_eq_true] at h
    rw [exprText_Or]
    exact shape_text_binary fmt .Or a b (iha h.1) (ihb h.2)
  case Min =>
    intro a b iha ihb h
    simp only [Expr.readable, Bool.and_eq_true] at h
    simp only [exprText_Min, Expr.shape, Shape.text, iha h.1, ihb h.2]
  case Max =>
    intro a b iha ihb h
    simp only [Expr.readable, Bool.and_eq_true] at h
    simp only [exprText_Max, Expr.shape, Shape.text, iha h.1, ihb h.2]
  case Not =>
    intro a iha h
    simp only [Expr.readable] at h
    simp only [exprText_Not, Expr.shape, Shape.text, iha h]
  case Select =>
    intro c t f ihc iht ihf h
    simp only [Expr.readable, Bool.and_eq_true] at h
    simp only [exprText_Select, Expr.shape, Shape.text, ihc h.1.1, iht h.1.2, ihf h.2]
  case Load =>
    intro buffer index ih h
    simp only [Expr.readable, Bool.and_eq_true] at h
    simp only [exprText_Load, Expr.shape, Shape.text, ih h.2]
  case Ramp =>
    intro base stride width ihb ihs h
    simp only [Expr.readable, Bool.and_eq_true] at h
    simp only [exprText_Ramp, Expr.shape, Shape.text, ihb h.1, ihs h.2]
  case Broadcast =>
    intro value width ih h
    simp only [Expr.readable] at h
    simp only [exprText_Broadcast, Expr.shape, Shape.text, ih h]
  case Call =>
    intro type buffer args call_type ih h
    simp only [Expr.readable, Bool.and_eq_true, decide_eq_true_eq] at h
    simp only [exprText_Call, Expr.shape, Shape.text,
      ih h.2 args.length 0 h.1.2 (Nat.zero_add _)]
  case Let =>
    intro name value body ihv ihb h
    simp only [Expr.readable, Bool.and_eq_true] at h
    simp only [exprText_Let, Expr.shape, Shape.text, ihv h.1.2, ihb h.2]
  case nil =>
    intro _ size i _ _
    simp only [argsText_nil, Expr.shapes, Shape.argsText]
  case cons =>
    intro head tail ihh iht h size i hsize hi
    simp only [Expr.readableList, Bool.and_eq_true] at h
    simp only [List.length_cons] at hi
    rw [argsText_cons, size_minus_one_eq size (by omega) hsize, ihh h.1,
      iht h.2 size (i + 1) hsize (by omega)]
    cases tail with
    | nil =>
      simp only [List.length_nil] at hi
      have : ¬ i < size - 1 := by omega
      simp only [if_neg this, Expr.shapes, Shape.argsText]
    | cons b more =>
      simp only [List.length_cons] at hi
      have : i < size - 1 := by omega
      simp only [if_pos this, Expr.shapes, Shape.argsText]

/-! ### The text and the shape -/

/-- Types of width at least 1 with the same text are equal. -/
theorem typeText_injective (t1 t2 : IRType) (h1 : 1 ≤ t1.width) (h2 : 1 ≤ t2.width)
    (h : typeText t1 = typeText t2) : t1 = t2 := by
  obtain ⟨k1, b1, w1⟩ := t1
  obtain ⟨k2, b2, w2⟩ := t2
  have e1 := typeCandidate_typeText k1 b1 w1
  have e2 := typeCandidate_typeText k2 b2 w2
  rw [h, e2] at e1
  simp only at h1 h2
  have hw1 : (if w1 > 1 then w1 else 1) = w1 := by
    split <;> omega
  have hw2 : (if w2 > 1 then w2 else 1) = w2 := by
    split <;> omega
  rw [hw1, hw2] at e1
  exact e1.symm

/-- C10 (amended). The text of an expression determines exactly what the
printer writes of it: two readable expressions have the same text if and only
if they have the same shape, that is the same node kinds, integer values,
names, operators, widths and argument lists, the same type texts in their
casts and the same texts of their float literals; so they can differ only in
the types of their variables, in the types and call kinds of their calls, in
cast types that print alike and in float literals that print alike. Readable
means that no name is empty, starts with a digit, `-` or `!`, or contains a
space, `*`, `/`, a bracket or a comma, that no function name is a keyword of
the printer or the text of a type, that every float literal prints as a
number that is not the text of an `int`, and that argument lists are shorter
than `2 ^ 64`. Types of width at least 1 with the same text are equal. -/
theorem text_determines_shape (fmt : Float → String) (e1 e2 : Expr)
    (h1 : e1.readable fmt = true) (h2 : e2.readable fmt = true) :
    (exprText fmt e1 = exprText fmt e2 ↔ e1.shape fmt = e2.shape fmt) ∧
      ∀ t1 t2 : IRType, 1 ≤ t1.width → 1 ≤ t2.width → typeText t1 = typeText t2 → t1 = t2 := by
  refine ⟨⟨?_, ?_⟩, typeText_injective⟩
  swap
  · intro h
    rw [exprText_eq_shape_text fmt e1 h1, exprText_eq_shape_text fmt e2 h2, h]
  intro h
  obtain ⟨N1, r1⟩ := readExpr_exprText fmt e1 h1
  obtain ⟨N2, r2⟩ := readExpr_exprText fmt e2 h2
  have a1 := r1 (max N1 N2) (by omega) [] follows_nil
  have a2 := r2 (max N1 N2) (by omega) [] follows_nil
  rw [h, a2] at a1
  simp only [Option.some.injEq, Prod.mk.injEq, and_true] at a1
  exact a1.symm

/-- C10 (amended) at the call `buf((x % 3))` of `IRPrinter::test` and the same
call with a float variable, a float result and another call kind: the two
are readable and have the same shape, since they print the same text. -/
theorem text_determines_shape_witness :
    (Expr.Call (IRType.Int 32) "buf" [.Mod (.Var (IRType.Int 32) "x") (.IntImm 3)]
        .Halide).readable (fun _ => "0.5") = true ∧
      (Expr.Call (IRType.Float 32) "buf" [.Mod (.Var (IRType.Float 32) "x") (.IntImm 3)]
        .Image).readable (fun _ => "0.5") = true ∧
      (Expr.Call (IRType.Int 32) "buf" [.Mod (.Var (IRType.Int 32) "x") (.IntImm 3)]
        .Halide).shape (fun _ => "0.5")
        = (Expr.Call (IRType.Float 32) "buf" [.Mod (.Var (IRType.Float 32) "x") (.IntImm 3)]
          .Image).shape (fun _ => "0.5") :=
  ⟨by decide, by decide,
    (text_determines_shape (fun _ => "0.5")
      (.Call (IRType.Int 32) "buf" [.Mod (.Var (IRType.Int 32) "x") (.IntImm 3)] .Halide)
      (.Call (IRType.Float 32) "buf" [.Mod (.Var (IRType.Float 32) "x") (.IntImm 3)] .Image)
      (by decide) (by decide)).1.1
      (by simp only [exprText_Call, exprText_Mod, exprText_Var, exprText_IntImm, argsText_cons,
        argsText_nil, List.length_cons, List.length_nil])⟩

end HalideInternal

namespace tracing

open HalideInternal (intText)

/-! ## Rounding to nearest -/

theorem bit_length_from_le (fuel : Nat) :
    ∀ n k : Nat, n ≤ fuel → (bit_length_from fuel n ≤ k ↔ n < 2 ^ k) := by
  induction fuel with
  | zero =>
    intro n k h
    have : n = 0 := by omega
    subst this
    simp [bit_length_from]
  | succ fuel ih =>
    intro n k h
    unfold bit_length_from
    by_cases hn : n = 0
    · subst hn
      simp
    · rw [if_neg hn]
      cases k with
      | zero => simp; omega
      | succ k =>
        have h2 : n / 2 ≤ fuel := by omega
        rw [Nat.add_le_add_iff_right, ih (n / 2) k h2, pow_succ]
        omega

theorem bit_length_le (n k : Nat) : bit_length n ≤ k ↔ n < 2 ^ k :=
  bit_length_from_le n n k (Nat.le_refl n)

theorem lt_pow_bit_length (n : Nat) : n < 2 ^ bit_length n :=
  (bit_length_le n _).1 (Nat.le_refl _)

theorem pow_le_of_lt_bit_length (n k : Nat) (h : k < bit_length n) : 2 ^ k ≤ n := by
  by_contra hc
  have := (bit_length_le n k).2 (by omega)
  omega

theorem bit_length_mono (n m : Nat) (h : n ≤ m) : bit_length n ≤ bit_length m :=
  (bit_length_le n _).2 (lt_of_le_of_lt h (lt_pow_bit_length m))

theorem round_to_multiple_cases (k n : Nat) :
    round_to_multiple k n = n / 2 ^ k * 2 ^ k ∨ round_to_multiple k n = (n / 2 ^ k + 1) * 2 ^ k := by
  unfold round_to_multiple
  simp only
  split
  · exact Or.inl rfl
  · exact Or.inr rfl

theorem round_to_multiple_exact (k n : Nat) (h : n % 2 ^ k = 0) : round_to_multiple k n = n := by
  unfold round_to_multiple
  simp only
  have hp : 0 < 2 ^ k := Nat.pow_pos (by decide)
  rw [if_pos (Or.inl (by omega))]
  have := Nat.div_add_mod n (2 ^ k)
  rw [h] at this
  rw [Nat.mul_comm]
  omega

theorem round_to_multiple_error (k n : Nat) :
    2 * round_to_multiple k n ≤ 2 * n + 2 ^ k ∧ 2 * n ≤ 2 * round_to_multiple k n + 2 ^ k := by
  unfold round_to_multiple
  simp only
  have hp : 0 < 2 ^ k := Nat.pow_pos (by decide)
  have hd := Nat.div_add_mod n (2 ^ k)
  have hm := Nat.mod_lt n hp
  generalize n / 2 ^ k = q at *
  generalize n % 2 ^ k = r at *
  generalize 2 ^ k = P at *
  have e1 : q * P = P * q := Nat.mul_comm _ _
  have e2 : (q + 1) * P = P * q + P := by rw [Nat.add_mul, Nat.one_mul, Nat.mul_comm]
  split
  · rename_i h
    rw [e1]
    rcases h with h | h <;> omega
  · rename_i h
    rw [e2]
    have : ¬ 2 * r < P := fun hh => h (Or.inl hh)
    omega

theorem round_nearest_even_eq (n : Nat) :
    round_nearest_even 24 0 n = round_to_multiple (bit_length n - 24) n := by
  unfold round_nearest_even
  rw [Nat.max_eq_left (Nat.zero_le _)]

/-- Rounding does not pass a representable number from above. -/
theorem round_le_of_le (y n : Nat) (hy : y % 2 ^ (bit_length y - 24) = 0) (h : n ≤ y) :
    round_nearest_even 24 0 n ≤ y := by
  rw [round_nearest_even_eq]
  have hk : bit_length n - 24 ≤ bit_length y - 24 :=
    Nat.sub_le_sub_right (bit_length_mono n y h) 24
  have hdvd : 2 ^ (bit_length n - 24) ∣ y :=
    Nat.dvd_trans (pow_dvd_pow 2 hk) (Nat.dvd_of_mod_eq_zero hy)
  generalize bit_length n - 24 = k at *
  have hp : 0 < 2 ^ k := Nat.pow_pos (by decide)
  by_cases hr : n % 2 ^ k = 0
  · rw [round_to_multiple_exact k n hr]
    exact h
  · rcases round_to_multiple_cases k n with hc | hc
    · rw [hc]
      exact Nat.le_trans (Nat.div_mul_le_self n (2 ^ k)) h
    · rw [hc]
      obtain ⟨z, hz⟩ := hdvd
      have hd := Nat.div_add_mod n (2 ^ k)
      have hlt : 2 ^ k * (n / 2 ^ k) < 2 ^ k * z := by omega
      have hq : n / 2 ^ k < z := Nat.lt_of_mul_lt_mul_left hlt
      rw [hz, Nat.mul_comm (2 ^ k) z]
      exact Nat.mul_le_mul_right _ hq

/-- Rounding does not pass a representable number from below. -/
theorem le_round_of_le (y n : Nat) (hy : y % 2 ^ (bit_length y - 24) = 0) (h : y ≤ n) :
    y ≤ round_nearest_even 24 0 n := by
  rw [round_nearest_even_eq]
  have hlow : n / 2 ^ (bit_length n - 24) * 2 ^ (bit_length n - 24)
      ≤ round_to_multiple (bit_length n - 24) n := by
    rcases round_to_multiple_cases (bit_length n - 24) n with hc | hc
    · rw [hc]
    · rw [hc]
      exact Nat.mul_le_mul_right _ (Nat.le_succ _)
  refine Nat.le_trans ?_ hlow
  have hmono := bit_length_mono y n h
  by_cases hr : y % 2 ^ (bit_length n - 24) = 0
  · obtain ⟨z, hz⟩ := Nat.dvd_of_mod_eq_zero hr
    have hp : 0 < 2 ^ (bit_length n - 24) := Nat.pow_pos (by decide)
    have hzq : z ≤ n / 2 ^ (bit_length n - 24) := by
      rw [Nat.le_div_iff_mul_le hp, Nat.mul_comm, ← hz]
      exact h
    rw [hz, Nat.mul_comm (2 ^ (bit_length n - 24)) z]
    exact Nat.mul_le_mul_right _ hzq
  · have hky : bit_length y - 24 < bit_length n - 24 := by
      by_contra hc
      have he : bit_length y - 24 = bit_length n - 24 := by omega
      rw [he] at hy
      exact hr hy
    have hbn : bit_length n = (bit_length n - 24) + 24 := by omega
    have hn : 2 ^ ((bit_length n - 24) + 23) ≤ n :=
      pow_le_of_lt_bit_length n _ (by omega)
    have hyl : y < 2 ^ ((bit_length n - 24) + 23) :=
      lt_of_lt_of_le (lt_pow_bit_length y) (Nat.pow_le_pow_right (by decide) (by omega))
    generalize bit_length n - 24 = k at *
    have hp : 0 < 2 ^ k := Nat.pow_pos (by decide)
    have hq : 2 ^ 23 ≤ n / 2 ^ k := by
      rw [Nat.le_div_iff_mul_le hp, ← pow_add, Nat.add_comm]
      exact hn
    have : 2 ^ (k + 23) ≤ n / 2 ^ k * 2 ^ k := by
      rw [Nat.add_comm, pow_add]
      exact Nat.mul_le_mul_right _ hq
    omega

/-- The rounding error is at most half the spacing of the numbers below
`2 ^ K`. -/
theorem round_error (K n : Nat) (h : n ≤ 2 ^ K) :
    2 * round_nearest_even 24 0 n ≤ 2 * n + 2 ^ (K - 24) ∧
      2 * n ≤ 2 * round_nearest_even 24 0 n + 2 ^ (K - 24) := by
  rw [round_nearest_even_eq]
  by_cases hr : n % 2 ^ (bit_length n - 24) = 0
  · rw [round_to_multiple_exact _ n hr]
    exact ⟨Nat.le_add_right _ _, Nat.le_add_right _ _⟩
  · have hne : n ≠ 2 ^ K := by
      intro he
      apply hr
      have hb : bit_length n ≤ K + 1 := by
        rw [bit_length_le, he]
        exact Nat.pow_lt_pow_right (by decide) (Nat.lt_succ_self K)
      rw [he] at hb ⊢
      exact Nat.mod_eq_zero_of_dvd (pow_dvd_pow 2 (by omega))
    have hb : bit_length n ≤ K := (bit_length_le n K).2 (by omega)
    have hpow : 2 ^ (bit_length n - 24) ≤ 2 ^ (K - 24) :=
      Nat.pow_le_pow_right (by decide) (by omega)
    have := round_to_multiple_error (bit_length n - 24) n
    generalize 2 ^ (bit_length n - 24) = P at *
    generalize 2 ^ (K - 24) = Q at *
    omega

/-! ## The order of rounded sums -/

theorem float.signed_zero (s : Bool) : float.signed s 0 = 0 := by
  cases s <;> rfl

/-- The place in the order of the binary32 result for an exact value `e`: no
representable number lies between the exact value and the result, and the
two differ by at most half the spacing. -/
theorem key_of_exact (sz : Bool) (e : Int) :
    ∃ k : Int,
      (if e = 0 then float.finite sz 0 else float.round (decide (e < 0)) e.natAbs).key = some k ∧
      (-(2 ^ 277) ≤ k ∧ k ≤ 2 ^ 277) ∧
      (∀ (t : Bool) (n : Nat), n % 2 ^ (bit_length n - 24) = 0 → n < 2 ^ 277 →
        float.signed t n ≤ e → float.signed t n ≤ k) ∧
      (∀ (t : Bool) (n : Nat), n % 2 ^ (bit_length n - 24) = 0 → n < 2 ^ 277 →
        e ≤ float.signed t n → k ≤ float.signed t n) ∧
      (∀ (K : Nat) (yu : Int), e.natAbs ≤ 2 ^ K → yu < 2 ^ 277 →
        2 * yu + 2 ^ (K - 24) < 2 * e → yu < k) ∧
      (∀ (K : Nat) (yu : Int), e.natAbs ≤ 2 ^ K → -(2 ^ 277) < yu →
        2 * e + 2 ^ (K - 24) < 2 * yu → k < yu) := by
  have hP : (0 : Int) < 2 ^ 277 := pow_pos (by decide) 277
  rcases lt_trichotomy e 0 with he | he | he
  · -- negative exact value
    obtain ⟨a, ha⟩ : ∃ a : Nat, e = -(a : Int) := ⟨e.natAbs, by omega⟩
    subst ha
    have hapos : 0 < a := by omega
    have hne : ¬ (-(a : Int) = 0) := by omega
    have hna : (-(a : Int)).natAbs = a := by omega
    rw [if_neg hne, hna]
    have hdec : decide (-(a : Int) < 0) = true := decide_eq_true he
    rw [hdec]
    unfold float.round
    simp only
    by_cases hov : round_nearest_even 24 0 a < 2 ^ 277
    · rw [if_pos hov]
      refine ⟨-(round_nearest_even 24 0 a : Int), by simp only [float.key, float.signed, if_true, Bool.false_eq_true, if_false], ?_, ?_, ?_, ?_, ?_⟩
      · have h3 : ((2 ^ 277 : Nat) : Int) = 2 ^ 277 := by push_cast; rfl
        generalize (2 : Int) ^ 277 = P at *
        generalize (2 : Nat) ^ 277 = P2 at *
        omega
      · intro t n hn _ h
        cases t
        · simp only [float.signed, Bool.false_eq_true, if_false] at h ⊢
          omega
        · simp only [float.signed, if_true] at h ⊢
          have := round_le_of_le n a hn (by omega)
          omega
      · intro t n hn _ h
        cases t
        · simp only [float.signed, Bool.false_eq_true, if_false] at h ⊢
          omega
        · simp only [float.signed, if_true] at h ⊢
          have := le_round_of_le n a hn (by omega)
          omega
      · intro K yu hK _ h
        have := (round_error K a hK).1
        have hq : ((2 ^ (K - 24) : Nat) : Int) = 2 ^ (K - 24) := by push_cast; rfl
        generalize (2 : Int) ^ (K - 24) = Q at *
        generalize (2 : Nat) ^ (K - 24) = Q2 at *
        omega
      · intro K yu hK _ h
        have := (round_error K a hK).2
        have hq : ((2 ^ (K - 24) : Nat) : Int) = 2 ^ (K - 24) := by push_cast; rfl
        generalize (2 : Int) ^ (K - 24) = Q at *
        generalize (2 : Nat) ^ (K - 24) = Q2 at *
        omega
    · rw [if_neg hov]
      refine ⟨-(2 ^ 277 : Int), by simp only [float.key, float.signed, if_true, Bool.false_eq_true, if_false, Nat.cast_pow, Nat.cast_ofNat], ?_, ?_, ?_, ?_, ?_⟩
      · have h3 : ((2 ^ 277 : Nat) : Int) = 2 ^ 277 := by push_cast; rfl
        generalize (2 : Int) ^ 277 = P at *
        generalize (2 : Nat) ^ 277 = P2 at *
        omega
      · intro t n hn hlt h
        cases t
        · simp only [float.signed, Bool.false_eq_true, if_false] at h ⊢
          omega
        · simp only [float.signed, if_true] at h ⊢
          have := round_le_of_le n a hn (by omega)
          have h3 : ((2 ^ 277 : Nat) : Int) = 2 ^ 277 := by push_cast; rfl
          generalize (2 : Int) ^ 277 = P at *
          generalize (2 : Nat) ^ 277 = P2 at *
          omega
      · intro t n hn hlt h
        have h3 : ((2 ^ 277 : Nat) : Int) = 2 ^ 277 := by push_cast; rfl
        cases t
        · simp only [float.signed, Bool.false_eq_true, if_false] at h ⊢
          generalize (2 : Int) ^ 277 = P at *
          omega
        · simp only [float.signed, if_true] at h ⊢
          generalize (2 : Int) ^ 277 = P at *
          generalize (2 : Nat) ^ 277 = P2 at *
          omega
      · intro K yu hK _ h
        have := (round_error K a hK).1
        have hq : ((2 ^ (K - 24) : Nat) : Int) = 2 ^ (K - 24) := by push_cast; rfl
        have h3 : ((2 ^ 277 : Nat) : Int) = 2 ^ 277 := by push_cast; rfl
        generalize (2 : Int) ^ (K - 24) = Q at *
        generalize (2 : Nat) ^ (K - 24) = Q2 at *
        generalize (2 : Int) ^ 277 = P at *
        generalize (2 : Nat) ^ 277 = P2 at *
        omega
      · intro K yu hK hy h
        exact hy
  · -- exact zero
    subst he
    rw [if_pos rfl]
    refine ⟨0, by simp [float.key, float.signed_zero], ?_, ?_, ?_, ?_, ?_⟩
    · have h3 : ((2 ^ 277 : Nat) : Int) = 2 ^ 277 := by push_cast; rfl
      generalize (2 : Int) ^ 277 = P at *
      generalize (2 : Nat) ^ 277 = P2 at *
      omega
    · intro t n _ _ h
      exact h
    · intro t n _ _ h
      exact h
    · intro K yu _ _ h
      have : (0 : Int) < 2 ^ (K - 24) := by positivity
      omega
    · intro K yu _ _ h
      have : (0 : Int) < 2 ^ (K - 24) := by positivity
      omega
  · -- positive exact value
    obtain ⟨a, ha⟩ : ∃ a : Nat, e = (a : Int) := ⟨e.natAbs, by omega⟩
    subst ha
    have hapos : 0 < a := by omega
    have hne : ¬ ((a : Int) = 0) := by omega
    have hna : ((a : Int)).natAbs = a := by omega
    rw [if_neg hne, hna]
    have hdec : decide ((a : Int) < 0) = false := decide_eq_false (by omega)
    rw [hdec]
    unfold float.round
    simp only
    by_cases hov : round_nearest_even 24 0 a < 2 ^ 277
    · rw [if_pos hov]
      refine ⟨(round_nearest_even 24 0 a : Int), by simp only [float.key, float.signed, if_true, Bool.false_eq_true, if_false], ?_, ?_, ?_, ?_, ?_⟩
      · have h3 : ((2 ^ 277 : Nat) : Int) = 2 ^ 277 := by push_cast; rfl
        generalize (2 : Int) ^ 277 = P at *
        generalize (2 : Nat) ^ 277 = P2 at *
        omega
      · intro t n hn _ h
        cases t
        · simp only [float.signed, Bool.false_eq_true, if_false] at h ⊢
          have := le_round_of_le n a hn (by omega)
          omega
        · simp only [float.signed, if_true] at h ⊢
          omega
      · intro t n hn _ h
        cases t
        · simp only [float.signed, Bool.false_eq_true, if_false] at h ⊢
          have := round_le_of_le n a hn (by omega)
          omega
        · simp only [float.signed, if_true] at h ⊢
          omega
      · intro K yu hK _ h
        have := (round_error K a hK).2
        have hq : ((2 ^ (K - 24) : Nat) : Int) = 2 ^ (K - 24) := by push_cast; rfl
        generalize (2 : Int) ^ (K - 24) = Q at *
        generalize (2 : Nat) ^ (K - 24) = Q2 at *
        omega
      · intro K yu hK _ h
        have := (round_error K a hK).1
        have hq : ((2 ^ (K - 24) : Nat) : Int) = 2 ^ (K - 24) := by push_cast; rfl
        generalize (2 : Int) ^ (K - 24) = Q at *
        generalize (2 : Nat) ^ (K - 24) = Q2 at *
        omega
    · rw [if_neg hov]
      refine ⟨(2 ^ 277 : Int), by simp only [float.key, float.signed, if_true, Bool.false_eq_true, if_false, Nat.cast_pow, Nat.cast_ofNat], ?_, ?_, ?_, ?_, ?_⟩
      · have h3 : ((2 ^ 277 : Nat) : Int) = 2 ^ 277 := by push_cast; rfl
        generalize (2 : Int) ^ 277 = P at *
        generalize (2 : Nat) ^ 277 = P2 at *
        omega
      · intro t n hn hlt h
        have h3 : ((2 ^ 277 : Nat) : Int) = 2 ^ 277 := by push_cast; rfl
        cases t
        · simp only [float.signed, Bool.false_eq_true, if_false] at h ⊢
          generalize (2 : Int) ^ 277 = P at *
          generalize (2 : Nat) ^ 277 = P2 at *
          omega
        · simp only [float.signed, if_true] at h ⊢
          generalize (2 : Int) ^ 277 = P at *
          omega
      · intro t n hn hlt h
        cases t
        · simp only [float.signed, Bool.false_eq_true, if_false] at h ⊢
          have := round_le_of_le n a hn (by omega)
          have h3 : ((2 ^ 277 : Nat) : Int) = 2 ^ 277 := by push_cast; rfl
          generalize (2 : Int) ^ 277 = P at *
          generalize (2 : Nat) ^ 277 = P2 at *
          omega
        · simp only [float.signed, if_true] at h ⊢
          generalize (2 : Int) ^ 277 = P at *
          omega
      · intro K yu hK hy h
        exact hy
      · intro K yu hK _ h
        have := (round_error K a hK).1
        have hq : ((2 ^ (K - 24) : Nat) : Int) = 2 ^ (K - 24) := by push_cast; rfl
        have h3 : ((2 ^ 277 : Nat) : Int) = 2 ^ 277 := by push_cast; rfl
        generalize (2 : Int) ^ (K - 24) = Q at *
        generalize (2 : Nat) ^ (K - 24) = Q2 at *
        generalize (2 : Int) ^ 277 = P at *
        generalize (2 : Nat) ^ 277 = P2 at *
        omega

/-! ## The tolerance test `float_match` -/

set_option maxRecDepth 100000 in
/-- The constant `0.001f`: the binary32 number `8589935 * 2 ^ (-33)`. -/
theorem tolerance_value : float.of_decimal 1 3 = .finite false (8589935 * 2 ^ 116) := by
  decide!

theorem float_match_eq (x y : float) :
    float_match x y =
      ((x.add (.finite true (8589935 * 2 ^ 116))).lt y &&
        y.lt (x.add (.finite false (8589935 * 2 ^ 116)))) := by
  show (decide ((x.sub (float.of_decimal 1 3)).lt y = true) &&
    decide (y.lt (x.add (float.of_decimal 1 3)) = true)) = _
  rw [tolerance_value, Bool.decide_eq_true, Bool.decide_eq_true]
  rfl

/-- On finite numbers `float_match` compares the places of the two rounded
bounds with the exact value of `y`. -/
theorem float_match_finite (s : Bool) (m : Nat) (t : Bool) (n : Nat) :
    ∃ k1 k2 : Int,
      (float_match (.finite s m) (.finite t n) = true ↔
        k1 < float.signed t n ∧ float.signed t n < k2) ∧
      (if float.signed s m - 8589935 * 2 ^ 116 = 0 then float.finite (s && true) 0
        else float.round (decide (float.signed s m - 8589935 * 2 ^ 116 < 0))
          (float.signed s m - 8589935 * 2 ^ 116).natAbs).key = some k1 ∧
      (if float.signed s m + 8589935 * 2 ^ 116 = 0 then float.finite (s && false) 0
        else float.round (decide (float.signed s m + 8589935 * 2 ^ 116 < 0))
          (float.signed s m + 8589935 * 2 ^ 116).natAbs).key = some k2 := by
  obtain ⟨k1, h1, _⟩ := key_of_exact (s && true) (float.signed s m - 8589935 * 2 ^ 116)
  obtain ⟨k2, h2, _⟩ := key_of_exact (s && false) (float.signed s m + 8589935 * 2 ^ 116)
  refine ⟨k1, k2, ?_, h1, h2⟩
  have e1 : (float.finite s m).add (.finite true (8589935 * 2 ^ 116)) =
      (if float.signed s m - 8589935 * 2 ^ 116 = 0 then float.finite (s && true) 0
        else float.round (decide (float.signed s m - 8589935 * 2 ^ 116 < 0))
          (float.signed s m - 8589935 * 2 ^ 116).natAbs) := by
    simp only [float.add, float.signed, if_true, Nat.cast_mul, Nat.cast_ofNat, Nat.cast_pow,
      ← sub_eq_add_neg]
  have e2 : (float.finite s m).add (.finite false (8589935 * 2 ^ 116)) =
      (if float.signed s m + 8589935 * 2 ^ 116 = 0 then float.finite (s && false) 0
        else float.round (decide (float.signed s m + 8589935 * 2 ^ 116 < 0))
          (float.signed s m + 8589935 * 2 ^ 116).natAbs) := by
    simp only [float.add, float.signed, Bool.false_eq_true, if_false, Nat.cast_mul,
      Nat.cast_ofNat, Nat.cast_pow]
  rw [float_match_eq, e1, e2]
  have hy : (float.finite t n).key = some (float.signed t n) := rfl
  simp only [float.lt, h1, h2, hy, Bool.and_eq_true, decide_eq_true_eq]

/-- A match needs two finite numbers. -/
theorem float_match_is_finite (x y : float) (h : float_match x y = true) :
    x.is_finite = true ∧ y.is_finite = true := by
  rw [float_match_eq] at h
  cases x with
  | nan => simp [float.add, float.lt, float.key] at h
  | infinity s =>
    cases y with
    | nan => simp [float.add, float.lt, float.key] at h
    | infinity t =>
      exfalso
      have hP : (0 : Int) < 2 ^ 277 := pow_pos (by decide) 277
      cases s <;> cases t <;>
        simp only [float.add, float.lt, float.key, float.signed, Bool.and_eq_true,
          decide_eq_true_eq, if_true, Bool.false_eq_true, if_false, reduceCtorEq,
          Nat.cast_pow, Nat.cast_ofNat] at h <;>
        omega
    | finite t n =>
      exfalso
      simp only [float.add, float.lt, float.key, Bool.and_eq_true, decide_eq_true_eq] at h
      omega
  | finite s m =>
    cases y with
    | nan =>
      simp only [float.lt, float.key, Bool.and_eq_true] at h
      exact absurd h.2 (by simp)
    | infinity t =>
      exfalso
      obtain ⟨k1, h1, hb1, _⟩ := key_of_exact (s && true) (float.signed s m - 8589935 * 2 ^ 116)
      obtain ⟨k2, h2, hb2, _⟩ := key_of_exact (s && false) (float.signed s m + 8589935 * 2 ^ 116)
      obtain ⟨k1', k2', _, h1', h2'⟩ := float_match_finite s m false 0
      have e1 : (float.finite s m).add (.finite true (8589935 * 2 ^ 116)) =
          (if float.signed s m - 8589935 * 2 ^ 116 = 0 then float.finite (s && true) 0
            else float.round (decide (float.signed s m - 8589935 * 2 ^ 116 < 0))
              (float.signed s m - 8589935 * 2 ^ 116).natAbs) := by
        simp only [float.add, float.signed, if_true, Nat.cast_mul, Nat.cast_ofNat, Nat.cast_pow,
          ← sub_eq_add_neg]
      have e2 : (float.finite s m).add (.finite false (8589935 * 2 ^ 116)) =
          (if float.signed s m + 8589935 * 2 ^ 116 = 0 then float.finite (s && false) 0
            else float.round (decide (float.signed s m + 8589935 * 2 ^ 116 < 0))
              (float.signed s m + 8589935 * 2 ^ 116).natAbs) := by
        simp only [float.add, float.signed, Bool.false_eq_true, if_false, Nat.cast_mul,
          Nat.cast_ofNat, Nat.cast_pow]
      rw [e1, e2] at h
      have hy : (float.infinity t).key = some (float.signed t (2 ^ 277)) := rfl
      simp only [float.lt, h1, h2, hy, Bool.and_eq_true, decide_eq_true_eq] at h
      have h3 : ((2 ^ 277 : Nat) : Int) = 2 ^ 277 := by push_cast; rfl
      cases t
      · simp only [float.signed, Bool.false_eq_true, if_false] at h
        generalize (2 : Int) ^ 277 = P at *
        generalize (2 : Nat) ^ 277 = P2 at *
        omega
      · simp only [float.signed, if_true] at h
        generalize (2 : Int) ^ 277 = P at *
        generalize (2 : Nat) ^ 277 = P2 at *
        omega
    | finite t n => exact ⟨rfl, rfl⟩

/-- A match implies that the exact values differ by less than `0.001f`. -/
theorem float_match_sound_units (s : Bool) (m : Nat) (t : Bool) (n : Nat)
    (hrep : n % 2 ^ (bit_length n - 24) = 0) (hlt : n < 2 ^ 277)
    (h : float_match (.finite s m) (.finite t n) = true) :
    float.signed s m - 8589935 * 2 ^ 116 < float.signed t n ∧
      float.signed t n < float.signed s m + 8589935 * 2 ^ 116 := by
  obtain ⟨k1, h1, _, hge1, _⟩ := key_of_exact (s && true) (float.signed s m - 8589935 * 2 ^ 116)
  obtain ⟨k2, h2, _, _, hle2, _⟩ :=
    key_of_exact (s && false) (float.signed s m + 8589935 * 2 ^ 116)
  obtain ⟨k1', k2', hiff, h1', h2'⟩ := float_match_finite s m t n
  have hk1 : k1' = k1 := Option.some.inj (h1'.symm.trans h1)
  have hk2 : k2' = k2 := Option.some.inj (h2'.symm.trans h2)
  subst hk1 hk2
  have hm := hiff.1 h
  constructor
  · by_contra hc
    have := hge1 t n hrep hlt (by omega)
    omega
  · by_contra hc
    have := hle2 t n hrep hlt (by omega)
    omega

theorem float.to_rat_finite (s : Bool) (m : Nat) :
    (float.finite s m).to_rat = (float.signed s m : ℚ) / 2 ^ 149 := rfl

theorem float.eq_finite_of_is_finite (x : float) (h : x.is_finite = true) :
    ∃ s m, x = .finite s m := by
  cases x with
  | finite s m => exact ⟨s, m, rfl⟩
  | infinity s => simp [float.is_finite] at h
  | nan => simp [float.is_finite] at h

theorem float.representable_finite (s : Bool) (m : Nat)
    (h : (float.finite s m).representable = true) :
    m % 2 ^ (bit_length m - 24) = 0 ∧ m < 2 ^ 277 := by
  simpa only [float.representable, decide_eq_true_eq] using h

theorem tolerance_units : (8589935 : ℚ) / 2 ^ 33 * 2 ^ 149 = ((8589935 * 2 ^ 116 : ℤ) : ℚ) := by
  rw [Int.cast_mul, Int.cast_pow, show (149 : ℕ) = 33 + 116 from rfl, pow_add]
  simp only [Int.cast_ofNat]
  field_simp
  ring

/-- The distance of two finite numbers, in units. -/
theorem abs_to_rat_sub (s : Bool) (m : Nat) (t : Bool) (n : Nat) :
    |(float.finite s m).to_rat - (float.finite t n).to_rat| * 2 ^ 149 =
      ((|float.signed s m - float.signed t n| : ℤ) : ℚ) := by
  have hD : (0 : ℚ) < 2 ^ 149 := by positivity
  rw [float.to_rat_finite, float.to_rat_finite, ← sub_div, abs_div, abs_of_pos hD,
    div_mul_cancel₀ _ (ne_of_gt hD)]
  push_cast
  rfl

/-- A match implies two finite numbers less than `0.001f` apart. -/
theorem float_match_sound (x y : float) (hy : y.representable = true)
    (h : float_match x y = true) :
    x.is_finite = true ∧ y.is_finite = true ∧ |x.to_rat - y.to_rat| < 8589935 / 2 ^ 33 := by
  obtain ⟨hfx, hfy⟩ := float_match_is_finite x y h
  refine ⟨hfx, hfy, ?_⟩
  obtain ⟨s, m, rfl⟩ := float.eq_finite_of_is_finite x hfx
  obtain ⟨t, n, rfl⟩ := float.eq_finite_of_is_finite y hfy
  obtain ⟨hrep, hlt⟩ := float.representable_finite t n hy
  have hu := float_match_sound_units s m t n hrep hlt h
  have hD : (0 : ℚ) < 2 ^ 149 := by positivity
  rw [← mul_lt_mul_right hD, abs_to_rat_sub, tolerance_units, Int.cast_lt, abs_lt]
  constructor <;> omega

/-- The matcher holds exactly when every integer field agrees, all four
slots of `int_args` included, and `float_match` holds in all four slots of
`value`. -/
theorem events_match_iff (a b : event) :
    events_match a b = true ↔
      (a.func = b.func ∧ a.event_type = b.event_type ∧ a.type_code = b.type_code ∧
        a.bits = b.bits ∧ a.width = b.width ∧ a.value_index = b.value_index ∧
        a.num_int_args = b.num_int_args) ∧
      (∀ i : Fin 4, a.int_args i = b.int_args i) ∧
      (∀ i : Fin 4, float_match (a.value i) (b.value i) = true) := by
  simp only [events_match, Bool.and_eq_true, decide_eq_true_eq, Fin.forall_fin_succ,
    Fin.forall_fin_zero_pi, IsEmpty.forall_iff, and_true]
  constructor
  · rintro ⟨⟨⟨⟨⟨⟨⟨⟨⟨⟨⟨⟨⟨⟨h1, h2⟩, h3⟩, h4⟩, h5⟩, h6⟩, h7⟩, h8⟩, h9⟩, h10⟩, h11⟩, h12⟩, h13⟩,
      h14⟩, h15⟩
    exact ⟨⟨h1, h2, h3, h4, h5, h6, h7⟩, ⟨h8, h9, h10, h11⟩, ⟨h12, h13, h14, h15⟩⟩
  · rintro ⟨⟨h1, h2, h3, h4, h5, h6, h7⟩, ⟨h8, h9, h10, h11⟩, ⟨h12, h13, h14, h15⟩⟩
    exact ⟨⟨⟨⟨⟨⟨⟨⟨⟨⟨⟨⟨⟨⟨h1, h2⟩, h3⟩, h4⟩, h5⟩, h6⟩, h7⟩, h8⟩, h9⟩, h10⟩, h11⟩, h12⟩, h13⟩,
      h14⟩, h15⟩

set_option maxRecDepth 100000 in
/-- C20 (as stated, refuted). Two events that agree on every integer field,
have width 0 and differ only in the padding slot `value[3]`, by more than
0.001, match: the difference is below `0.001f`. -/
theorem padding_above_tolerance_matches :
    ({ event.zero with value := ![0, 0, 0, .finite true (16719477 * 2 ^ 113)] } : event).width = 0 ∧
    (float.finite true (16719477 * 2 ^ 113)).representable = true ∧
    (float.finite false (13000000 * 2 ^ 115)).representable = true ∧
    1 / 1000 ≤ |(float.finite true (16719477 * 2 ^ 113)).to_rat
      - (float.finite false (13000000 * 2 ^ 115)).to_rat| ∧
    events_match { event.zero with value := ![0, 0, 0, .finite true (16719477 * 2 ^ 113)] }
      { event.zero with value := ![0, 0, 0, .finite false (13000000 * 2 ^ 115)] } = true := by
  refine ⟨rfl, by decide!, by decide!, ?_, by decide!⟩
  rw [float.to_rat_finite, float.to_rat_finite]
  simp only [float.signed, Bool.false_eq_true, if_false, if_true]
  norm_num [le_abs]

/-- C20 (amended). Whatever `num_int_args` and `width` say, all four slots of
`int_args` and of `value` are compared: two events whose `int_args` differ in
a slot at or beyond `num_int_args` do not match, and two events whose values
in a slot at or beyond `width` are `0.001f` (`8589935 * 2 ^ (-33)`) or more
apart, or not both finite, do not match. -/
theorem padding_slots_compared (a b : event) (i : Fin 4) :
    (a.num_int_args ≤ i.val → a.int_args i ≠ b.int_args i → events_match a b = false) ∧
    (a.width ≤ i.val → (b.value i).representable = true →
      8589935 / 2 ^ 33 ≤ |(a.value i).to_rat - (b.value i).to_rat| →
      events_match a b = false) ∧
    (a.width ≤ i.val → (a.value i).is_finite = false ∨ (b.value i).is_finite = false →
      events_match a b = false) := by
  refine ⟨?_, ?_, ?_⟩
  · intro _ hi
    cases h : events_match a b with
    | false => rfl
    | true => exact absurd (((events_match_iff a b).1 h).2.1 i) hi
  · intro _ hrep hd
    cases h : events_match a b with
    | false => rfl
    | true =>
      have hm := ((events_match_iff a b).1 h).2.2 i
      exact absurd (float_match_sound _ _ hrep hm).2.2 (not_lt.2 hd)
  · intro _ hf
    cases h : events_match a b with
    | false => rfl
    | true =>
      have hm := ((events_match_iff a b).1 h).2.2 i
      have hfin := float_match_is_finite _ _ hm
      rcases hf with hf | hf
      · rw [hfin.1] at hf
        cases hf
      · rw [hfin.2] at hf
        cases hf

set_option maxRecDepth 100000 in
/-- C20 (amended) at two zeroed events of width 0 whose `value[3]` are 0 and
0.25. -/
theorem padding_slots_compared_witness :
    (event.zero.width ≤ ((3 : Fin 4).val : Int)) ∧
    events_match event.zero
      { event.zero with value := ![0, 0, 0, .finite false (2 ^ 147)] } = false :=
  ⟨by decide,
    (padding_slots_compared event.zero
      { event.zero with value := ![0, 0, 0, .finite false (2 ^ 147)] } 3).2.1
      (by decide) (by decide!)
      (by
        show (8589935 : ℚ) / 2 ^ 33 ≤ |(float.finite false 0).to_rat
          - (float.finite false (2 ^ 147)).to_rat|
        rw [float.to_rat_finite, float.to_rat_finite]
        simp only [float.signed, Bool.false_eq_true, if_false]
        norm_num [le_abs])⟩

/-! ## Printing an event -/

/-- C18 (what the code does). The table of kind names has eight entries,
indices 0 to 7, and the range assertion of `print_event` lets the kind 8
through: for an event of kind 8 that passes both assertions the lookup
`event_types[e.event_type]` is outside the table. -/
theorem print_event_reads_past_table :
    event_types.length = 8 ∧
    (∀ e : event, e.num_int_args ≤ 4 → e.width ≤ 4 → e.event_type = 8 →
      (e.event_type ≥ 0 ∧ e.event_type ≤ 8) ∧ event_types[e.event_type.toNat]? = none) ∧
    ∀ (fmtf : float → String) (out : String),
      print_event fmtf { event.zero with event_type := 8 } out = .error .out_of_bounds := by
  refine ⟨rfl, ?_, ?_⟩
  · intro e _ _ h8
    rw [h8]
    exact ⟨by decide, by decide⟩
  · intro fmtf out
    rfl

/-! ## The golden trace -/

/-- C19 (as stated, refuted). The realization events of buffer `g` in the
golden trace are BeginRealization, then three times Produce, Consume,
EndConsume, then EndRealization: a Produce follows an EndConsume, so they do
not run through the lifecycle once. -/
theorem golden_trace_not_single_pass :
    g_kinds correct_trace = [2, 4, 6, 7, 4, 6, 7, 4, 6, 7, 3] ∧
      in_lifecycle_order false .start (g_kinds correct_trace) = false := by
  constructor <;> decide

/-- C19 (amended). In the golden trace the realization events of buffer `g`
are a BeginRealization, then one or more rounds of Produce, any number of
Updates, Consume, EndConsume, then EndRealization; and every Load or Store
event of the trace comes while the last realization event of `g` is a Produce,
an Update or a Consume. -/
theorem golden_trace_lifecycle :
    in_lifecycle_order true .start (g_kinds correct_trace) = true ∧
      loads_stores_inside none correct_trace = true := by
  constructor <;> decide

/-! ## The trace callback -/

theorem store4_apply {α : Type} (arr : Fin 4 → α) (j : Nat) (v : α) (i : Fin 4) :
    store4 arr j v i = if i.val = j then v else arr i := by
  unfold store4
  split
  · rename_i hj
    by_cases hij : i = ⟨j, hj⟩
    · subst hij
      simp
    · have hne : ¬ i.val = j := fun h => hij (Fin.ext h)
      rw [Function.update_noteq hij, if_neg hne]
  · rename_i hj
    have hne : ¬ i.val = j := by omega
    rw [if_neg hne]

theorem foldl_store4 {α : Type} (src : Nat → α) (arr0 : Fin 4 → α) (k : Nat) (i : Fin 4) :
    ((List.range k).foldl (fun arr j => store4 arr j (src j)) arr0) i
      = if i.val < k then src i.val else arr0 i := by
  induction k with
  | zero => simp
  | succ k ih =>
    rw [List.range_succ, List.foldl_append]
    simp only [List.foldl_cons, List.foldl_nil]
    rw [store4_apply, ih]
    by_cases h1 : i.val = k
    · have h2 : i.val < k + 1 := by omega
      rw [if_pos h1, if_pos h2, h1]
    · rw [if_neg h1]
      by_cases h3 : i.val < k
      · rw [if_pos h3, if_pos (by omega)]
      · rw [if_neg h3, if_neg (by omega)]

/-- C17 (recorded event shape). For a name that starts with the character
`c`, at most four integer arguments and at most four lanes, the record
`my_trace` builds has `c` as its identifier whatever the rest of the name is,
the scalar arguments in its scalar fields, the integer arguments in the first
`num_int_args` slots of `int_args` and the floats in the first `width` slots
of `value`, zero in the other slots; and whenever the sink has room, that
record is what `my_trace` stores at position `n_trace`. -/
theorem recorded_event_shape (c : Char) (cs : List Char)
    (event_type type_code bits width value_index : Int) (value : Nat → float)
    (num_int_args : Int) (int_args : Nat → Int)
    (h1 : num_int_args ≤ 4) (h2 : width ≤ 4) :
    let e := my_trace_event (String.mk (c :: cs)) event_type type_code bits width value_index
      value num_int_args int_args
    (e.func = c ∧ e.event_type = event_type ∧ e.type_code = type_code ∧ e.bits = bits ∧
      e.width = width ∧ e.value_index = value_index ∧ e.num_int_args = num_int_args) ∧
    (∀ i : Fin 4, e.int_args i = if (i.val : Int) < num_int_args then int_args i.val else 0) ∧
    (∀ i : Fin 4, e.value i = if (i.val : Int) < width then value i.val else 0) ∧
    (∀ s : Sink, ∀ h : 0 ≤ s.n_trace ∧ s.n_trace < 1024,
      ∃ s2 : Sink,
        my_trace (String.mk (c :: cs)) event_type type_code bits width value_index value
          num_int_args int_args s = .ok s2 ∧
        s2.trace ⟨s.n_trace.toNat, by omega⟩ = e) := by
  intro e
  refine ⟨⟨rfl, rfl, rfl, rfl, rfl, rfl, rfl⟩, ?_, ?_, ?_⟩
  · intro i
    show ((List.range num_int_args.toNat).foldl (fun arr j => store4 arr j (int_args j))
      event.zero.int_args) i = _
    rw [foldl_store4]
    have : (i.val < num_int_args.toNat) ↔ ((i.val : Int) < num_int_args) := by omega
    simp only [this]
    rfl
  · intro i
    show ((List.range width.toNat).foldl (fun arr j => store4 arr j (value j))
      event.zero.value) i = _
    rw [foldl_store4]
    have : (i.val < width.toNat) ↔ ((i.val : Int) < width) := by omega
    simp only [this]
    rfl
  · intro s h
    have hassert : ¬ ¬ (num_int_args ≤ 4 ∧ width ≤ 4) := not_not.2 ⟨h1, h2⟩
    refine ⟨⟨Function.update s.trace ⟨s.n_trace.toNat, by omega⟩ e, s.n_trace + 1⟩, ?_, ?_⟩
    · simp only [my_trace, if_neg hassert, dif_pos h]
    · exact Function.update_same _ _ _

/-- C17 at a Store event of `g` with four integer arguments and four lanes. -/
theorem recorded_event_shape_witness :
    (4 : Int) ≤ 4 ∧ (4 : Int) ≤ 4 ∧
      (my_trace_event (String.mk ['g']) 1 2 32 4 0 (fun _ => 0) 4 (fun i => i)).func = 'g' :=
  ⟨by decide, by decide,
    (recorded_event_shape 'g' [] 1 2 32 4 0 (fun _ => 0) 4 (fun i => i) (by decide)
      (by decide)).1.1⟩

/-- C15 (as stated, refuted). The sink is the array `trace[1024]`: with 1024
events recorded there is no position 1024, and an invocation that passes the
assertion ends outside the array instead of storing its event. -/
theorem sink_is_bounded :
    ((0 : Int) ≤ 4 ∧ (1 : Int) ≤ 4) ∧
      my_trace "g" 1 2 32 1 0 (fun _ => 0) 0 (fun _ => 0) ⟨fun _ => event.zero, 1024⟩
        = .error .out_of_bounds := by
  refine ⟨by decide, ?_⟩
  rfl

/-- C15 (amended). While fewer than 1024 events are recorded, an invocation
with at most four integer arguments and at most four lanes stores its event at
position `n_trace`, leaves every other position as it was, and increases the
count by one: the recorded sequence grows by the new event at its end. -/
theorem sink_append (s : Sink) (function : String)
    (event_type type_code bits width value_index : Int) (value : Nat → float)
    (num_int_args : Int) (int_args : Nat → Int)
    (h1 : num_int_args ≤ 4) (h2 : width ≤ 4) (hn : 0 ≤ s.n_trace ∧ s.n_trace < 1024) :
    ∃ s2 : Sink,
      my_trace function event_type type_code bits width value_index value num_int_args
        int_args s = .ok s2 ∧
      s2.n_trace = s.n_trace + 1 ∧
      s2.trace ⟨s.n_trace.toNat, by omega⟩
        = my_trace_event function event_type type_code bits width value_index value
            num_int_args int_args ∧
      (∀ j : Fin 1024, j.val ≠ s.n_trace.toNat → s2.trace j = s.trace j) ∧
      s2.recorded = s.recorded
        ++ [my_trace_event function event_type type_code bits width value_index value
            num_int_args int_args] := by
  have hassert : ¬ ¬ (num_int_args ≤ 4 ∧ width ≤ 4) := not_not.2 ⟨h1, h2⟩
  refine ⟨⟨Function.update s.trace ⟨s.n_trace.toNat, by omega⟩
    (my_trace_event function event_type type_code bits width value_index value
      num_int_args int_args), s.n_trace + 1⟩, ?_, rfl, Function.update_same _ _ _, ?_, ?_⟩
  · simp only [my_trace, if_neg hassert, dif_pos hn]
  · intro j hj
    exact Function.update_noteq (fun h => hj (by rw [h])) _ _
  · have hk : (s.n_trace + 1).toNat = s.n_trace.toNat + 1 := by omega
    have hlt : s.n_trace.toNat < 1024 := by omega
    simp only [Sink.recorded, hk, List.range_succ, List.map_append, List.map_cons,
      List.map_nil]
    congr 1
    · apply List.map_congr_left
      intro i hi
      have hi2 : i < s.n_trace.toNat := List.mem_range.1 hi
      have hi3 : i < 1024 := by omega
      simp only [Sink.read, dif_pos hi3]
      exact Function.update_noteq (fun h => by
        have := congrArg Fin.val h
        simp at this
        omega) _ _
    · simp only [Sink.read, dif_pos hlt]
      rw [Function.update_same]

/-- C15 (amended) at the first invocation on the empty sink. -/
theorem sink_append_witness :
    ((0 : Int) ≤ 4 ∧ (1 : Int) ≤ 4 ∧ (0 : Int) ≤ Sink.initial.n_trace ∧
        Sink.initial.n_trace < 1024) ∧
      ∃ s2 : Sink,
        my_trace "g" 2 0 32 1 0 (fun _ => 0) 0 (fun _ => 0) Sink.initial = .ok s2 ∧
        s2.n_trace = Sink.initial.n_trace + 1 :=
  ⟨by decide,
    let ⟨s2, h1, h2, _⟩ := sink_append Sink.initial "g" 2 0 32 1 0 (fun _ => 0) 0
      (fun _ => 0) (by decide) (by decide) (by decide)
    ⟨s2, h1, h2⟩⟩

/-! ## The comparison in `main` -/

theorem foldl_sep_append (g : Nat → String) (l : List Nat) :
    ∀ a b : String,
      l.foldl (fun out i => (if i > 0 then out ++ ", " else out) ++ g i) (a ++ b)
        = a ++ l.foldl (fun out i => (if i > 0 then out ++ ", " else out) ++ g i) b := by
  induction l with
  | nil => intro a b; rfl
  | cons x xs ih =>
    intro a b
    simp only [List.foldl_cons]
    have : (if x > 0 then a ++ b ++ ", " else a ++ b) ++ g x
        = a ++ ((if x > 0 then b ++ ", " else b) ++ g x) := by
      split <;> simp only [String.append_assoc]
    rw [this, ih]

/-- What `print_event` does not depend on the text written before: it faults
or not as on an empty text, and appends the same line. -/
theorem print_event_append (fmtf : float → String) (e : event) (out : String) :
    print_event fmtf e out = (print_event fmtf e "").map (fun line => out ++ line) := by
  unfold print_event
  split
  · rfl
  · split
    · rfl
    · cases event_types[e.event_type.toNat]? with
      | none => rfl
      | some name =>
        simp only [Except.map, String.empty_append]
        congr 1
        simp only [foldl_sep_append, String.append_assoc]

theorem print_event_printable (fmtf : float → String) (e : event) (h : printable e)
    (out : String) : print_event fmtf e out = .ok (out ++ event_line fmtf e) := by
  obtain ⟨h1, h2, h3, h4⟩ := h
  have hk : e.event_type.toNat < event_types.length := by
    have : event_types.length = 8 := rfl
    omega
  have hlook : event_types[e.event_type.toNat]? = some event_types[e.event_type.toNat] :=
    List.getElem?_eq_getElem hk
  have hok : ∃ line, print_event fmtf e "" = .ok line := by
    unfold print_event
    rw [if_neg (not_not.2 ⟨h1, h2⟩), if_neg (not_not.2 ⟨h3, by omega⟩), hlook]
    exact ⟨_, rfl⟩
  obtain ⟨line, hline⟩ := hok
  rw [print_event_append, event_line, hline]
  rfl

theorem print_marked_printable (fmtf : float → String) (i : Nat) (events : List event) :
    (∀ e ∈ events, printable e) →
      ∀ (j : Nat) (out : String),
        print_marked fmtf i j events out = (out ++ marked_lines fmtf i j events, none) := by
  induction events with
  | nil => intro _ j out; simp [print_marked, marked_lines]
  | cons e rest ih =>
    intro hp j out
    have he := hp e (by simp)
    have hr := ih (fun x hx => hp x (by simp [hx])) (j + 1)
    simp only [print_marked, marked_lines, print_event_printable fmtf e he, hr]
    split <;> simp only [String.append_assoc, String.empty_append]

/-- The text of a complete report of a difference at index `i`. -/
theorem report_printable (fmtf : float → String) (trace correct_trace : List event) (i : Nat)
    (hp : ∀ e ∈ trace ++ correct_trace, printable e) :
    report fmtf trace correct_trace i =
      ⟨"Traces differs at event " ++ intText i ++ ":\n"
        ++ "-------------------------------\n"
        ++ "Correct trace:\n"
        ++ marked_lines fmtf i 0 correct_trace
        ++ "-------------------------------\n"
        ++ "Trace encountered:\n"
        ++ marked_lines fmtf i 0 trace
        ++ "-------------------------------\n", .returned (-1)⟩ := by
  have hc := print_marked_printable fmtf i correct_trace
    (fun e he => hp e (List.mem_append.2 (Or.inr he))) 0
  have ht := print_marked_printable fmtf i trace
    (fun e he => hp e (List.mem_append.2 (Or.inl he))) 0
  simp only [report, hc, ht]

theorem compare_loop_eq (fmtf : float → String) (trace correct_trace : List event)
    (as : List event) :
    ∀ (bs : List event) (i : Nat),
      compare_loop fmtf trace correct_trace i as bs =
        match first_mismatch as bs with
        | some d => report fmtf trace correct_trace (i + d)
        | none => ⟨"Success!\n", .returned 0⟩ := by
  induction as with
  | nil => intro bs i; simp [compare_loop, first_mismatch]
  | cons a rest ih =>
    intro bs i
    cases bs with
    | nil => simp [compare_loop, first_mismatch]
    | cons b bs2 =>
      simp only [compare_loop, first_mismatch]
      cases hm : events_match a b with
      | false => simp
      | true =>
        simp only [Bool.not_true, Bool.false_eq_true, if_false, if_true, ih]
        cases first_mismatch rest bs2 with
        | none => simp
        | some d => simp [Nat.add_assoc, Nat.add_comm 1 d]

theorem first_mismatch_none (as : List event) :
    ∀ bs : List event,
      first_mismatch as bs = none ↔ ∀ p ∈ as.zip bs, events_match p.1 p.2 = true := by
  induction as with
  | nil => intro bs; simp [first_mismatch]
  | cons a rest ih =>
    intro bs
    cases bs with
    | nil => simp [first_mismatch]
    | cons b bs2 =>
      simp only [first_mismatch, List.zip_cons_cons, List.mem_cons, forall_eq_or_imp]
      cases hm : events_match a b with
      | false => simp
      | true => simp [ih bs2]

theorem first_mismatch_least (as : List event) :
    ∀ (bs : List event) (i : Nat) (a b : event),
      as[i]? = some a → bs[i]? = some b → events_match a b = false →
      (∀ j, j < i → ∀ a2 b2, as[j]? = some a2 → bs[j]? = some b2 →
        events_match a2 b2 = true) →
      first_mismatch as bs = some i := by
  induction as with
  | nil => intro bs i a b ha; simp at ha
  | cons x rest ih =>
    intro bs i a b ha hb hm hlt
    cases bs with
    | nil => simp at hb
    | cons y bs2 =>
      cases i with
      | zero =>
        simp only [List.getElem?_cons_zero, Option.some.injEq] at ha hb
        subst ha hb
        simp [first_mismatch, hm]
      | succ k =>
        simp only [List.getElem?_cons_succ] at ha hb
        have h0 := hlt 0 (Nat.succ_pos k) x y (by simp) (by simp)
        have hrec := ih bs2 k a b ha hb hm (fun j hj a2 b2 h1 h2 =>
          hlt (j + 1) (Nat.succ_lt_succ hj) a2 b2 (by simpa using h1) (by simpa using h2))
        simp [first_mismatch, h0, hrec]

theorem print_event_extends (fmtf : float → String) (e : event) (out out2 : String)
    (h : print_event fmtf e out = .ok out2) : ∃ rest, out2 = out ++ rest := by
  rw [print_event_append] at h
  cases hl : print_event fmtf e "" with
  | error f => rw [hl] at h; cases h
  | ok line =>
    rw [hl] at h
    simp only [Except.map, Except.ok.injEq] at h
    exact ⟨line, h.symm⟩

theorem print_marked_extends (fmtf : float → String) (i : Nat) (events : List event) :
    ∀ (j : Nat) (out : String),
      ∃ rest, (print_marked fmtf i j events out).1 = out ++ rest := by
  induction events with
  | nil => intro j out; exact ⟨"", by simp [print_marked]⟩
  | cons e rest ih =>
    intro j out
    simp only [print_marked]
    cases hp : print_event fmtf e (if j = i then out ++ " ===> " else out) with
    | error f =>
      by_cases hj : j = i
      · exact ⟨" ===> ", by simp [hj]⟩
      · exact ⟨"", by simp [hj]⟩
    | ok out2 =>
      obtain ⟨r1, h1⟩ := print_event_extends fmtf e _ out2 hp
      obtain ⟨r2, h2⟩ := ih (j + 1) out2
      refine ⟨(if j = i then " ===> " else "") ++ r1 ++ r2, ?_⟩
      rw [h2, h1]
      split <;> simp only [String.append_assoc, String.empty_append]

/-- Every report opens with the line naming the index and never returns 0. -/
theorem report_header (fmtf : float → String) (trace correct_trace : List event) (i : Nat) :
    (∃ rest, (report fmtf trace correct_trace i).stdout =
        "Traces differs at event " ++ intText i ++ ":\n" ++ rest) ∧
      (report fmtf trace correct_trace i).exit ≠ .returned 0 := by
  obtain ⟨r1, h1⟩ := print_marked_extends fmtf i correct_trace 0
    ("Traces differs at event " ++ intText i ++ ":\n"
      ++ "-------------------------------\n" ++ "Correct trace:\n")
  rcases hc : print_marked fmtf i 0 correct_trace
    ("Traces differs at event " ++ intText i ++ ":\n"
      ++ "-------------------------------\n" ++ "Correct trace:\n") with ⟨out1, f1⟩
  rw [hc] at h1
  simp only at h1
  subst h1
  cases f1 with
  | some fault =>
    simp only [report, hc]
    exact ⟨⟨"-------------------------------\n" ++ "Correct trace:\n" ++ r1,
      by simp only [String.append_assoc]⟩, by simp⟩
  | none =>
    obtain ⟨r2, h2⟩ := print_marked_extends fmtf i trace 0
      ("Traces differs at event " ++ intText i ++ ":\n"
        ++ "-------------------------------\n" ++ "Correct trace:\n" ++ r1
        ++ "-------------------------------\n" ++ "Trace encountered:\n")
    rcases ht : print_marked fmtf i 0 trace
      ("Traces differs at event " ++ intText i ++ ":\n"
        ++ "-------------------------------\n" ++ "Correct trace:\n" ++ r1
        ++ "-------------------------------\n" ++ "Trace encountered:\n") with ⟨out2, f2⟩
    rw [ht] at h2
    simp only at h2
    subst h2
    cases f2 with
    | some fault =>
      simp only [report, hc, ht]
      exact ⟨⟨"-------------------------------\n" ++ "Correct trace:\n" ++ r1
        ++ "-------------------------------\n" ++ "Trace encountered:\n" ++ r2,
        by simp only [String.append_assoc]⟩, by simp⟩
    | none =>
      simp only [report, hc, ht]
      exact ⟨⟨"-------------------------------\n" ++ "Correct trace:\n" ++ r1
        ++ "-------------------------------\n" ++ "Trace encountered:\n" ++ r2
        ++ "-------------------------------\n",
        by simp only [String.append_assoc]⟩, by simp⟩

/-! ## The report of a mismatch -/

theorem marked_lines_passed (fmtf : float → String) (i : Nat) (l : List event) :
    ∀ j : Nat, i < j → marked_lines fmtf i j l = event_lines fmtf l := by
  induction l with
  | nil => intro j _; rfl
  | cons e rest ih =>
    intro j hj
    have hne : ¬ j = i := by omega
    simp only [marked_lines, event_lines, if_neg hne, String.empty_append,
      ih (j + 1) (by omega)]

/-- The marked lines of a list are its lines with the marker put before the
line of index `i`. -/
theorem marked_lines_split (fmtf : float → String) (i : Nat) (l : List event) :
    ∀ j : Nat, j ≤ i → i - j < l.length →
      marked_lines fmtf i j l =
        event_lines fmtf (l.take (i - j)) ++ " ===> " ++ event_lines fmtf (l.drop (i - j)) := by
  induction l with
  | nil => intro j _ h; simp at h
  | cons e rest ih =>
    intro j hj hlen
    by_cases hji : j = i
    · subst hji
      simp only [marked_lines, if_true, Nat.sub_self, List.take_zero, List.drop_zero,
        event_lines, String.empty_append, marked_lines_passed fmtf j rest (j + 1) (by omega),
        String.append_assoc]
    · have hlt : j < i := by omega
      have hs : i - j = (i - (j + 1)) + 1 := by omega
      have hlen2 : i - (j + 1) < rest.length := by
        simp only [List.length_cons] at hlen
        omega
      rw [hs, List.take_succ_cons, List.drop_succ_cons]
      simp only [marked_lines, if_neg hji, String.empty_append, event_lines,
        ih (j + 1) (by omega) hlen2, String.append_assoc]

/-- An event that matches a printable one is printable. -/
theorem printable_of_match (a b : event) (h : events_match a b = true) (hb : printable b) :
    printable a := by
  obtain ⟨⟨_, h2, _, _, h5, _, h7⟩, _, _⟩ := (events_match_iff a b).1 h
  unfold printable at hb ⊢
  rw [h2, h5, h7]
  exact hb

/-- The loop over a sequence whose events before index `i` are printable
writes their lines and the marker, whatever comes after. -/
theorem print_marked_prefix (fmtf : float → String) (i : Nat) (l : List event) :
    ∀ (j : Nat) (out : String), j ≤ i → i - j < l.length →
      (∀ e ∈ l.take (i - j), printable e) →
      ∃ rest, (print_marked fmtf i j l out).1 =
        out ++ event_lines fmtf (l.take (i - j)) ++ " ===> " ++ rest := by
  induction l with
  | nil => intro j out _ h; simp at h
  | cons e rest ih =>
    intro j out hj hlen hp
    by_cases hji : j = i
    · subst hji
      obtain ⟨r, hr⟩ := print_marked_extends fmtf j (e :: rest) j out
      simp only [Nat.sub_self, List.take_zero, event_lines, String.append_empty]
      simp only [print_marked, if_true] at hr ⊢
      cases hpe : print_event fmtf e (out ++ " ===> ") with
      | error f => exact ⟨"", by simp⟩
      | ok out2 =>
        obtain ⟨r1, h1⟩ := print_event_extends fmtf e _ out2 hpe
        obtain ⟨r2, h2⟩ := print_marked_extends fmtf j rest (j + 1) out2
        refine ⟨r1 ++ r2, ?_⟩
        rw [h2, h1]
        simp only [String.append_assoc]
    · have hlt : j < i := by omega
      have hs : i - j = (i - (j + 1)) + 1 := by omega
      have hlen2 : i - (j + 1) < rest.length := by
        simp only [List.length_cons] at hlen
        omega
      rw [hs, List.take_succ_cons] at hp ⊢
      have he : printable e := hp e (by simp)
      obtain ⟨r, hr⟩ := ih (j + 1) (out ++ event_line fmtf e) (by omega) hlen2
        (fun x hx => hp x (by simp [hx]))
      refine ⟨r, ?_⟩
      simp only [print_marked, if_neg hji, print_event_printable fmtf e he, hr, event_lines,
        String.append_assoc]

/-- The report of a difference at index `i` against a printable golden
sequence, when the recorded events before `i` are printable: it does not
return 0, and it writes the heading, the golden sequence with the marker
before line `i`, and the recorded sequence up to the marker before line
`i`. -/
theorem report_marks_both (fmtf : float → String) (trace correct_trace : List event) (i : Nat)
    (hg : ∀ e ∈ correct_trace, printable e) (hi : i < trace.length)
    (hi2 : i < correct_trace.length) (hp : ∀ e ∈ trace.take i, printable e) :
    (report fmtf trace correct_trace i).exit ≠ .returned 0 ∧
    ∃ rest, (report fmtf trace correct_trace i).stdout =
      "Traces differs at event " ++ intText i ++ ":\n"
        ++ "-------------------------------\n"
        ++ "Correct trace:\n"
        ++ event_lines fmtf (correct_trace.take i) ++ " ===> "
        ++ event_lines fmtf (correct_trace.drop i)
        ++ "-------------------------------\n"
        ++ "Trace encountered:\n"
        ++ event_lines fmtf (trace.take i) ++ " ===> " ++ rest := by
  refine ⟨(report_header fmtf trace correct_trace i).2, ?_⟩
  have hc := print_marked_printable fmtf i correct_trace hg 0
  have hsplit := marked_lines_split fmtf i correct_trace 0 (Nat.zero_le i) (by simpa using hi2)
  rw [Nat.sub_zero] at hsplit
  obtain ⟨r, hr⟩ := print_marked_prefix fmtf i trace 0
    ("Traces differs at event " ++ intText i ++ ":\n"
      ++ "-------------------------------\n"
      ++ "Correct trace:\n"
      ++ marked_lines fmtf i 0 correct_trace
      ++ "-------------------------------\n"
      ++ "Trace encountered:\n") (Nat.zero_le i) (by simpa using hi) (by simpa using hp)
  rw [Nat.sub_zero] at hr
  rcases ht : print_marked fmtf i 0 trace
    ("Traces differs at event " ++ intText i ++ ":\n"
      ++ "-------------------------------\n"
      ++ "Correct trace:\n"
      ++ marked_lines fmtf i 0 correct_trace
      ++ "-------------------------------\n"
      ++ "Trace encountered:\n") with ⟨out2, f2⟩
  rw [ht] at hr
  simp only at hr
  subst hr
  cases f2 with
  | some fault =>
    refine ⟨r, ?_⟩
    simp only [report, hc, ht]
    simp only [hsplit, String.append_assoc]
  | none =>
    refine ⟨r ++ "-------------------------------\n", ?_⟩
    simp only [report, hc, ht]
    simp only [hsplit, String.append_assoc]

/-- The full report when every event of both sequences is printable. -/
theorem report_full (fmtf : float → String) (trace correct_trace : List event) (i : Nat)
    (hp : ∀ e ∈ trace ++ correct_trace, printable e) (hi : i < trace.length)
    (hi2 : i < correct_trace.length) :
    report fmtf trace correct_trace i =
      ⟨"Traces differs at event " ++ intText i ++ ":\n"
        ++ "-------------------------------\n"
        ++ "Correct trace:\n"
        ++ event_lines fmtf (correct_trace.take i) ++ " ===> "
        ++ event_lines fmtf (correct_trace.drop i)
        ++ "-------------------------------\n"
        ++ "Trace encountered:\n"
        ++ event_lines fmtf (trace.take i) ++ " ===> " ++ event_lines fmtf (trace.drop i)
        ++ "-------------------------------\n", .returned (-1)⟩ := by
  have h1 := marked_lines_split fmtf i correct_trace 0 (Nat.zero_le i) (by simpa using hi2)
  have h2 := marked_lines_split fmtf i trace 0 (Nat.zero_le i) (by simpa using hi)
  rw [Nat.sub_zero] at h1 h2
  rw [report_printable fmtf trace correct_trace i hp, h1, h2]
  simp only [String.append_assoc]

/-- The recorded events before the first mismatch against a printable golden
sequence are printable. -/
theorem printable_before_mismatch (trace correct_trace : List event) (i : Nat)
    (hg : ∀ e ∈ correct_trace, printable e) (hlen : trace.length = correct_trace.length)
    (hlt : ∀ j, j < i → ∀ a2 b2, (trace)[j]? = some a2 → (correct_trace)[j]? = some b2 →
      events_match a2 b2 = true) :
    ∀ e ∈ trace.take i, printable e := by
  intro e he
  obtain ⟨j, hj, hje⟩ := List.mem_iff_getElem.1 he
  rw [List.length_take] at hj
  have hj1 : j < i := by omega
  have hj2 : j < trace.length := by omega
  have hj3 : j < correct_trace.length := by omega
  rw [List.getElem_take] at hje
  have ha : (trace)[j]? = some e := by
    rw [List.getElem?_eq_getElem hj2, hje]
  have hb : (correct_trace)[j]? = some (correct_trace[j]) := List.getElem?_eq_getElem hj3
  exact printable_of_match e _ (hlt j hj1 e _ ha hb) (hg _ (List.getElem_mem hj3))

theorem correct_trace_printable : ∀ e ∈ correct_trace, printable e := by
  intro e he
  simp only [correct_trace, List.mem_cons, List.mem_singleton, List.mem_nil_iff, or_false] at he
  unfold printable
  rcases he with h | h | h | h | h | h | h | h | h | h | h | h | h | h | h | h | h | h | h | h
    | h | h | h | h | h | h | h | h <;> subst h <;> decide

/-- C14 (golden-trace comparison). Against a golden sequence whose events
pass the assertions of `print_event` and name one of the eight kinds (as those
of `correct_trace`, the golden sequence of `main`, do), for every recorded
sequence: a length mismatch stops the run in the assertion before anything is
compared or printed; with equal lengths the run prints `Success!` and returns
0 exactly when every pair of events matches; otherwise, for the least index
`i` whose pair does not match, the run does not return 0 and writes
`Traces differs at event i:`, the golden sequence with the marker before line
`i`, and the recorded sequence with the marker before line `i`; when the
recorded events are printable too, it writes both sequences in full and
returns -1. -/
theorem golden_comparison (fmtf : float → String) (trace golden : List event)
    (hg : ∀ e ∈ golden, printable e) :
    (trace.length ≠ golden.length →
      check_traces fmtf trace golden = ⟨"", .aborted .assertion_failed⟩) ∧
    (trace.length = golden.length →
      (check_traces fmtf trace golden = ⟨"Success!\n", .returned 0⟩ ↔
        ∀ p ∈ trace.zip golden, events_match p.1 p.2 = true) ∧
      ∀ (i : Nat) (a b : event), (trace)[i]? = some a → (golden)[i]? = some b →
        events_match a b = false →
        (∀ j, j < i → ∀ a2 b2, (trace)[j]? = some a2 → (golden)[j]? = some b2 →
          events_match a2 b2 = true) →
        (check_traces fmtf trace golden).exit ≠ .returned 0 ∧
        (∃ rest, (check_traces fmtf trace golden).stdout =
          "Traces differs at event " ++ intText i ++ ":\n"
            ++ "-------------------------------\n"
            ++ "Correct trace:\n"
            ++ event_lines fmtf (golden.take i) ++ " ===> "
            ++ event_lines fmtf (golden.drop i)
            ++ "-------------------------------\n"
            ++ "Trace encountered:\n"
            ++ event_lines fmtf (trace.take i) ++ " ===> " ++ rest) ∧
        ((∀ e ∈ trace, printable e) →
          check_traces fmtf trace golden =
            ⟨"Traces differs at event " ++ intText i ++ ":\n"
              ++ "-------------------------------\n"
              ++ "Correct trace:\n"
              ++ event_lines fmtf (golden.take i) ++ " ===> "
              ++ event_lines fmtf (golden.drop i)
              ++ "-------------------------------\n"
              ++ "Trace encountered:\n"
              ++ event_lines fmtf (trace.take i) ++ " ===> " ++ event_lines fmtf (trace.drop i)
              ++ "-------------------------------\n", .returned (-1)⟩)) := by
  refine ⟨fun hne => by simp [check_traces, hne], fun heq => ?_⟩
  have hcheck : check_traces fmtf trace golden =
      compare_loop fmtf trace golden 0 trace golden := by
    simp only [check_traces, heq, ne_eq, not_true_eq_false, if_false]
  refine ⟨?_, ?_⟩
  · rw [← first_mismatch_none, hcheck, compare_loop_eq]
    cases hf : first_mismatch trace golden with
    | none => simp
    | some d =>
      simp only [Nat.zero_add, reduceCtorEq, iff_false]
      intro h
      have := (report_header fmtf trace golden d).2
      rw [h] at this
      exact this rfl
  · intro i a b ha hb hm hlt
    have hf := first_mismatch_least trace golden i a b ha hb hm hlt
    have hi : i < trace.length := by
      by_contra hc
      rw [List.getElem?_eq_none (by omega)] at ha
      cases ha
    have hi2 : i < golden.length := by omega
    have hp := printable_before_mismatch trace golden i hg heq hlt
    rw [hcheck, compare_loop_eq, hf]
    simp only [Nat.zero_add]
    refine ⟨(report_marks_both fmtf trace golden i hg hi hi2 hp).1,
      (report_marks_both fmtf trace golden i hg hi hi2 hp).2, fun ht => ?_⟩
    exact report_full fmtf trace golden i
      (fun e he => (List.mem_append.1 he).elim (ht e) (hg e)) hi hi2

set_option maxRecDepth 100000 in
theorem correct_trace_matches_itself : ∀ e ∈ correct_trace, events_match e e = true := by
  intro e he
  simp only [correct_trace, List.mem_cons, List.mem_singleton, List.mem_nil_iff, or_false] at he
  rcases he with h | h | h | h | h | h | h | h | h | h | h | h | h | h | h | h | h | h | h | h
    | h | h | h | h | h | h | h | h <;> subst h <;> decide!

set_option maxRecDepth 100000 in
/-- C14 at the golden trace of `main` against itself with event 5 replaced by a
zeroed record: the events before index 5 match, event 5 does not, and the
run reports index 5 with both sequences in full and returns -1. -/
theorem golden_comparison_witness :
    (∀ e ∈ correct_trace, printable e) ∧
    events_match event.zero
      ⟨Char.ofNat 103, 1, 2, 32, 4, 1, 4, ![1, 2, 3, 4],
        ![0.995004, 0.980067, 0.955337, 0.921061]⟩ = false ∧
    check_traces (fun _ => "0") (correct_trace.set 5 event.zero) correct_trace =
      ⟨"Traces differs at event " ++ intText 5 ++ ":\n"
        ++ "-------------------------------\n"
        ++ "Correct trace:\n"
        ++ event_lines (fun _ => "0") (correct_trace.take 5) ++ " ===> "
        ++ event_lines (fun _ => "0") (correct_trace.drop 5)
        ++ "-------------------------------\n"
        ++ "Trace encountered:\n"
        ++ event_lines (fun _ => "0") ((correct_trace.set 5 event.zero).take 5) ++ " ===> "
        ++ event_lines (fun _ => "0") ((correct_trace.set 5 event.zero).drop 5)
        ++ "-------------------------------\n", .returned (-1)⟩ := by
  refine ⟨correct_trace_printable, by decide!, ?_⟩
  refine (((golden_comparison (fun _ => "0") (correct_trace.set 5 event.zero) correct_trace
    correct_trace_printable).2 (by rw [List.length_set])).2 5 event.zero _ rfl rfl (by decide!)
    ?_).2.2 ?_
  · intro j hj a2 b2 h1 h2
    rw [List.getElem?_set_ne (by omega)] at h1
    rw [h1] at h2
    cases h2
    exact correct_trace_matches_itself a2 (List.mem_iff_getElem?.2 ⟨j, h1⟩)
  · intro e he
    rcases List.mem_or_eq_of_mem_set he with h | h
    · exact correct_trace_printable e h
    · rw [h]
      unfold printable
      decide

end tracing
